import Mathlib

/-!
Image gallery storage layer.

A shallow embedding of the local-disk storage layer of the image gallery
(`internal/models/image.go`, `internal/services/local_db.go`,
`internal/services/local_storage.go`) together with the properties its
specification states about it.

Conventions of the embedding:

* Go strings are Lean `String`s, byte slices are `List UInt8`.
* A Go function that mutates its receiver or the disk returns the new
  receiver and the new file system next to its Go results.
* A Go `error` result is an `Option GoError` (`none` is `nil`); a Go
  `(*T, error)` constructor result is an `Except GoError T`.
* The `context.Context` argument is dropped: no local implementation reads it.
* The read/write mutex is dropped: the embedding is of sequential runs.
* The operating system and the standard library are not part of the
  repository.  The file system is a small explicit model (`FS`), path
  functions follow the documented behaviour of `path/filepath` on Unix, and
  `encoding/json` and the iteration order of Go maps are parameters
  (`JSONLib`, `MapOrder`).
-/

namespace ImageGallery

/-! ## Data model -/

/-- Byte slices. -/
abbrev Bytes := List UInt8

/-- The instant denoted by a Go `time.Time`: seconds since the Unix epoch and
nanoseconds within the second.  This is what `Time.Equal` compares; the
monotonic clock reading and the location pointer are not modelled. -/
structure Time where
  sec : Int
  nsec : Nat
deriving DecidableEq, Repr

/-- The Go struct `models.Image`, field for field (`Size` is an `int64`, which is
only stored and compared, never computed with). -/
structure Image where
  ID : String
  Title : String
  Description : String
  S3Key : String
  ContentType : String
  Size : Int
  CreatedAt : Time
  UpdatedAt : Time
deriving DecidableEq, Repr

/-- The zero value `models.Image{}`. -/
def Image.zero : Image :=
  { ID := "", Title := "", Description := "", S3Key := "", ContentType := "",
    Size := 0, CreatedAt := ⟨0, 0⟩, UpdatedAt := ⟨0, 0⟩ }

/-! ## Errors -/

/-- Go error values, as far as the storage layer tells them apart. -/
inductive GoError where
  /-- A `*PathError` whose cause is `ENOENT`. -/
  | notExist (op path : String)
  /-- Any other `*PathError`. -/
  | pathError (op path cause : String)
  /-- An error of a library outside the repository, by its message. -/
  | lib (msg : String)
  /-- The result of `fmt.Errorf(msg)` without a wrapped cause. -/
  | errorf (msg : String)
  /-- The result of `fmt.Errorf(ctx + ": %w", cause)`. -/
  | wrapped (ctx : String) (cause : GoError)
deriving DecidableEq, Repr

/-- Go's `os.IsNotExist`: it looks through a `*PathError` only, not through an
error wrapped by `fmt.Errorf`. -/
def IsNotExist : GoError → Bool
  | .notExist _ _ => true
  | _ => false

/-- The text of `err.Error()`. -/
def GoError.message : GoError → String
  | .notExist op path => op ++ " " ++ path ++ ": no such file or directory"
  | .pathError op path cause => op ++ " " ++ path ++ ": " ++ cause
  | .lib msg => msg
  | .errorf msg => msg
  | .wrapped ctx cause => ctx ++ ": " ++ cause.message

/-! ## Paths (`path/filepath` on Unix) -/

/-- Split a path at every separator `/`. -/
def splitSep : List Char → List (List Char)
  | [] => [[]]
  | c :: cs =>
    match splitSep cs with
    | [] => [[]]
    | w :: ws => if c = '/' then [] :: w :: ws else (c :: w) :: ws

/-- One step of `filepath.Clean` over the path elements seen so far (kept in
reverse): empty elements and `.` are dropped, `..` removes the element before
it unless there is none to remove. -/
def cleanStep (rooted : Bool) (stack : List (List Char)) (elem : List Char) :
    List (List Char) :=
  if elem = [] ∨ elem = ['.'] then stack
  else if elem = ['.', '.'] then
    match stack with
    | top :: rest => if top = ['.', '.'] then elem :: stack else rest
    | [] => if rooted then [] else [elem]
  else elem :: stack

/-- The elements of the cleaned path, first element first. -/
def cleanElems (path : List Char) : List (List Char) :=
  ((splitSep path).foldl (cleanStep (path.head? = some '/')) []).reverse

/-- Join path elements with `/`. -/
def joinSep : List (List Char) → List Char
  | [] => []
  | [e] => e
  | e :: es => e ++ '/' :: joinSep es

/-- Go's `filepath.Clean`. -/
def Clean (path : String) : String :=
  let body := joinSep (cleanElems path.data)
  if path.data.head? = some '/' then String.mk ('/' :: body)
  else if body = [] then "." else String.mk body

/-- Go's `strings.Join(elems, "/")`. -/
def joinStrings : List String → String
  | [] => ""
  | [e] => e
  | e :: es => e ++ "/" ++ joinStrings es

/-- Go's `filepath.Join`: the elements from the first non-empty one on are
joined with `/` and the result is cleaned; no non-empty element gives `""`. -/
def Join : List String → String
  | [] => ""
  | e :: es => if e = "" then Join es else Clean (joinStrings (e :: es))

/-- Drop the last path element: the path up to and including its last `/`. -/
def dropLastElem (path : List Char) : List Char :=
  (path.reverse.dropWhile (fun c => c != '/')).reverse

/-- Go's `filepath.Dir`. -/
def Dir (path : String) : String :=
  Clean (String.mk (dropLastElem path.data))

/-- The scan of `filepath.Ext` from the end of the path: `rest` is the path
reversed, `acc` the characters already passed. -/
def extScan : List Char → List Char → List Char
  | [], _ => []
  | c :: rest, acc =>
    if c = '/' then []
    else if c = '.' then '.' :: acc
    else extScan rest (c :: acc)

/-- Go's `filepath.Ext`: the suffix of the last path element starting at its
last dot, or `""`. -/
def Ext (path : String) : String :=
  String.mk (extScan path.data.reverse [])

/-- A cleaned path and all its ancestors, the path itself first. -/
def pathChain (path : String) : List String :=
  let rooted := path.data.head? = some '/'
  ((cleanElems path.data).inits.reverse.filter (fun es => es ≠ [])).map
    (fun es => if rooted then String.mk ('/' :: joinSep es) else String.mk (joinSep es))

/-! ## File system -/

/-- The part of the file system the stores touch.  Entries are named by
cleaned path. `denied` lists the paths at which the operating system refuses to
create or open for writing (permissions, quota, read-only mount); of a
directory listed there it also refuses to remove an entry. -/
structure FS where
  files : AList (fun _ : String => Bytes)
  dirs : List String
  denied : List String
deriving DecidableEq

/-- Whether `path` is a directory. The root, the working directory and the
directories above it (paths made of `..` elements only) always are. -/
def FS.isDir (fs : FS) (path : String) : Bool :=
  (cleanElems path.data).all (fun e => e = ['.', '.']) || decide (path ∈ fs.dirs)

/-- Go's `os.Mkdir` at a cleaned path whose parent exists. -/
def Mkdir (fs : FS) (path : String) : FS × Option GoError :=
  if path ∈ fs.denied then (fs, some (.pathError "mkdir" path "permission denied"))
  else if fs.isDir path ∨ (fs.files.lookup path).isSome then
    (fs, some (.pathError "mkdir" path "file exists"))
  else ({ fs with dirs := path :: fs.dirs }, none)

/-- The recursion of `os.MkdirAll` over a path and its ancestors: a path that is
already a directory ends it with success, one that is a file with an error;
otherwise the parent is made first and then the path itself. -/
def mkdirChain (fs : FS) : List String → FS × Option GoError
  | [] => (fs, none)
  | path :: parents =>
    if fs.isDir path then (fs, none)
    else if (fs.files.lookup path).isSome then
      (fs, some (.pathError "mkdir" path "not a directory"))
    else
      match mkdirChain fs parents with
      | (fs1, some err) => (fs1, some err)
      | (fs1, none) => Mkdir fs1 path

/-- Go's `os.MkdirAll`. -/
def MkdirAll (fs : FS) (path : String) : FS × Option GoError :=
  mkdirChain fs (pathChain (Clean path))

/-- Go's `os.ReadFile`. -/
def ReadFile (fs : FS) (path : String) : Except GoError Bytes :=
  let p := Clean path
  match fs.files.lookup p with
  | some data => .ok data
  | none =>
    if fs.isDir p then .error (.pathError "read" p "is a directory")
    else .error (.notExist "open" p)

/-- Opening a file with `O_CREATE|O_TRUNC`, as `os.Create` and `os.WriteFile`
do: the file exists and is empty afterwards. -/
def Create (fs : FS) (path : String) : FS × Option GoError :=
  let p := Clean path
  if fs.isDir p then (fs, some (.pathError "open" p "is a directory"))
  else if ¬ fs.isDir (Dir p) then (fs, some (.notExist "open" p))
  else if p ∈ fs.denied then (fs, some (.pathError "open" p "permission denied"))
  else ({ fs with files := fs.files.insert p [] }, none)

/-- Go's `os.WriteFile`. -/
def WriteFile (fs : FS) (path : String) (data : Bytes) : FS × Option GoError :=
  match Create fs path with
  | (fs1, some err) => (fs1, some err)
  | (fs1, none) => ({ fs1 with files := fs1.files.insert (Clean path) data }, none)

/-! ## Library parameters -/

/-- The two calls into `encoding/json` made by the metadata store:
`json.MarshalIndent(images, "", "  ")` and `json.Unmarshal(data, &images)`. -/
structure JSONLib where
  marshalIndent : List Image → Except GoError Bytes
  unmarshal : Bytes → Except GoError (List Image)

/-- The order in which a `for ... range` loop visits the values of a Go map: some
rearrangement of them, chosen by the runtime. -/
structure MapOrder where
  visit : List Image → List Image
  isPerm : ∀ l, (visit l).Perm l

/-! ## Local metadata store (`local_db.go`) -/

/-- The Go struct `LocalDBService` without its mutex. -/
structure LocalDBService where
  storagePath : String
  images : AList (fun _ : String => Image)
deriving DecidableEq

/-- The values of the map in the order a `range` loop visits them. -/
def rangeImages (ord : MapOrder) (m : AList (fun _ : String => Image)) : List Image :=
  ord.visit (m.entries.map (fun e => e.2))

/-- The loop of `loadData`: `d.images[img.ID] = img` for each decoded image. -/
def addAll (m : AList (fun _ : String => Image)) (images : List Image) :
    AList (fun _ : String => Image) :=
  images.foldl (fun acc img => acc.insert img.ID img) m

/-- Go's `loadData`. -/
def LocalDBService.loadData (json : JSONLib) (fs : FS) (d : LocalDBService) :
    LocalDBService × Option GoError :=
  let filePath := Join [d.storagePath, "images.json"]
  match ReadFile fs filePath with
  | .error err => (d, some err)
  | .ok data =>
    match json.unmarshal data with
    | .error err => (d, some (.wrapped "failed to parse images data" err))
    | .ok images => ({ d with images := addAll d.images images }, none)

/-- Go's `NewLocalDBService`. -/
def NewLocalDBService (json : JSONLib) (fs : FS) (storagePath : String) :
    FS × Except GoError LocalDBService :=
  let dbPath := Join [storagePath, "db"]
  match MkdirAll fs dbPath with
  | (fs1, some err) => (fs1, .error (.wrapped "failed to create DB storage directory" err))
  | (fs1, none) =>
    let service : LocalDBService := { storagePath := dbPath, images := ∅ }
    match LocalDBService.loadData json fs1 service with
    | (service1, some err) =>
      if !IsNotExist err then (fs1, .error (.wrapped "failed to load existing DB" err))
      else (fs1, .ok service1)
    | (service1, none) => (fs1, .ok service1)

/-- Go's `saveData`. -/
def LocalDBService.saveData (json : JSONLib) (ord : MapOrder) (fs : FS) (d : LocalDBService) :
    FS × Option GoError :=
  let filePath := Join [d.storagePath, "images.json"]
  let images := rangeImages ord d.images
  match json.marshalIndent images with
  | .error err => (fs, some (.wrapped "failed to marshal images data" err))
  | .ok data =>
    match WriteFile fs filePath data with
    | (fs1, some err) => (fs1, some (.wrapped "failed to write images data" err))
    | (fs1, none) => (fs1, none)

/-- Go's `SaveImage`. -/
def LocalDBService.SaveImage (json : JSONLib) (ord : MapOrder) (fs : FS) (d : LocalDBService)
    (image : Image) : LocalDBService × FS × Option GoError :=
  let d1 := { d with images := d.images.insert image.ID image }
  (d1, LocalDBService.saveData json ord fs d1)

/-- Go's `GetImage`. -/
def LocalDBService.GetImage (d : LocalDBService) (id : String) : Image × Option GoError :=
  match d.images.lookup id with
  | none => (Image.zero, some (.errorf "image not found"))
  | some image => (image, none)

/-- Go's `ListImages`. -/
def LocalDBService.ListImages (ord : MapOrder) (d : LocalDBService) : List Image × Option GoError :=
  (rangeImages ord d.images, none)

/-- Go's `DeleteImage`. -/
def LocalDBService.DeleteImage (json : JSONLib) (ord : MapOrder) (fs : FS) (d : LocalDBService)
    (id : String) : LocalDBService × FS × Option GoError :=
  match d.images.lookup id with
  | none => (d, fs, some (.errorf "image not found"))
  | some _ =>
    let d1 := { d with images := d.images.erase id }
    (d1, LocalDBService.saveData json ord fs d1)

/-- The images of `rs` saved one after the other, as the loop
`for _, img := range testImages { service.SaveImage(ctx, img) }` of the test. -/
def saveAll (json : JSONLib) (ord : MapOrder) (fs : FS) (d : LocalDBService) :
    List Image → LocalDBService × FS
  | [] => (d, fs)
  | r :: rs =>
    match LocalDBService.SaveImage json ord fs d r with
    | (d1, fs1, _) => saveAll json ord fs1 d1 rs

/-- Every key of the map is the `ID` of the image stored under it: the only
assignment to the map in the source is `d.images[image.ID] = image`. -/
def LocalDBService.WellKeyed (d : LocalDBService) : Prop :=
  ∀ e ∈ d.images.entries, e.2.ID = e.1

/-! ## Local object store (`local_storage.go`) -/

/-- The Go struct `LocalStorageService`. -/
structure LocalStorageService where
  storagePath : String
deriving DecidableEq

/-- A `multipart.File` read from its current position to its end: the bytes it
delivers and the error that ends the reading, `none` for a clean `io.EOF`. -/
structure File where
  data : Bytes
  err : Option GoError

/-- Go's `NewLocalStorageService`. -/
def NewLocalStorageService (fs : FS) (storagePath : String) :
    FS × Except GoError LocalStorageService :=
  match MkdirAll fs storagePath with
  | (fs1, some err) => (fs1, .error (.wrapped "failed to create storage directory" err))
  | (fs1, none) => (fs1, .ok { storagePath := storagePath })

/-- Go's `GetBucketName`. -/
def LocalStorageService.GetBucketName (s : LocalStorageService) : String :=
  s.storagePath

/-- Go's `UploadImage`. The bytes read before a read error are already in the
file when the error is returned. -/
def LocalStorageService.UploadImage (fs : FS) (s : LocalStorageService) (key : String)
    (fileContent : File) (_contentType : String) : FS × Option GoError :=
  let filePath := Join [s.storagePath, key]
  let dir := Dir filePath
  match MkdirAll fs dir with
  | (fs1, some err) => (fs1, some (.wrapped "failed to create directory" err))
  | (fs1, none) =>
    match Create fs1 filePath with
    | (fs2, some err) => (fs2, some (.wrapped "failed to create file" err))
    | (fs2, none) =>
      let fs3 := { fs2 with files := fs2.files.insert (Clean filePath) fileContent.data }
      match fileContent.err with
      | some err => (fs3, some (.wrapped "failed to copy file content" err))
      | none => (fs3, none)

/-- Go's `GetImage`; a `nil` byte slice is `none`. -/
def LocalStorageService.GetImage (fs : FS) (s : LocalStorageService) (key : String) :
    Option Bytes × String × Option GoError :=
  let filePath := Join [s.storagePath, key]
  match ReadFile fs filePath with
  | .error err => (none, "", some (.wrapped "failed to read file" err))
  | .ok content =>
    let ext := Ext key
    let contentType :=
      if ext = ".jpg" ∨ ext = ".jpeg" then "image/jpeg"
      else if ext = ".png" then "image/png"
      else if ext = ".gif" then "image/gif"
      else if ext = ".webp" then "image/webp"
      else "image/jpeg"
    (some content, contentType, none)

deriving instance DecidableEq for Except

/-! ## A concrete instance of the library parameters -/

/-- A number in decimal digits followed by a comma. -/
def encodeNat (n : Nat) : Bytes :=
  (Nat.toDigits 10 n).map (fun c => UInt8.ofNat c.toNat) ++ [44]

/-- A string as its length followed by its code points. -/
def encodeString (s : String) : Bytes :=
  encodeNat s.data.length ++ (s.data.map (fun c => encodeNat c.toNat)).flatten

/-- An integer as a sign (0 or 1) followed by its magnitude. -/
def encodeInt (i : Int) : Bytes :=
  encodeNat (if i < 0 then 1 else 0) ++ encodeNat i.natAbs

/-- A record as its eight fields in the order of the struct. -/
def encodeImage (img : Image) : Bytes :=
  encodeString img.ID ++ encodeString img.Title ++ encodeString img.Description ++
  encodeString img.S3Key ++ encodeString img.ContentType ++ encodeInt img.Size ++
  encodeInt img.CreatedAt.sec ++ encodeNat img.CreatedAt.nsec ++
  encodeInt img.UpdatedAt.sec ++ encodeNat img.UpdatedAt.nsec

/-- Read back the numbers of a document; `cur` is the number whose digits are
being read. Any byte that is neither a digit nor a comma is an error. -/
def scanNats : Bytes → Option Nat → Option (List Nat)
  | [], none => some []
  | [], some _ => none
  | b :: bs, cur =>
    if b = 44 then
      match cur with
      | none => none
      | some n => (scanNats bs none).map (fun ns => n :: ns)
    else if 48 ≤ b.toNat ∧ b.toNat ≤ 57 then
      scanNats bs (some (cur.getD 0 * 10 + (b.toNat - 48)))
    else none

/-- Read a string off the front of a list of numbers. -/
def takeString : List Nat → Option (String × List Nat)
  | [] => none
  | n :: rest =>
    if n ≤ rest.length then some (String.mk ((rest.take n).map Char.ofNat), rest.drop n)
    else none

/-- Read an integer off the front of a list of numbers. -/
def takeInt : List Nat → Option (Int × List Nat)
  | s :: m :: rest => some (if s = 0 then (m : Int) else -(m : Int), rest)
  | _ => none

/-- Read a natural number off the front of a list of numbers. -/
def takeNat : List Nat → Option (Nat × List Nat)
  | n :: rest => some (n, rest)
  | [] => none

/-- Read a record off the front of a list of numbers. -/
def takeImage (ns : List Nat) : Option (Image × List Nat) := do
  let (id, ns) ← takeString ns
  let (title, ns) ← takeString ns
  let (description, ns) ← takeString ns
  let (s3Key, ns) ← takeString ns
  let (contentType, ns) ← takeString ns
  let (size, ns) ← takeInt ns
  let (csec, ns) ← takeInt ns
  let (cnsec, ns) ← takeNat ns
  let (usec, ns) ← takeInt ns
  let (unsec, ns) ← takeNat ns
  pure ({ ID := id, Title := title, Description := description, S3Key := s3Key,
          ContentType := contentType, Size := size, CreatedAt := ⟨csec, cnsec⟩,
          UpdatedAt := ⟨usec, unsec⟩ }, ns)

/-- Read records until the numbers are used up; `fuel` bounds their count. -/
def takeImages : Nat → List Nat → Option (List Image)
  | _, [] => some []
  | 0, _ :: _ => none
  | fuel + 1, n :: ns => do
    let (img, rest) ← takeImage (n :: ns)
    let imgs ← takeImages fuel rest
    pure (img :: imgs)

/-- A small codec for arrays of records, an instance of the `encoding/json`
parameter: it decodes what it encodes and rejects every other document. -/
def plainCodec : JSONLib where
  marshalIndent images := .ok ((images.map encodeImage).flatten)
  unmarshal data :=
    match scanNats data none with
    | none => .error (.lib "invalid character in document")
    | some ns =>
      match takeImages ns.length ns with
      | none => .error (.lib "unexpected end of document")
      | some images => .ok images

/-- Map iteration in the order of the entries. -/
def entryOrder : MapOrder where
  visit l := l
  isPerm l := List.Perm.refl l

/-- Map iteration in the reverse order of the entries. -/
def reverseOrder : MapOrder where
  visit l := l.reverse
  isPerm l := List.reverse_perm l

/-- The record of the test `SaveAndGetImage`, with `now` fixed. -/
def testImage1 : Image :=
  { ID := "test-id-1", Title := "Test Image", Description := "A test image",
    S3Key := "test1.jpg", ContentType := "image/jpeg", Size := 12345,
    CreatedAt := ⟨1700000000, 0⟩, UpdatedAt := ⟨1700000000, 0⟩ }

/-- A disk on which only the temporary directory of the tests exists. -/
def tempDisk : FS :=
  { files := ∅, dirs := ["/tmp", "/tmp/gallery"], denied := [] }

/-- The first record of the test `ListImages`. -/
def testImage2 : Image :=
  { ID := "test-id-2", Title := "Test Image 2", Description := "A test image 2",
    S3Key := "test2.jpg", ContentType := "image/jpeg", Size := 12345,
    CreatedAt := ⟨1700000000, 0⟩, UpdatedAt := ⟨1700000000, 0⟩ }

/-- The second record of the test `ListImages`. -/
def testImage3 : Image :=
  { ID := "test-id-3", Title := "Test Image 3", Description := "A test image 3",
    S3Key := "test3.jpg", ContentType := "image/jpeg", Size := 67890,
    CreatedAt := ⟨1700000000, 0⟩, UpdatedAt := ⟨1700000000, 0⟩ }

/-- The record of the test `DeleteImage`. -/
def testImageDelete : Image :=
  { ID := "test-id-delete", Title := "Delete Test", Description := "A test image to delete",
    S3Key := "delete-test.jpg", ContentType := "image/jpeg", Size := 12345,
    CreatedAt := ⟨1700000000, 0⟩, UpdatedAt := ⟨1700000000, 0⟩ }

/-- The record of the test `Persistence`. -/
def testImagePersistence : Image :=
  { ID := "test-id-persistence", Title := "Persistence Test",
    Description := "A test image for persistence", S3Key := "persistence-test.jpg",
    ContentType := "image/jpeg", Size := 12345,
    CreatedAt := ⟨1700000000, 0⟩, UpdatedAt := ⟨1700000000, 0⟩ }

/-- The temporary directory of the tests with the `db` directory in it, as
`NewLocalDBService` leaves the disk. -/
def dbDisk : FS :=
  { files := ∅, dirs := ["/tmp/gallery/db", "/tmp", "/tmp/gallery"], denied := [] }

/-- The store `NewLocalDBService` returns on the empty temporary directory. -/
def emptyStore : LocalDBService :=
  { storagePath := "/tmp/gallery/db", images := ∅ }

/-- The path of the persisted document of a store. -/
def docPath (d : LocalDBService) : String :=
  Clean (Join [d.storagePath, "images.json"])

/-- Whether opening the cleaned path `p` for writing succeeds: it is not a
directory, its parent directory exists, and the system does not refuse. -/
def FS.canCreate (fs : FS) (p : String) : Bool :=
  !fs.isDir p && fs.isDir (Dir p) && !decide (p ∈ fs.denied)

/-- The store of the test `DeleteImage` after its record has been saved. -/
def storeWithDelete : LocalDBService :=
  { storagePath := "/tmp/gallery/db", images := AList.singleton "test-id-delete" testImageDelete }

/-- The disk after the record of the test `DeleteImage` has been saved, with
the document since made read-only: the system refuses to open it for writing. -/
def readOnlyDisk : FS :=
  { (LocalDBService.SaveImage plainCodec entryOrder dbDisk emptyStore testImageDelete).2.1 with
    denied := ["/tmp/gallery/db/images.json"] }

/-- The object store of the tests, rooted at the temporary directory. -/
def testStorage : LocalStorageService :=
  { storagePath := "/tmp/gallery" }

/-- The bytes of "another test image", the payload of the test `GetImage`. -/
def anotherTestImage : Bytes :=
  [97, 110, 111, 116, 104, 101, 114, 32, 116, 101, 115, 116, 32, 105, 109, 97, 103, 101]

/-- The disk of the test `GetImage`: the payload written to `test2.jpg` in the
temporary directory. -/
def payloadDisk : FS :=
  { files := AList.singleton "/tmp/gallery/test2.jpg" anotherTestImage,
    dirs := ["/tmp", "/tmp/gallery"], denied := [] }

/-- The bytes of "hello". -/
def helloBytes : Bytes := [104, 101, 108, 108, 111]

/-- The bytes of "fake image content", the payload of the test `UploadImage`. -/
def fakeImageContent : Bytes :=
  [102, 97, 107, 101, 32, 105, 109, 97, 103, 101, 32, 99, 111, 110, 116, 101, 110, 116]

/-- The content type `GetImage` of the local object store gives a key: the
`switch` on the extension of the key in the source. -/
def extContentType (key : String) : String :=
  if Ext key = ".jpg" ∨ Ext key = ".jpeg" then "image/jpeg"
  else if Ext key = ".png" then "image/png"
  else if Ext key = ".gif" then "image/gif"
  else if Ext key = ".webp" then "image/webp"
  else "image/jpeg"

/-- The path with the given elements, absolute when `rooted`. -/
def render (rooted : Bool) (elems : List (List Char)) : String :=
  if rooted then String.mk ('/' :: joinSep elems) else String.mk (joinSep elems)

/-- The stacks of path elements that `filepath.Clean` builds (last element
first): no element is empty, `.` or contains a separator, and `..` elements
stand only at the start of a relative path. -/
def StackOK (rooted : Bool) : List (List Char) → Prop
  | [] => True
  | top :: rest =>
    '/' ∉ top ∧ top ≠ [] ∧ top ≠ ['.'] ∧
      (top = ['.', '.'] → rooted = false ∧ ∀ e ∈ rest, e = ['.', '.']) ∧ StackOK rooted rest

/-- A disk on which `db` in the temporary directory is a regular file, not a
directory; there is no document `db/images.json`. -/
def dbIsFileDisk : FS :=
  { files := AList.singleton "/tmp/gallery/db" [], dirs := ["/tmp", "/tmp/gallery"],
    denied := [] }

/-- A disk whose document holds the single byte `{`, which is not an array of
records. -/
def malformedDisk : FS :=
  { files := AList.singleton "/tmp/gallery/db/images.json" [123],
    dirs := ["/tmp/gallery/db", "/tmp", "/tmp/gallery"], denied := [] }

/-! ## Removing files, and the remaining methods of the object stores -/

/-- Whether some file or directory lies below the directory `p`. -/
def FS.hasEntryBelow (fs : FS) (p : String) : Bool :=
  (fs.files.keys ++ fs.dirs).any (fun q => decide (q ≠ p) && decide (p ∈ pathChain q))

/-- Go's `os.Remove`: it removes a file, or a directory that is empty.
Removing an entry is a write to the directory that holds it, whatever the
permissions of the entry itself: the system refuses when that directory is
listed in `denied`. -/
def Remove (fs : FS) (path : String) : FS × Option GoError :=
  let p := Clean path
  match fs.files.lookup p with
  | some _ =>
    if Dir p ∈ fs.denied then (fs, some (.pathError "remove" p "permission denied"))
    else ({ fs with files := fs.files.erase p }, none)
  | none =>
    if p ∈ fs.dirs then
      if Dir p ∈ fs.denied then (fs, some (.pathError "remove" p "permission denied"))
      else if fs.hasEntryBelow p then (fs, some (.pathError "remove" p "directory not empty"))
      else ({ fs with dirs := fs.dirs.filter (fun q => q ≠ p) }, none)
    else if fs.isDir p then (fs, some (.pathError "remove" p "device or resource busy"))
    else (fs, some (.notExist "remove" p))

/-- Go's `GetImageURL` of the local object store. -/
def LocalStorageService.GetImageURL (_s : LocalStorageService) (key : String) :
    String × Option GoError :=
  ("/images/" ++ key, none)

/-- Go's `DeleteImage` of the local object store. -/
def LocalStorageService.DeleteImage (fs : FS) (s : LocalStorageService) (key : String) :
    FS × Option GoError :=
  let filePath := Join [s.storagePath, key]
  Remove fs filePath

/-- The Go struct `S3Service`; the handle of the S3 client is left out. -/
structure S3Service where
  bucketName : String
deriving DecidableEq

/-- Go's `GetImageURL` of the cloud object store. -/
def S3Service.GetImageURL (_s : S3Service) (key : String) : String × Option GoError :=
  ("/images/" ++ key, none)

/-- The bytes of "hi". -/
def hiBytes : Bytes := [104, 105]

/-- The path elements of a key that `filepath.Clean` keeps: its non-empty
elements other than `.`. -/
def keyElems (key : String) : List (List Char) :=
  (splitSep key.data).filter (fun e => decide (e ≠ []) && decide (e ≠ ['.']))

/-- A plain file name: not empty, without separator, and neither `.` nor `..`. -/
def PlainName (key : String) : Prop :=
  key.data ≠ [] ∧ '/' ∉ key.data ∧ key.data ≠ ['.'] ∧ key.data ≠ ['.', '.']

instance (key : String) : Decidable (PlainName key) := by
  unfold PlainName; infer_instance

/-- The path of `path` relative to the directory `root` when `path` lies in or
below `root` (both absolute or both relative, the elements of `root` a prefix
of those of `path`), as `filepath.Rel` gives it; `none` when it lies outside. -/
def relPath (root path : String) : Option String :=
  if decide (root.data.head? = some '/') = decide (path.data.head? = some '/') ∧
      (cleanElems root.data).isPrefixOf (cleanElems path.data) = true then
    some (String.mk (joinSep ((cleanElems path.data).drop (cleanElems root.data).length)))
  else none

/-- The disk after the metadata store on the temporary directory has saved the
record of the test: the document holds the encoding of that record. -/
def savedDisk : FS :=
  (LocalDBService.SaveImage plainCodec entryOrder dbDisk emptyStore testImage1).2.1

/-! ## Concurrent calls of the local metadata store

The statements of `SaveImage`, `DeleteImage` and `saveData` of `local_db.go`
as steps of threads that share the store, the disk and the `sync.RWMutex`. -/

/-- A call of a mutating method of the local metadata store. -/
inductive Call where
  | save (image : Image)
  | delete (id : String)
deriving DecidableEq

/-- The statement a thread executes next. -/
inductive PC where
  /-- In `SaveImage` or `DeleteImage`: `d.mutex.Lock()`. -/
  | atLock
  /-- In `SaveImage`: `d.images[image.ID] = image`; in `DeleteImage`: the test
  `_, exists := d.images[id]` and `delete(d.images, id)`. -/
  | atUpdate
  /-- In `SaveImage` or `DeleteImage`: `d.mutex.Unlock()` before `return d.saveData()`. -/
  | atUnlock
  /-- In `DeleteImage`: `d.mutex.Unlock()` before `return fmt.Errorf("image not found")`. -/
  | atUnlockNotFound
  /-- In `saveData`: `d.mutex.RLock()`. -/
  | atRLock
  /-- In `saveData`: the loop that copies the map into `images`. -/
  | atCopy
  /-- In `saveData`: `d.mutex.RUnlock()`. -/
  | atRUnlock
  /-- In `saveData`: `json.MarshalIndent` and `os.WriteFile`. -/
  | atWrite
  /-- The call has returned. -/
  | returned
deriving DecidableEq

/-- A thread: its call, its next statement, the local slice `images` of
`saveData`, and the error it returned. -/
structure Thread where
  call : Call
  pc : PC
  images : List Image
  result : Option GoError

/-- The state of a `sync.RWMutex`: whether it is locked for writing, and the
number of read locks held. -/
structure RWMutex where
  writer : Bool
  readers : Nat
deriving DecidableEq

/-- The store, the disk, the mutex of the store and the threads calling it. -/
structure World where
  store : LocalDBService
  fs : FS
  mutex : RWMutex
  threads : Nat → Thread

/-- The world with thread `tid` replaced. -/
def World.setThread (w : World) (tid : Nat) (t : Thread) : World :=
  { w with threads := fun j => if j = tid then t else w.threads j }

/-- One statement of thread `tid`. A thread that waits for the mutex, or has
returned, leaves the world as it is. -/
def step (json : JSONLib) (ord : MapOrder) (w : World) (tid : Nat) : World :=
  let t := w.threads tid
  match t.pc with
  | .atLock =>
    if w.mutex.writer = false ∧ w.mutex.readers = 0 then
      World.setThread { w with mutex := { w.mutex with writer := true } } tid
        { t with pc := .atUpdate }
    else w
  | .atUpdate =>
    match t.call with
    | .save image =>
      World.setThread
        { w with store := { w.store with images := w.store.images.insert image.ID image } }
        tid { t with pc := .atUnlock }
    | .delete id =>
      match w.store.images.lookup id with
      | none => World.setThread w tid { t with pc := .atUnlockNotFound }
      | some _ =>
        World.setThread { w with store := { w.store with images := w.store.images.erase id } }
          tid { t with pc := .atUnlock }
  | .atUnlock =>
    World.setThread { w with mutex := { w.mutex with writer := false } } tid
      { t with pc := .atRLock }
  | .atUnlockNotFound =>
    World.setThread { w with mutex := { w.mutex with writer := false } } tid
      { t with pc := .returned, result := some (.errorf "image not found") }
  | .atRLock =>
    if w.mutex.writer = false then
      World.setThread { w with mutex := { w.mutex with readers := w.mutex.readers + 1 } } tid
        { t with pc := .atCopy }
    else w
  | .atCopy =>
    World.setThread w tid { t with pc := .atRUnlock, images := rangeImages ord w.store.images }
  | .atRUnlock =>
    World.setThread { w with mutex := { w.mutex with readers := w.mutex.readers - 1 } } tid
      { t with pc := .atWrite }
  | .atWrite =>
    match json.marshalIndent t.images with
    | .error err =>
      World.setThread w tid
        { t with pc := .returned, result := some (.wrapped "failed to marshal images data" err) }
    | .ok data =>
      match WriteFile w.fs (Join [w.store.storagePath, "images.json"]) data with
      | (fs1, some err) =>
        World.setThread { w with fs := fs1 } tid
          { t with pc := .returned, result := some (.wrapped "failed to write images data" err) }
      | (fs1, none) =>
        World.setThread { w with fs := fs1 } tid { t with pc := .returned, result := none }
  | .returned => w

/-- The world after the threads have taken steps in the order of `schedule`. -/
def run (json : JSONLib) (ord : MapOrder) (w : World) (schedule : List Nat) : World :=
  schedule.foldl (step json ord) w

/-- Two threads about to save the first and the second record of the test
`ListImages` into the empty store on the temporary directory. -/
def twoSaves : World :=
  { store := emptyStore, fs := dbDisk, mutex := ⟨false, 0⟩,
    threads := fun j =>
      if j = 0 then ⟨.save testImage2, .atLock, [], none⟩
      else ⟨.save testImage3, .atLock, [], none⟩ }

/-- An interleaving of the two saves: the first thread runs up to its rewrite,
the second runs to its end, then the first rewrites the document. -/
def staleWriteSchedule : List Nat :=
  [0, 0, 0, 0, 0, 0, 1, 1, 1, 1, 1, 1, 1, 0]

/-! ## Cloud-table-backed metadata store (`dynamodb.go`) and the client of its test -/

/-- The attribute values the store and its test use:
`types.AttributeValueMemberS` and `types.AttributeValueMemberN`. -/
inductive AttributeValue where
  | S (value : String)
  | N (value : String)
deriving DecidableEq

/-- A DynamoDB item or key, `map[string]types.AttributeValue`. -/
abbrev Item := AList (fun _ : String => AttributeValue)

/-- The calls of the DynamoDB client the store makes for one record, over a
client whose state is `σ`: `GetItem` returns the item of the output (`none` for
a nil `Item`) and the error, `DeleteItem` the new state and the error. -/
structure DynamoDBAPI (σ : Type) where
  GetItem : σ → String → Item → Option Item × Option GoError
  DeleteItem : σ → String → Item → σ × Option GoError

/-- The Go struct `DynamoDBService`; the client is passed to the methods. -/
structure DynamoDBService where
  tableName : String
deriving DecidableEq

/-- The key `map[string]types.AttributeValue{"id": &types.AttributeValueMemberS{Value: id}}`. -/
def idKey (id : String) : Item :=
  AList.singleton "id" (AttributeValue.S id)

/-- Go's `GetImage` of `DynamoDBService`; `attributevalue.UnmarshalMap` is the
parameter `unmarshalMap`. -/
def DynamoDBService.GetImage {σ : Type} (client : DynamoDBAPI σ)
    (unmarshalMap : Item → Except GoError Image) (st : σ) (d : DynamoDBService)
    (id : String) : Image × Option GoError :=
  match client.GetItem st d.tableName (idKey id) with
  | (_, some err) => (Image.zero, some err)
  | (none, none) => (Image.zero, some (.errorf "image not found"))
  | (some item, none) =>
    match unmarshalMap item with
    | .error err => (Image.zero, some err)
    | .ok image => (image, none)

/-- Go's `DeleteImage` of `DynamoDBService`: the error of `DeleteItem`. -/
def DynamoDBService.DeleteImage {σ : Type} (client : DynamoDBAPI σ) (st : σ)
    (d : DynamoDBService) (id : String) : σ × Option GoError :=
  client.DeleteItem st d.tableName (idKey id)

/-- The Go struct `mockDynamoDBClient` of `dynamodb_test.go`. -/
structure mockDynamoDBClient where
  items : AList (fun _ : String => Item)

/-- The error `ErrMissingKey` of the test. -/
def ErrMissingKey : GoError := .errorf "missing required key 'id'"

/-- The error `ErrInvalidKeyType` of the test. -/
def ErrInvalidKeyType : GoError := .errorf "ID must be a string"

/-- Go's `GetItem` of the mock client. -/
def mockDynamoDBClient.GetItem (m : mockDynamoDBClient) (tableName : String) (key : Item) :
    Option Item × Option GoError :=
  match key.lookup "id" with
  | none => (none, some ErrMissingKey)
  | some (.N _) => (none, some ErrInvalidKeyType)
  | some (.S value) =>
    match m.items.lookup (tableName ++ "/" ++ value) with
    | none => (none, none)
    | some item => (some item, none)

/-- Go's `DeleteItem` of the mock client: deleting a missing item is no error. -/
def mockDynamoDBClient.DeleteItem (m : mockDynamoDBClient) (tableName : String) (key : Item) :
    mockDynamoDBClient × Option GoError :=
  match key.lookup "id" with
  | none => (m, some ErrMissingKey)
  | some (.N _) => (m, some ErrInvalidKeyType)
  | some (.S value) => ({ items := m.items.erase (tableName ++ "/" ++ value) }, none)

/-- The mock client as the client of the store. -/
def mockAPI : DynamoDBAPI mockDynamoDBClient where
  GetItem := mockDynamoDBClient.GetItem
  DeleteItem := mockDynamoDBClient.DeleteItem

/-- The mock client of the test before any record is saved. -/
def emptyMock : mockDynamoDBClient := { items := ∅ }

/-- The store of the test, on the table "test-table". -/
def testTable : DynamoDBService := { tableName := "test-table" }

/-! ## The persisted document and the map -/

/-- The persisted document of the store decodes to a list of records that,
loaded into an empty map as `loadData` does, gives the lookups of the map of
the store: the document and the map agree. -/
def DocAgrees (json : JSONLib) (fs : FS) (d : LocalDBService) : Prop :=
  ∃ data l, fs.files.lookup (docPath d) = some data ∧ json.unmarshal data = .ok l ∧
    ∀ id, (addAll ∅ l).lookup id = d.images.lookup id

/-- A mutating call of the local metadata store. -/
inductive Mutation where
  | save (image : Image)
  | delete (id : String)
deriving DecidableEq

/-- The call `m` on the store. -/
def applyMutation (json : JSONLib) (ord : MapOrder) (fs : FS) (d : LocalDBService) :
    Mutation → LocalDBService × FS × Option GoError
  | .save image => LocalDBService.SaveImage json ord fs d image
  | .delete id => LocalDBService.DeleteImage json ord fs d id

/-- The calls of `ms` one after the other, whatever they return. -/
def runMutations (json : JSONLib) (ord : MapOrder) (fs : FS) (d : LocalDBService) :
    List Mutation → LocalDBService × FS
  | [] => (d, fs)
  | m :: ms =>
    match applyMutation json ord fs d m with
    | (d1, fs1, _) => runMutations json ord fs1 d1 ms

/-- The disk of the test `GetImage` with a payload under an upper-case
extension. -/
def upperCaseDisk : FS :=
  { files := AList.singleton "/tmp/gallery/a.PNG" helloBytes,
    dirs := ["/tmp", "/tmp/gallery"], denied := [] }

/-- The record of the test `SaveAndGetImage` under another title. -/
def retitledImage1 : Image := { testImage1 with Title := "Second Title" }

/-- A disk whose document holds three records, the first and the last under
the same id. -/
def repeatedDisk : FS :=
  { files := AList.singleton "/tmp/gallery/db/images.json"
      (([testImage1, testImage2, retitledImage1].map encodeImage).flatten),
    dirs := ["/tmp/gallery/db", "/tmp", "/tmp/gallery"], denied := [] }

/-! ## HTTP handlers (`handlers.go`)

The handlers reach the two stores through the interfaces of `storage.go` and
`database.go`. A service is the record of its methods over the state `σ` of
the world it acts on; the methods that only read return no new state. -/

/-- Go's interface `StorageService`. -/
structure StorageService (σ : Type) where
  UploadImage : σ → String → File → String → σ × Option GoError
  GetImageURL : σ → String → String × Option GoError
  DeleteImage : σ → String → σ × Option GoError
  GetImage : σ → String → Option Bytes × String × Option GoError
  GetBucketName : String

/-- Go's interface `DatabaseService`. -/
structure DatabaseService (σ : Type) where
  SaveImage : σ → Image → σ × Option GoError
  GetImage : σ → String → Image × Option GoError
  ListImages : σ → List Image × Option GoError
  DeleteImage : σ → String → σ × Option GoError

/-- The Go struct `ImageHandler` without its templates. -/
structure ImageHandler (σ : Type) where
  storageService : StorageService σ
  databaseService : DatabaseService σ

/-- Go's `multipart.FileHeader`, with the `Content-Type` entry of its header. -/
structure FileHeader where
  Filename : String
  ContentType : String
  Size : Int
deriving DecidableEq

/-- What the upload handler reads from its request: the result of
`r.ParseMultipartForm(10 << 20)`, the result of `r.FormFile("image")`, and the
form values `title` and `description`. -/
structure UploadRequest where
  parseErr : Option GoError
  formFile : Except GoError (File × FileHeader)
  title : String
  description : String

/-- What a handler writes to its `http.ResponseWriter`: `http.Error` with a
message and a status code, or `http.Redirect` to a URL with a status code. -/
inductive Response where
  | error (message : String) (code : Nat)
  | redirect (url : String) (code : Nat)
deriving DecidableEq

/-- Go's handler `UploadImage`. The id is the result of `generateID()`, and
`now1`, `now2` are the two readings of `time.Now()`. -/
def ImageHandler.UploadImage {σ : Type} (h : ImageHandler σ) (st : σ) (r : UploadRequest)
    (id : String) (now1 now2 : Time) : σ × Response :=
  match r.parseErr with
  | some _ => (st, .error "Failed to parse form" 400)
  | none =>
    match r.formFile with
    | .error _ => (st, .error "Failed to get file from form" 400)
    | .ok (file, handler) =>
      let s3Key := id ++ Ext handler.Filename
      let image : Image :=
        { ID := id, Title := r.title, Description := r.description, S3Key := s3Key,
          ContentType := handler.ContentType, Size := handler.Size,
          CreatedAt := now1, UpdatedAt := now2 }
      match h.storageService.UploadImage st s3Key file image.ContentType with
      | (st1, some _) => (st1, .error "Failed to upload image to S3" 500)
      | (st1, none) =>
        match h.databaseService.SaveImage st1 image with
        | (st2, some _) => (st2, .error "Failed to save image metadata" 500)
        | (st2, none) => (st2, .redirect "/" 303)

/-- Go's handler `UpdateImage`; `id` is the path variable, `title` and
`description` the form values, `now` the reading of `time.Now()`. -/
def ImageHandler.UpdateImage {σ : Type} (h : ImageHandler σ) (st : σ) (id : String)
    (title description : String) (now : Time) : σ × Response :=
  match h.databaseService.GetImage st id with
  | (_, some _) => (st, .error "Image not found" 404)
  | (existingImage, none) =>
    let existingImage := { existingImage with Title := title }
    let existingImage := { existingImage with Description := description }
    let existingImage := { existingImage with UpdatedAt := now }
    match h.databaseService.SaveImage st existingImage with
    | (st1, some _) => (st1, .error "Failed to update image metadata" 500)
    | (st1, none) => (st1, .redirect "/" 303)

/-- Go's handler `DeleteImage`; `id` is the path variable. -/
def ImageHandler.DeleteImage {σ : Type} (h : ImageHandler σ) (st : σ) (id : String) :
    σ × Response :=
  match h.databaseService.GetImage st id with
  | (_, some _) => (st, .error "Image not found" 404)
  | (existingImage, none) =>
    match h.storageService.DeleteImage st existingImage.S3Key with
    | (st1, some _) => (st1, .error "Failed to delete image from S3" 500)
    | (st1, none) =>
      match h.databaseService.DeleteImage st1 id with
      | (st2, some _) => (st2, .error "Failed to delete image metadata" 500)
      | (st2, none) => (st2, .redirect "/" 303)

/-- A call of a mutating method of one of the two services. -/
inductive ServiceCall where
  | storageUploadImage (key : String) (contentType : String)
  | storageDeleteImage (key : String)
  | databaseSaveImage (image : Image)
  | databaseDeleteImage (id : String)
deriving DecidableEq

/-- The storage service that also records each of its mutating calls, in the
order they are made. -/
def StorageService.traced {σ : Type} (s : StorageService σ) :
    StorageService (σ × List ServiceCall) where
  UploadImage st key file contentType :=
    (((s.UploadImage st.1 key file contentType).1,
        st.2 ++ [.storageUploadImage key contentType]),
      (s.UploadImage st.1 key file contentType).2)
  GetImageURL st key := s.GetImageURL st.1 key
  DeleteImage st key :=
    (((s.DeleteImage st.1 key).1, st.2 ++ [.storageDeleteImage key]),
      (s.DeleteImage st.1 key).2)
  GetImage st key := s.GetImage st.1 key
  GetBucketName := s.GetBucketName

/-- The database service that also records each of its mutating calls, in the
order they are made. -/
def DatabaseService.traced {σ : Type} (s : DatabaseService σ) :
    DatabaseService (σ × List ServiceCall) where
  SaveImage st image :=
    (((s.SaveImage st.1 image).1, st.2 ++ [.databaseSaveImage image]),
      (s.SaveImage st.1 image).2)
  GetImage st id := s.GetImage st.1 id
  ListImages st := s.ListImages st.1
  DeleteImage st id :=
    (((s.DeleteImage st.1 id).1, st.2 ++ [.databaseDeleteImage id]),
      (s.DeleteImage st.1 id).2)

/-- The handler over the recording services. -/
def ImageHandler.traced {σ : Type} (h : ImageHandler σ) :
    ImageHandler (σ × List ServiceCall) :=
  { storageService := h.storageService.traced, databaseService := h.databaseService.traced }

/-- The world of the local variant: the disk and the in-memory metadata store. -/
structure LocalWorld where
  fs : FS
  db : LocalDBService

/-- The local object store as a `StorageService`. -/
def localStorageService (s : LocalStorageService) : StorageService LocalWorld where
  UploadImage w key file contentType :=
    ({ w with fs := (LocalStorageService.UploadImage w.fs s key file contentType).1 },
      (LocalStorageService.UploadImage w.fs s key file contentType).2)
  GetImageURL _ key := LocalStorageService.GetImageURL s key
  DeleteImage w key :=
    ({ w with fs := (LocalStorageService.DeleteImage w.fs s key).1 },
      (LocalStorageService.DeleteImage w.fs s key).2)
  GetImage w key := LocalStorageService.GetImage w.fs s key
  GetBucketName := LocalStorageService.GetBucketName s

/-- The local metadata store as a `DatabaseService`. -/
def localDatabaseService (json : JSONLib) (ord : MapOrder) : DatabaseService LocalWorld where
  SaveImage w image :=
    ({ fs := (LocalDBService.SaveImage json ord w.fs w.db image).2.1,
       db := (LocalDBService.SaveImage json ord w.fs w.db image).1 },
      (LocalDBService.SaveImage json ord w.fs w.db image).2.2)
  GetImage w id := LocalDBService.GetImage w.db id
  ListImages w := LocalDBService.ListImages ord w.db
  DeleteImage w id :=
    ({ fs := (LocalDBService.DeleteImage json ord w.fs w.db id).2.1,
       db := (LocalDBService.DeleteImage json ord w.fs w.db id).1 },
      (LocalDBService.DeleteImage json ord w.fs w.db id).2.2)

/-- The handler `main.go` builds when `USE_LOCAL_STORAGE` is set: both services
are the local ones. -/
def localHandler (json : JSONLib) (ord : MapOrder) (s : LocalStorageService) :
    ImageHandler LocalWorld :=
  { storageService := localStorageService s,
    databaseService := localDatabaseService json ord }

/-- The disk of the tests on which the system refuses to open the document of
the metadata store for writing. -/
def deniedDocDisk : FS :=
  { dbDisk with denied := ["/tmp/gallery/db/images.json"] }

/-- The upload of the test `UploadImage` of the object store, as the request of
the handler. -/
def testUpload : UploadRequest :=
  { parseErr := none,
    formFile := .ok ({ data := fakeImageContent, err := none },
      { Filename := "test.jpg", ContentType := "image/jpeg", Size := 18 }),
    title := "Test Image", description := "A test image" }

/-- The reading of the clock in the fixtures. -/
def testNow : Time := ⟨1700000000, 0⟩

/-- The record the upload handler makes of `testUpload` under the id "abc123". -/
def uploadedImage : Image :=
  { ID := "abc123", Title := "Test Image", Description := "A test image",
    S3Key := "abc123.jpg", ContentType := "image/jpeg", Size := 18,
    CreatedAt := testNow, UpdatedAt := testNow }

/-- The world in which the record of the test `DeleteImage` is stored and
persisted, and its payload was never written. -/
def danglingWorld : LocalWorld :=
  { fs := (LocalDBService.SaveImage plainCodec entryOrder dbDisk emptyStore testImageDelete).2.1,
    db := storeWithDelete }

/-- The world in which the record of the test `DeleteImage` and its payload are
stored, and the document has since been made read-only. -/
def readOnlyWorld : LocalWorld :=
  { fs := { readOnlyDisk with
      files := readOnlyDisk.files.insert "/tmp/gallery/delete-test.jpg" fakeImageContent },
    db := storeWithDelete }

/-- A disk on which the directory of the object store holds a payload and has
been made read-only: the payload can be rewritten, no entry can be removed. -/
def readOnlyRootDisk : FS :=
  { files := AList.singleton "/tmp/gallery/old.jpg" helloBytes,
    dirs := ["/tmp", "/tmp/gallery"], denied := ["/tmp/gallery"] }

/-- Whether a thread at this statement holds the exclusive lock of the mutex:
it has passed `d.mutex.Lock()` and not yet `d.mutex.Unlock()`. -/
def PC.holdsWrite : PC → Bool
  | .atUpdate => true
  | .atUnlock => true
  | .atUnlockNotFound => true
  | _ => false

/-- Whether a thread at this statement holds a read lock of the mutex: it has
passed `d.mutex.RLock()` and not yet `d.mutex.RUnlock()`. -/
def PC.holdsRead : PC → Bool
  | .atCopy => true
  | .atRUnlock => true
  | _ => false

/-- The number of threads below `n` that hold a read lock. -/
def readCount (pcs : Nat → PC) : Nat → Nat
  | 0 => 0
  | n + 1 => readCount pcs n + (if (pcs n).holdsRead then 1 else 0)

/-- The mutex and the statements of the threads agree: the threads from `n` on
hold no lock, the read locks are counted, a write lock excludes read locks, it
is held by exactly one thread, and nobody holds a lock the mutex does not
show. -/
def lockInv (n : Nat) (pcs : Nat → PC) (m : RWMutex) : Prop :=
  (∀ j, n ≤ j → (pcs j).holdsWrite = false ∧ (pcs j).holdsRead = false) ∧
  m.readers = readCount pcs n ∧
  (m.writer = true → m.readers = 0) ∧
  (∀ i, (pcs i).holdsWrite = true → m.writer = true) ∧
  (∀ i j, (pcs i).holdsWrite = true → (pcs j).holdsWrite = true → i = j) ∧
  (m.writer = true → ∃ i, (pcs i).holdsWrite = true)

/-- The invariant `lockInv` of a world. -/
def LocksOK (n : Nat) (w : World) : Prop :=
  lockInv n (fun j => (w.threads j).pc) w.mutex

/-- The moves of one thread on the mutex: its statement and the mutex before
and after one of its steps that is not a wait. -/
def lockStep (p : PC) (m : RWMutex) (p' : PC) (m' : RWMutex) : Prop :=
  (p = .atLock ∧ m.writer = false ∧ m.readers = 0 ∧ p' = .atUpdate ∧
    m' = { m with writer := true }) ∨
  (p = .atUpdate ∧ (p' = .atUnlock ∨ p' = .atUnlockNotFound) ∧ m' = m) ∨
  (p = .atUnlock ∧ p' = .atRLock ∧ m' = { m with writer := false }) ∨
  (p = .atUnlockNotFound ∧ p' = .returned ∧ m' = { m with writer := false }) ∨
  (p = .atRLock ∧ m.writer = false ∧ p' = .atCopy ∧
    m' = { m with readers := m.readers + 1 }) ∨
  (p = .atCopy ∧ p' = .atRUnlock ∧ m' = m) ∨
  (p = .atRUnlock ∧ p' = .atWrite ∧ m' = { m with readers := m.readers - 1 }) ∨
  (p = .atWrite ∧ p' = .returned ∧ m' = m)

/-! ## Auxiliary facts about the map and the disk -/

theorem mem_rangeImages (ord : MapOrder) (m : AList (fun _ : String => Image)) (img : Image) :
    img ∈ rangeImages ord m ↔ ∃ k, m.lookup k = some img := by
  unfold rangeImages
  rw [(ord.isPerm _).mem_iff, List.mem_map]
  constructor
  · rintro ⟨⟨k, v⟩, he, rfl⟩
    exact ⟨k, Option.mem_def.mp (AList.mem_lookup_iff.mpr he)⟩
  · rintro ⟨k, hk⟩
    exact ⟨⟨k, img⟩, AList.mem_lookup_iff.mp (Option.mem_def.mpr hk), rfl⟩

theorem wellKeyed_lookup {d : LocalDBService} (h : d.WellKeyed) {k : String} {img : Image}
    (hk : d.images.lookup k = some img) : img.ID = k :=
  h ⟨k, img⟩ (AList.mem_lookup_iff.mp (Option.mem_def.mpr hk))

theorem wellKeyed_empty (path : String) :
    LocalDBService.WellKeyed { storagePath := path, images := ∅ } := by
  intro e he
  simp [AList.empty_entries] at he

theorem wellKeyed_insert {d : LocalDBService} (h : d.WellKeyed) (r : Image) :
    LocalDBService.WellKeyed { d with images := d.images.insert r.ID r } := by
  intro e he
  simp only [AList.insert_entries, List.mem_cons] at he
  rcases he with rfl | he
  · rfl
  · exact h e ((List.kerase_sublist _ _).subset he)

theorem wellKeyed_erase {d : LocalDBService} (h : d.WellKeyed) (id : String) :
    LocalDBService.WellKeyed { d with images := d.images.erase id } := by
  intro e he
  exact h e ((List.kerase_sublist _ _).subset he)

theorem SaveImage_fst (json : JSONLib) (ord : MapOrder) (fs : FS) (d : LocalDBService)
    (r : Image) :
    (LocalDBService.SaveImage json ord fs d r).1 = { d with images := d.images.insert r.ID r } :=
  rfl

/-! ## Local metadata store -/

/-- C1. Round trip: whatever the store, the disk and the record `r`, once
`SaveImage r` has returned no error, `GetImage r.ID` returns no error and the
record `r` itself, equal in every field. -/
theorem C1_save_then_get (json : JSONLib) (ord : MapOrder) (fs : FS) (d : LocalDBService)
    (r : Image) (_hsave : (LocalDBService.SaveImage json ord fs d r).2.2 = none) :
    let got := LocalDBService.GetImage (LocalDBService.SaveImage json ord fs d r).1 r.ID
    got = (r, none) ∧ got.1.ID = r.ID ∧ got.1.Title = r.Title ∧
      got.1.Description = r.Description ∧ got.1.S3Key = r.S3Key ∧
      got.1.ContentType = r.ContentType ∧ got.1.Size = r.Size ∧
      got.1.CreatedAt = r.CreatedAt ∧ got.1.UpdatedAt = r.UpdatedAt := by
  have hget : LocalDBService.GetImage (LocalDBService.SaveImage json ord fs d r).1 r.ID
      = (r, none) := by
    simp [LocalDBService.GetImage, LocalDBService.SaveImage, AList.lookup_insert]
  intro got
  have hgot : got = (r, none) := hget
  rw [hgot]
  exact ⟨rfl, rfl, rfl, rfl, rfl, rfl, rfl, rfl, rfl⟩

set_option maxRecDepth 100000 in
/-- The round trip of C1 on the record of the test `SaveAndGetImage`
(`ID` "test-id-1", `Size` 12345), saved into the empty store. -/
theorem C1_save_then_get_witness :
    (LocalDBService.SaveImage plainCodec entryOrder dbDisk emptyStore testImage1).2.2 = none ∧
    (let got := LocalDBService.GetImage
        (LocalDBService.SaveImage plainCodec entryOrder dbDisk emptyStore testImage1).1
        testImage1.ID
     got = (testImage1, none) ∧ got.1.ID = testImage1.ID ∧ got.1.Title = testImage1.Title ∧
      got.1.Description = testImage1.Description ∧ got.1.S3Key = testImage1.S3Key ∧
      got.1.ContentType = testImage1.ContentType ∧ got.1.Size = testImage1.Size ∧
      got.1.CreatedAt = testImage1.CreatedAt ∧ got.1.UpdatedAt = testImage1.UpdatedAt) :=
  ⟨by decide, C1_save_then_get plainCodec entryOrder dbDisk emptyStore testImage1 (by decide)⟩

/-- The values of a map after an insertion: the new value, then the values
that were stored under other keys. -/
theorem values_insert (m : AList (fun _ : String => Image)) (k : String) (v : Image) :
    (m.insert k v).entries.map (fun e => e.2)
      = v :: (List.kerase k m.entries).map (fun e => e.2) := by
  simp [AList.insert_entries]

/-- In a well keyed map no value left after erasing key `k` has `ID` `k`. -/
theorem kerase_no_id {d : LocalDBService} (h : d.WellKeyed) (k : String) :
    ∀ img ∈ (List.kerase k d.images.entries).map (fun e => e.2), img.ID ≠ k := by
  intro img himg
  rw [List.mem_map] at himg
  obtain ⟨e, he, rfl⟩ := himg
  have hmem : e ∈ d.images.entries := (List.kerase_sublist _ _).subset he
  have hkey : e.1 ∉ (List.kerase k d.images.entries).keys → False := fun hn =>
    hn (List.mem_keys_of_mem he)
  intro hid
  apply hkey
  rw [← h e hmem, hid]
  exact List.not_mem_keys_kerase k d.images.nodupKeys

/-- C3. Overwrite: for records `r` and `r'` with the same `ID`, after
`SaveImage r` and then `SaveImage r'` the store returns exactly `r'` for that
id (so every field is that of `r'`), and `ListImages` holds exactly one record
with that id. The store is any store whose keys are the ids of its records. -/
theorem C3_overwrite (json : JSONLib) (ord1 ord2 ord3 : MapOrder) (fs : FS)
    (d : LocalDBService) (r r' : Image) (hwk : d.WellKeyed) (hid : r'.ID = r.ID) :
    let s1 := LocalDBService.SaveImage json ord1 fs d r
    let s2 := LocalDBService.SaveImage json ord2 s1.2.1 s1.1 r'
    LocalDBService.GetImage s2.1 r.ID = (r', none) ∧
    (LocalDBService.ListImages ord3 s2.1).2 = none ∧
    ((LocalDBService.ListImages ord3 s2.1).1.filter (fun img => img.ID = r.ID)).length = 1 := by
  intro s1 s2
  have hmap : s2.1.images = d.images.insert r.ID r' := by
    show (d.images.insert r.ID r).insert r'.ID r' = d.images.insert r.ID r'
    rw [hid, AList.insert_insert]
  refine ⟨?_, rfl, ?_⟩
  · simp [LocalDBService.GetImage, hmap, AList.lookup_insert]
  · have hperm : ((LocalDBService.ListImages ord3 s2.1).1).Perm
        (r' :: (List.kerase r.ID d.images.entries).map (fun e => e.2)) := by
      show (ord3.visit _).Perm _
      rw [hmap, values_insert]
      exact ord3.isPerm _
    rw [(hperm.filter _).length_eq, List.filter_cons_of_pos (by simpa using hid)]
    have hnone : ((List.kerase r.ID d.images.entries).map (fun e => e.2)).filter
        (fun img => decide (img.ID = r.ID)) = [] := by
      rw [List.filter_eq_nil_iff]
      intro img himg
      simpa using kerase_no_id hwk r.ID img himg
    rw [hnone]
    rfl

/-- The overwrite of C3 on the record of the test and a retitled copy of it. -/
theorem C3_overwrite_witness :
    emptyStore.WellKeyed ∧ ({ testImage1 with Title := "Renamed" } : Image).ID = testImage1.ID ∧
    (let s1 := LocalDBService.SaveImage plainCodec entryOrder dbDisk emptyStore testImage1
     let s2 := LocalDBService.SaveImage plainCodec reverseOrder s1.2.1 s1.1
        { testImage1 with Title := "Renamed" }
     LocalDBService.GetImage s2.1 testImage1.ID = ({ testImage1 with Title := "Renamed" }, none) ∧
     (LocalDBService.ListImages entryOrder s2.1).2 = none ∧
     ((LocalDBService.ListImages entryOrder s2.1).1.filter
        (fun img => img.ID = testImage1.ID)).length = 1) :=
  ⟨wellKeyed_empty _, rfl,
    C3_overwrite plainCodec entryOrder reverseOrder entryOrder dbDisk emptyStore testImage1
      { testImage1 with Title := "Renamed" } (wellKeyed_empty _) rfl⟩

/-- C4. Absence: for every store and every id that is not a key of its map,
`GetImage` returns the zero record with the error "image not found", and
`DeleteImage` returns the error "image not found" (leaving store and disk as
they were). -/
theorem C4_absent_id (json : JSONLib) (ord : MapOrder) (fs : FS) (d : LocalDBService)
    (id : String) (habsent : id ∉ d.images) :
    LocalDBService.GetImage d id = (Image.zero, some (.errorf "image not found")) ∧
    LocalDBService.DeleteImage json ord fs d id = (d, fs, some (.errorf "image not found")) ∧
    (GoError.errorf "image not found").message = "image not found" := by
  have hnone : d.images.lookup id = none := AList.lookup_eq_none.mpr habsent
  simp [LocalDBService.GetImage, LocalDBService.DeleteImage, hnone, GoError.message]

/-- The absence of C4 on an id never saved into the empty store. -/
theorem C4_absent_id_witness :
    "never-saved" ∉ emptyStore.images ∧
    LocalDBService.GetImage emptyStore "never-saved"
      = (Image.zero, some (.errorf "image not found")) ∧
    LocalDBService.DeleteImage plainCodec entryOrder dbDisk emptyStore "never-saved"
      = (emptyStore, dbDisk, some (.errorf "image not found")) ∧
    (GoError.errorf "image not found").message = "image not found" :=
  ⟨AList.not_mem_empty _,
    C4_absent_id plainCodec entryOrder dbDisk emptyStore "never-saved" (AList.not_mem_empty _)⟩

theorem saveAll_storagePath (json : JSONLib) (ord : MapOrder) (rs : List Image) :
    ∀ (fs : FS) (d : LocalDBService), (saveAll json ord fs d rs).1.storagePath = d.storagePath := by
  induction rs with
  | nil => intro fs d; rfl
  | cons r rs ih => intro fs d; exact ih _ _

/-- Saving records whose ids are pairwise distinct and not yet keys of the map
adds exactly these records to the values of the map. -/
theorem saveAll_values (json : JSONLib) (ord : MapOrder) (rs : List Image) :
    ∀ (fs : FS) (d : LocalDBService), (rs.map (fun r => r.ID)).Nodup →
      (∀ r ∈ rs, r.ID ∉ d.images) →
      ((saveAll json ord fs d rs).1.images.entries.map (fun e => e.2)).Perm
        (rs.reverse ++ d.images.entries.map (fun e => e.2)) := by
  induction rs with
  | nil => intro fs d _ _; exact List.Perm.refl _
  | cons r rs ih =>
    intro fs d hnd hfresh
    rw [List.map_cons, List.nodup_cons] at hnd
    have hr : r.ID ∉ d.images := hfresh r (List.mem_cons_self _ _)
    have hstep : ∀ r' ∈ rs, r'.ID ∉ (LocalDBService.SaveImage json ord fs d r).1.images := by
      intro r' hr' hmem
      rw [SaveImage_fst] at hmem
      rcases (AList.mem_insert _).mp hmem with h | h
      · exact hnd.1 (h ▸ List.mem_map_of_mem (fun r => r.ID) hr')
      · exact hfresh r' (List.mem_cons_of_mem _ hr') h
    have hrec := ih (LocalDBService.SaveImage json ord fs d r).2.1
      (LocalDBService.SaveImage json ord fs d r).1 hnd.2 hstep
    have hval : (LocalDBService.SaveImage json ord fs d r).1.images.entries.map (fun e => e.2)
        = r :: d.images.entries.map (fun e => e.2) := by
      rw [SaveImage_fst]
      show ((d.images.insert r.ID r).entries).map (fun e => e.2) = _
      rw [AList.insert_entries_of_neg hr]
      rfl
    rw [hval] at hrec
    refine hrec.trans ?_
    rw [List.reverse_cons, List.append_assoc]
    rfl

/-- C5. List completeness: starting from an empty store, after the records `rs`
with pairwise distinct ids have been saved, `ListImages` returns without error
a list of exactly `rs.length` records that is a rearrangement of `rs`: its ids
are the saved ids, each once, none missing and none extra. -/
theorem C5_list_complete (json : JSONLib) (ord ord' : MapOrder) (fs : FS) (path : String)
    (rs : List Image) (hdistinct : (rs.map (fun r => r.ID)).Nodup) :
    let d := (saveAll json ord fs { storagePath := path, images := ∅ } rs).1
    let listed := LocalDBService.ListImages ord' d
    listed.2 = none ∧ listed.1.length = rs.length ∧ listed.1.Perm rs ∧
      (listed.1.map (fun r => r.ID)).Perm (rs.map (fun r => r.ID)) ∧
      (listed.1.map (fun r => r.ID)).Nodup ∧
      (∀ id, id ∈ listed.1.map (fun r => r.ID) ↔ id ∈ rs.map (fun r => r.ID)) := by
  intro d listed
  have hperm : listed.1.Perm rs := by
    have h := saveAll_values json ord rs fs { storagePath := path, images := ∅ } hdistinct
      (fun r _ => AList.not_mem_empty _)
    simp only [AList.empty_entries, List.map_nil, List.append_nil] at h
    exact (ord'.isPerm _).trans (h.trans (List.reverse_perm rs))
  have hids : (listed.1.map (fun r => r.ID)).Perm (rs.map (fun r => r.ID)) := hperm.map _
  exact ⟨rfl, hperm.length_eq, hperm, hids, hids.nodup_iff.mpr hdistinct,
    fun id => hids.mem_iff⟩

/-- The completeness of C5 on the two records of the test `ListImages`,
"test-id-2" and "test-id-3". -/
theorem C5_list_complete_witness :
    ([testImage2, testImage3].map (fun r => r.ID)).Nodup ∧
    (let d := (saveAll plainCodec entryOrder dbDisk
        { storagePath := "/tmp/gallery/db", images := ∅ } [testImage2, testImage3]).1
     let listed := LocalDBService.ListImages reverseOrder d
     listed.2 = none ∧ listed.1.length = [testImage2, testImage3].length ∧
      listed.1.Perm [testImage2, testImage3] ∧
      (listed.1.map (fun r => r.ID)).Perm ([testImage2, testImage3].map (fun r => r.ID)) ∧
      (listed.1.map (fun r => r.ID)).Nodup ∧
      (∀ id, id ∈ listed.1.map (fun r => r.ID) ↔
        id ∈ [testImage2, testImage3].map (fun r => r.ID))) :=
  ⟨by decide, C5_list_complete plainCodec entryOrder reverseOrder dbDisk "/tmp/gallery/db"
    [testImage2, testImage3] (by decide)⟩


/-! ### Rewriting the document -/

theorem isDir_congr {fs fs' : FS} (h : fs'.dirs = fs.dirs) (path : String) :
    fs'.isDir path = fs.isDir path := by
  simp [FS.isDir, h]

theorem canCreate_congr {fs fs' : FS} (h : fs'.dirs = fs.dirs) (h' : fs'.denied = fs.denied)
    (p : String) : fs'.canCreate p = fs.canCreate p := by
  simp [FS.canCreate, isDir_congr h, h']

theorem Create_of_can {fs : FS} {path : String} (h : fs.canCreate (Clean path) = true) :
    Create fs path = ({ fs with files := fs.files.insert (Clean path) [] }, none) := by
  simp only [FS.canCreate, Bool.and_eq_true, Bool.not_eq_true', decide_eq_false_iff_not] at h
  obtain ⟨⟨h1, h2⟩, h3⟩ := h
  simp [Create, h1, h2, h3]

theorem Create_of_cannot {fs : FS} {path : String} (h : fs.canCreate (Clean path) = false) :
    ∃ err, Create fs path = (fs, some err) := by
  unfold Create
  simp only
  by_cases h1 : fs.isDir (Clean path) = true
  · exact ⟨_, by rw [if_pos h1]⟩
  · rw [if_neg h1]
    by_cases h2 : fs.isDir (Dir (Clean path)) = true
    · rw [if_neg (by simpa using h2)]
      by_cases h3 : Clean path ∈ fs.denied
      · exact ⟨_, by rw [if_pos h3]⟩
      · simp [FS.canCreate, h1, h2, h3] at h
    · exact ⟨_, by rw [if_pos (by simpa using h2)]⟩

theorem WriteFile_of_can {fs : FS} {path : String} (data : Bytes)
    (h : fs.canCreate (Clean path) = true) :
    WriteFile fs path data = ({ fs with files := fs.files.insert (Clean path) data }, none) := by
  simp [WriteFile, Create_of_can h, AList.insert_insert]

theorem WriteFile_of_cannot {fs : FS} {path : String} (data : Bytes)
    (h : fs.canCreate (Clean path) = false) :
    ∃ err, WriteFile fs path data = (fs, some err) := by
  obtain ⟨err, he⟩ := Create_of_cannot h
  exact ⟨err, by simp [WriteFile, he]⟩

/-- What a successful `os.WriteFile` leaves behind: the data under the cleaned
path, inside a directory that exists, with the directories as they were. -/
theorem WriteFile_ok {fs fs1 : FS} {path : String} {data : Bytes}
    (h : WriteFile fs path data = (fs1, none)) :
    fs.canCreate (Clean path) = true ∧
      fs1 = { fs with files := fs.files.insert (Clean path) data } := by
  cases hc : fs.canCreate (Clean path) with
  | false =>
    obtain ⟨err, he⟩ := WriteFile_of_cannot data hc
    rw [he] at h
    simp at h
  | true =>
    rw [WriteFile_of_can data hc] at h
    simp only [Prod.mk.injEq, and_true] at h
    exact ⟨rfl, h.symm⟩

/-- A failed `os.WriteFile` leaves the disk as it was. -/
theorem WriteFile_error {fs fs1 : FS} {path : String} {data : Bytes} {err : GoError}
    (h : WriteFile fs path data = (fs1, some err)) :
    fs1 = fs ∧ fs.canCreate (Clean path) = false := by
  cases hc : fs.canCreate (Clean path) with
  | false =>
    obtain ⟨err', he⟩ := WriteFile_of_cannot data hc
    rw [he] at h
    simp only [Prod.mk.injEq] at h
    exact ⟨h.1.symm, rfl⟩
  | true =>
    rw [WriteFile_of_can data hc] at h
    simp at h

/-- Writing the same data to the same path a second time changes nothing. -/
theorem WriteFile_idem (fs : FS) (path : String) (data : Bytes) :
    WriteFile (WriteFile fs path data).1 path data = WriteFile fs path data := by
  cases hc : fs.canCreate (Clean path) with
  | false =>
    obtain ⟨err, he⟩ := WriteFile_of_cannot data hc
    rw [he]
    exact he
  | true =>
    rw [WriteFile_of_can data hc]
    have hc' : FS.canCreate { fs with files := fs.files.insert (Clean path) data } (Clean path)
        = true := by
      rw [canCreate_congr rfl rfl]; exact hc
    rw [WriteFile_of_can data hc']
    simp [AList.insert_insert]

/-- What a successful `saveData` leaves behind: the encoding of the records of
the map, in the order of the iteration, under the document path. -/
theorem saveData_ok {json : JSONLib} {ord : MapOrder} {fs fs1 : FS} {d : LocalDBService}
    (h : LocalDBService.saveData json ord fs d = (fs1, none)) :
    ∃ data, json.marshalIndent (rangeImages ord d.images) = .ok data ∧
      fs.canCreate (docPath d) = true ∧
      fs1 = { fs with files := fs.files.insert (docPath d) data } := by
  unfold LocalDBService.saveData at h
  simp only at h
  cases hm : json.marshalIndent (rangeImages ord d.images) with
  | error e => rw [hm] at h; simp at h
  | ok data =>
    rw [hm] at h
    simp only at h
    cases hw : WriteFile fs (Join [d.storagePath, "images.json"]) data with
    | mk fs2 e2 =>
      rw [hw] at h
      cases e2 with
      | some e => simp at h
      | none =>
        simp only [Prod.mk.injEq, and_true] at h
        subst h
        exact ⟨data, rfl, WriteFile_ok hw⟩

/-- Running `saveData` a second time with the same iteration order changes
nothing and returns the same result. -/
theorem saveData_idem (json : JSONLib) (ord : MapOrder) (fs : FS) (d : LocalDBService) :
    LocalDBService.saveData json ord (LocalDBService.saveData json ord fs d).1 d
      = LocalDBService.saveData json ord fs d := by
  unfold LocalDBService.saveData
  simp only
  cases hm : json.marshalIndent (rangeImages ord d.images) with
  | error e => simp [hm]
  | ok data =>
    simp only
    cases hw : WriteFile fs (Join [d.storagePath, "images.json"]) data with
    | mk fs2 e2 =>
      have hidem := WriteFile_idem fs (Join [d.storagePath, "images.json"]) data
      rw [hw] at hidem
      cases e2 with
      | some e => simp only [hm]; simp only at hidem; rw [hidem]
      | none => simp only [hm]; simp only at hidem; rw [hidem]

set_option maxRecDepth 100000 in
/-- C6, as stated, fails: the record of the test `DeleteImage` is present in
the store (it was saved without error), the document can no longer be
rewritten, and `DeleteImage` on its id returns an error instead of succeeding. -/
theorem C6_delete_present_can_fail :
    (LocalDBService.SaveImage plainCodec entryOrder dbDisk emptyStore testImageDelete).1
      = storeWithDelete ∧
    (LocalDBService.SaveImage plainCodec entryOrder dbDisk emptyStore testImageDelete).2.2
      = none ∧
    LocalDBService.GetImage storeWithDelete "test-id-delete" = (testImageDelete, none) ∧
    (LocalDBService.DeleteImage plainCodec entryOrder readOnlyDisk storeWithDelete
        "test-id-delete").2.2
      = some (.wrapped "failed to write images data"
          (.pathError "open" "/tmp/gallery/db/images.json" "permission denied")) :=
  ⟨by rfl, by decide, by rfl, by decide⟩

/-- C6, amended. For every record `r` present in a store whose keys are the ids
of its records, `DeleteImage r.ID` removes the record from the map and returns
what the rewrite of the document returns: it never fails with "image not
found" and it succeeds whenever the rewrite succeeds. Afterwards, whatever the
rewrite returned, `GetImage r.ID` fails with "image not found" and
`ListImages` holds no record with that id. -/
theorem C6_delete_present (json : JSONLib) (ord ord' : MapOrder) (fs : FS)
    (d : LocalDBService) (r : Image) (hwk : d.WellKeyed)
    (hpresent : d.images.lookup r.ID = some r) :
    let res := LocalDBService.DeleteImage json ord fs d r.ID
    res.2 = LocalDBService.saveData json ord fs res.1 ∧
    res.2.2 ≠ some (.errorf "image not found") ∧
    ((LocalDBService.saveData json ord fs res.1).2 = none → res.2.2 = none) ∧
    LocalDBService.GetImage res.1 r.ID = (Image.zero, some (.errorf "image not found")) ∧
    (LocalDBService.ListImages ord' res.1).2 = none ∧
    (∀ img ∈ (LocalDBService.ListImages ord' res.1).1, img.ID ≠ r.ID) := by
  intro res
  have hres : res = ({ d with images := d.images.erase r.ID },
      LocalDBService.saveData json ord fs { d with images := d.images.erase r.ID }) := by
    show LocalDBService.DeleteImage json ord fs d r.ID = _
    simp [LocalDBService.DeleteImage, hpresent]
  rw [hres]
  refine ⟨rfl, ?_, fun h => h, ?_, rfl, ?_⟩
  · unfold LocalDBService.saveData
    simp only
    cases json.marshalIndent (rangeImages ord (d.images.erase r.ID)) with
    | error e => simp
    | ok data =>
      simp only
      cases WriteFile fs (Join [d.storagePath, "images.json"]) data with
      | mk fs2 e2 => cases e2 <;> simp
  · simp [LocalDBService.GetImage, AList.lookup_erase]
  · intro img himg
    have hmem : img ∈ (List.kerase r.ID d.images.entries).map (fun e => e.2) :=
      (ord'.isPerm _).mem_iff.mp himg
    exact kerase_no_id hwk r.ID img hmem

set_option maxRecDepth 100000 in
/-- The amended C6 on the record of the test `DeleteImage`, on a disk that can
be written: the delete succeeds and the record is gone. -/
theorem C6_delete_present_witness :
    storeWithDelete.WellKeyed ∧
    storeWithDelete.images.lookup testImageDelete.ID = some testImageDelete ∧
    (let res := LocalDBService.DeleteImage plainCodec entryOrder dbDisk storeWithDelete
        testImageDelete.ID
     res.2 = LocalDBService.saveData plainCodec entryOrder dbDisk res.1 ∧
     res.2.2 ≠ some (.errorf "image not found") ∧
     ((LocalDBService.saveData plainCodec entryOrder dbDisk res.1).2 = none → res.2.2 = none) ∧
     LocalDBService.GetImage res.1 testImageDelete.ID
        = (Image.zero, some (.errorf "image not found")) ∧
     (LocalDBService.ListImages reverseOrder res.1).2 = none ∧
     (∀ img ∈ (LocalDBService.ListImages reverseOrder res.1).1, img.ID ≠ testImageDelete.ID)) :=
  ⟨by intro e he; simp [storeWithDelete, AList.singleton_entries] at he; subst he; rfl,
   by rfl,
   C6_delete_present plainCodec entryOrder reverseOrder dbDisk storeWithDelete testImageDelete
    (by intro e he; simp [storeWithDelete, AList.singleton_entries] at he; subst he; rfl)
    (by rfl)⟩

/-- C7. `SaveImage` is idempotent: after `SaveImage r`, a second `SaveImage r`
leaves the store (its in-memory map) exactly as it is, whatever the iteration
order; it hands the same records to the encoder, possibly in another order;
and with the same iteration order it leaves the whole disk, the persisted
document included, as it is and returns the same result. When both calls
succeed, the document holds after each the encoding of the same records up to
their order. -/
theorem C7_save_idempotent (json : JSONLib) (ord ord2 : MapOrder) (fs : FS)
    (d : LocalDBService) (r : Image) :
    let s1 := LocalDBService.SaveImage json ord fs d r
    let s2 := LocalDBService.SaveImage json ord2 s1.2.1 s1.1 r
    s2.1 = s1.1 ∧
    (rangeImages ord2 s2.1.images).Perm (rangeImages ord s1.1.images) ∧
    LocalDBService.SaveImage json ord s1.2.1 s1.1 r = s1 ∧
    (s1.2.2 = none → s2.2.2 = none →
      ∃ data1 data2, s1.2.1.files.lookup (docPath s1.1) = some data1 ∧
        s2.2.1.files.lookup (docPath s2.1) = some data2 ∧
        json.marshalIndent (rangeImages ord s1.1.images) = .ok data1 ∧
        json.marshalIndent (rangeImages ord2 s2.1.images) = .ok data2) := by
  intro s1 s2
  have hd : s2.1 = s1.1 := by
    show ({ s1.1 with images := (d.images.insert r.ID r).insert r.ID r } : LocalDBService) = s1.1
    rw [AList.insert_insert]
    rfl
  refine ⟨hd, ?_, ?_, ?_⟩
  · rw [hd]
    exact (ord2.isPerm _).trans (ord.isPerm _).symm
  · have hd' : (LocalDBService.SaveImage json ord s1.2.1 s1.1 r).1 = s1.1 := by
      show ({ s1.1 with images := (d.images.insert r.ID r).insert r.ID r } : LocalDBService)
        = s1.1
      rw [AList.insert_insert]
      rfl
    have hfs : (LocalDBService.SaveImage json ord s1.2.1 s1.1 r).2 = s1.2 := by
      show LocalDBService.saveData json ord s1.2.1
        (LocalDBService.SaveImage json ord s1.2.1 s1.1 r).1 = s1.2
      rw [hd']
      exact saveData_idem json ord fs s1.1
    exact Prod.ext hd' hfs
  · intro h1 h2
    have e1 : LocalDBService.saveData json ord fs s1.1 = (s1.2.1, none) :=
      Prod.ext rfl h1
    have e2 : LocalDBService.saveData json ord2 s1.2.1 s2.1 = (s2.2.1, none) :=
      Prod.ext rfl h2
    obtain ⟨data1, hm1, _, hf1⟩ := saveData_ok e1
    obtain ⟨data2, hm2, _, hf2⟩ := saveData_ok e2
    refine ⟨data1, data2, ?_, ?_, hm1, hm2⟩
    · rw [hf1]; simp [AList.lookup_insert]
    · rw [hf2]; simp [AList.lookup_insert]

set_option maxRecDepth 100000 in
/-- The idempotence of C7 on the record of the test, saved twice into the empty
store with two different iteration orders; both calls succeed. -/
theorem C7_save_idempotent_witness :
    (LocalDBService.SaveImage plainCodec entryOrder dbDisk emptyStore testImage1).2.2 = none ∧
    (let s1 := LocalDBService.SaveImage plainCodec entryOrder dbDisk emptyStore testImage1
     let s2 := LocalDBService.SaveImage plainCodec reverseOrder s1.2.1 s1.1 testImage1
     s2.1 = s1.1 ∧
     (rangeImages reverseOrder s2.1.images).Perm (rangeImages entryOrder s1.1.images) ∧
     LocalDBService.SaveImage plainCodec entryOrder s1.2.1 s1.1 testImage1 = s1 ∧
     (s1.2.2 = none → s2.2.2 = none →
       ∃ data1 data2, s1.2.1.files.lookup (docPath s1.1) = some data1 ∧
         s2.2.1.files.lookup (docPath s2.1) = some data2 ∧
         plainCodec.marshalIndent (rangeImages entryOrder s1.1.images) = .ok data1 ∧
         plainCodec.marshalIndent (rangeImages reverseOrder s2.1.images) = .ok data2)) :=
  ⟨by decide, C7_save_idempotent plainCodec entryOrder reverseOrder dbDisk emptyStore testImage1⟩


/-! ## Local object store -/

theorem GetImage_of_payload {fs : FS} {s : LocalStorageService} {key : String}
    {content : Bytes}
    (h : fs.files.lookup (Clean (Join [s.storagePath, key])) = some content) :
    LocalStorageService.GetImage fs s key = (some content, extContentType key, none) := by
  simp [LocalStorageService.GetImage, ReadFile, h, extContentType]

/-- C9. Content-type inference: for every key whose payload exists, `GetImage`
returns the payload without error, with content type `image/jpeg` when the
extension of the key is `.jpg` or `.jpeg`, `image/png` for `.png`, `image/gif`
for `.gif`, `image/webp` for `.webp`, and `image/jpeg` for every other
extension or none; the content type is always one of these four strings. -/
theorem C9_content_type (fs : FS) (s : LocalStorageService) (key : String) (content : Bytes)
    (hpayload : fs.files.lookup (Clean (Join [s.storagePath, key])) = some content) :
    let got := LocalStorageService.GetImage fs s key
    got.1 = some content ∧ got.2.2 = none ∧
    (Ext key = ".jpg" ∨ Ext key = ".jpeg" → got.2.1 = "image/jpeg") ∧
    (Ext key = ".png" → got.2.1 = "image/png") ∧
    (Ext key = ".gif" → got.2.1 = "image/gif") ∧
    (Ext key = ".webp" → got.2.1 = "image/webp") ∧
    (Ext key ∉ [".jpg", ".jpeg", ".png", ".gif", ".webp"] → got.2.1 = "image/jpeg") ∧
    got.2.1 ∈ ["image/jpeg", "image/png", "image/gif", "image/webp"] := by
  intro got
  have hgot : got = (some content, extContentType key, none) := GetImage_of_payload hpayload
  rw [hgot]
  refine ⟨rfl, rfl, ?_, ?_, ?_, ?_, ?_, ?_⟩
  · intro h
    simp only [extContentType, if_pos h]
  · intro h
    simp [extContentType, h]
  · intro h
    simp [extContentType, h]
  · intro h
    simp [extContentType, h]
  · intro h
    simp only [List.mem_cons, List.mem_singleton, List.not_mem_nil, or_false, not_or] at h
    simp [extContentType, h.1, h.2.1, h.2.2.1, h.2.2.2.1, h.2.2.2.2]
  · simp only [extContentType]
    split_ifs <;> simp

set_option maxRecDepth 100000 in
/-- The inference of C9 on the test `GetImage`: the payload at "test2.jpg" comes
back with content type "image/jpeg". -/
theorem C9_content_type_witness :
    payloadDisk.files.lookup (Clean (Join [testStorage.storagePath, "test2.jpg"]))
      = some anotherTestImage ∧
    LocalStorageService.GetImage payloadDisk testStorage "test2.jpg"
      = (some anotherTestImage, "image/jpeg", none) ∧
    (let got := LocalStorageService.GetImage payloadDisk testStorage "test2.jpg"
     got.1 = some anotherTestImage ∧ got.2.2 = none ∧
     (Ext "test2.jpg" = ".jpg" ∨ Ext "test2.jpg" = ".jpeg" → got.2.1 = "image/jpeg") ∧
     (Ext "test2.jpg" = ".png" → got.2.1 = "image/png") ∧
     (Ext "test2.jpg" = ".gif" → got.2.1 = "image/gif") ∧
     (Ext "test2.jpg" = ".webp" → got.2.1 = "image/webp") ∧
     (Ext "test2.jpg" ∉ [".jpg", ".jpeg", ".png", ".gif", ".webp"] → got.2.1 = "image/jpeg") ∧
     got.2.1 ∈ ["image/jpeg", "image/png", "image/gif", "image/webp"]) :=
  ⟨by rfl, by rfl,
    C9_content_type payloadDisk testStorage "test2.jpg" anotherTestImage (by rfl)⟩

/-- What a successful `UploadImage` leaves behind: the bytes of the stream under
the cleaned path of the key. -/
theorem UploadImage_ok {fs fs1 : FS} {s : LocalStorageService} {key : String} {f : File}
    {ct : String} (h : LocalStorageService.UploadImage fs s key f ct = (fs1, none)) :
    fs1.files.lookup (Clean (Join [s.storagePath, key])) = some f.data := by
  unfold LocalStorageService.UploadImage at h
  simp only at h
  cases hm : MkdirAll fs (Dir (Join [s.storagePath, key])) with
  | mk fsa ea =>
    rw [hm] at h
    cases ea with
    | some e => simp at h
    | none =>
      simp only at h
      cases hc : Create fsa (Join [s.storagePath, key]) with
      | mk fsb eb =>
        rw [hc] at h
        cases eb with
        | some e => simp at h
        | none =>
          simp only at h
          cases he : f.err with
          | some e => rw [he] at h; simp at h
          | none =>
            rw [he] at h
            simp only [Prod.mk.injEq, and_true] at h
            subst h
            simp [AList.lookup_insert]

/-- C10. Round trip: for every key and stream, after `UploadImage` has returned
no error, `GetImage` of the key returns no error and exactly the bytes of the
stream, with the content type that the extension of the key alone determines;
the content type passed to `UploadImage` changes neither the disk nor what
`GetImage` returns. -/
theorem C10_upload_then_get (fs : FS) (s : LocalStorageService) (key : String) (f : File)
    (ct : String) (hupload : (LocalStorageService.UploadImage fs s key f ct).2 = none) :
    LocalStorageService.GetImage (LocalStorageService.UploadImage fs s key f ct).1 s key
      = (some f.data, extContentType key, none) ∧
    ∀ ct' : String,
      LocalStorageService.UploadImage fs s key f ct'
        = LocalStorageService.UploadImage fs s key f ct ∧
      LocalStorageService.GetImage (LocalStorageService.UploadImage fs s key f ct').1 s key
        = (some f.data, extContentType key, none) := by
  have hget := GetImage_of_payload (UploadImage_ok (Prod.ext rfl hupload :
    LocalStorageService.UploadImage fs s key f ct
      = ((LocalStorageService.UploadImage fs s key f ct).1, none)))
  have hsame : ∀ ct' : String, LocalStorageService.UploadImage fs s key f ct'
      = LocalStorageService.UploadImage fs s key f ct := by
    intro ct'
    simp only [LocalStorageService.UploadImage]
  refine ⟨hget, fun ct' => ⟨hsame ct', ?_⟩⟩
  rw [hsame ct']
  exact hget

set_option maxRecDepth 100000 in
/-- The round trip of C10 on the scenario of the specification: "hello" uploaded
to "abc123.jpg" as "image/jpeg" into the empty directory comes back as
("hello", "image/jpeg", nil), also when uploaded as "image/png". -/
theorem C10_upload_then_get_witness :
    (LocalStorageService.UploadImage tempDisk testStorage "abc123.jpg" ⟨helloBytes, none⟩
      "image/jpeg").2 = none ∧
    LocalStorageService.GetImage
      (LocalStorageService.UploadImage tempDisk testStorage "abc123.jpg" ⟨helloBytes, none⟩
        "image/jpeg").1 testStorage "abc123.jpg"
      = (some helloBytes, "image/jpeg", none) ∧
    (LocalStorageService.GetImage
      (LocalStorageService.UploadImage tempDisk testStorage "abc123.jpg" ⟨helloBytes, none⟩
        "image/jpeg").1 testStorage "abc123.jpg"
      = (some helloBytes, extContentType "abc123.jpg", none) ∧
     ∀ ct' : String,
      LocalStorageService.UploadImage tempDisk testStorage "abc123.jpg" ⟨helloBytes, none⟩ ct'
        = LocalStorageService.UploadImage tempDisk testStorage "abc123.jpg" ⟨helloBytes, none⟩
            "image/jpeg" ∧
      LocalStorageService.GetImage
        (LocalStorageService.UploadImage tempDisk testStorage "abc123.jpg" ⟨helloBytes, none⟩
          ct').1 testStorage "abc123.jpg"
        = (some helloBytes, extContentType "abc123.jpg", none)) :=
  ⟨by decide, by rfl,
    C10_upload_then_get tempDisk testStorage "abc123.jpg" ⟨helloBytes, none⟩ "image/jpeg"
      (by decide)⟩


/-! ## Paths: cleaning a cleaned path -/

theorem splitSep_ne_nil (p : List Char) : splitSep p ≠ [] := by
  cases p with
  | nil => simp [splitSep]
  | cons c cs =>
    unfold splitSep
    cases splitSep cs with
    | nil => simp
    | cons w ws => by_cases hc : c = '/' <;> simp [hc]

theorem splitSep_cons (c : Char) (cs : List Char) :
    splitSep (c :: cs) =
      match splitSep cs with
      | [] => [[]]
      | w :: ws => if c = '/' then [] :: w :: ws else (c :: w) :: ws := by
  rw [splitSep]

theorem splitSep_cons_sep (p : List Char) : splitSep ('/' :: p) = [] :: splitSep p := by
  have h := splitSep_ne_nil p
  rw [splitSep_cons]
  cases hs : splitSep p with
  | nil => exact absurd hs h
  | cons w ws => simp

/-- Splitting distributes over a separator. -/
theorem splitSep_append (a b : List Char) :
    splitSep (a ++ '/' :: b) = splitSep a ++ splitSep b := by
  induction a with
  | nil =>
    show splitSep ('/' :: b) = splitSep [] ++ splitSep b
    rw [splitSep_cons_sep]
    rfl
  | cons c a ih =>
    have h := splitSep_ne_nil a
    rw [List.cons_append, splitSep_cons, splitSep_cons c a, ih]
    cases hs : splitSep a with
    | nil => exact absurd hs h
    | cons w ws => by_cases hc : c = '/' <;> simp [hc]

theorem splitSep_noSep {e : List Char} (h : '/' ∉ e) : splitSep e = [e] := by
  induction e with
  | nil => rfl
  | cons c e ih =>
    rw [List.mem_cons, not_or] at h
    unfold splitSep
    rw [ih h.2]
    have hc : ¬ c = '/' := fun hc => h.1 hc.symm
    simp [hc]

theorem splitSep_no_sep_mem (p : List Char) : ∀ e ∈ splitSep p, '/' ∉ e := by
  induction p with
  | nil => intro e he; simp [splitSep] at he; subst he; simp
  | cons c cs ih =>
    have h := splitSep_ne_nil cs
    unfold splitSep
    cases hs : splitSep cs with
    | nil => exact absurd hs h
    | cons w ws =>
      rw [hs] at ih
      by_cases hc : c = '/'
      · intro e he
        simp only [hc, if_true, List.mem_cons] at he
        rcases he with rfl | he
        · simp
        · exact ih e (List.mem_cons.mpr he)
      · intro e he
        simp only [hc, if_false, List.mem_cons] at he
        rcases he with rfl | he
        · have hw := ih w (List.mem_cons_self _ _)
          simp only [List.mem_cons, not_or]
          exact ⟨fun h' => hc h'.symm, hw⟩
        · exact ih e (List.mem_cons_of_mem _ he)

theorem joinSep_append_singleton (L : List (List Char)) (x : List Char) (h : L ≠ []) :
    joinSep (L ++ [x]) = joinSep L ++ '/' :: x := by
  induction L with
  | nil => exact absurd rfl h
  | cons e L ih =>
    cases L with
    | nil => simp [joinSep]
    | cons e' L' =>
      have := ih (by simp)
      simp only [List.cons_append] at this ⊢
      simp only [joinSep, this, List.append_assoc, List.cons_append]

/-- Splitting a joined list of separator-free elements gives the elements back. -/
theorem splitSep_joinSep (L : List (List Char)) (hL : L ≠ []) (h : ∀ e ∈ L, '/' ∉ e) :
    splitSep (joinSep L) = L := by
  induction L with
  | nil => exact absurd rfl hL
  | cons e L ih =>
    cases L with
    | nil => simpa [joinSep] using splitSep_noSep (h e (List.mem_cons_self _ _))
    | cons e' L' =>
      have hrec := ih (by simp) (fun x hx => h x (List.mem_cons_of_mem _ hx))
      show splitSep (e ++ '/' :: joinSep (e' :: L')) = e :: e' :: L'
      rw [splitSep_append, splitSep_noSep (h e (List.mem_cons_self _ _)), hrec]
      rfl

theorem StackOK_suffix (r : Bool) (A B : List (List Char)) (h : StackOK r (A ++ B)) :
    StackOK r B := by
  induction A with
  | nil => exact h
  | cons a A ih => exact ih h.2.2.2.2

theorem StackOK_no_sep {r : Bool} {S : List (List Char)} (h : StackOK r S) :
    ∀ e ∈ S, '/' ∉ e ∧ e ≠ [] := by
  induction S with
  | nil => intro e he; simp at he
  | cons a S ih =>
    intro e he
    rcases List.mem_cons.mp he with rfl | he
    · exact ⟨h.1, h.2.1⟩
    · exact ih h.2.2.2.2 e he

/-- A step of the cleaning keeps the stack well formed. -/
theorem StackOK_cleanStep {r : Bool} {S : List (List Char)} (hS : StackOK r S)
    {e : List Char} (he : '/' ∉ e) : StackOK r (cleanStep r S e) := by
  unfold cleanStep
  by_cases h1 : e = [] ∨ e = ['.']
  · rw [if_pos h1]; exact hS
  · rw [if_neg h1]
    rw [not_or] at h1
    by_cases h2 : e = ['.', '.']
    · rw [if_pos h2]
      cases S with
      | nil =>
        cases r with
        | true => simp [StackOK]
        | false => subst h2; simp [StackOK]
      | cons top rest =>
        by_cases h3 : top = ['.', '.']
        · simp only [h3, if_true]
          have := hS.2.2.2.1 h3
          subst h2
          refine ⟨he, by simp, by simp, fun _ => ⟨this.1, ?_⟩, ?_⟩
          · intro x hx
            rcases List.mem_cons.mp hx with rfl | hx
            · rfl
            · exact this.2 x hx
          · rw [← h3]; exact hS
        · simp only [h3, if_false]
          exact hS.2.2.2.2
    · rw [if_neg h2]
      exact ⟨he, h1.1, h1.2, fun h => absurd h h2, hS⟩

theorem StackOK_foldl {r : Bool} (L : List (List Char)) :
    ∀ S, StackOK r S → (∀ e ∈ L, '/' ∉ e) → StackOK r (L.foldl (cleanStep r) S) := by
  induction L with
  | nil => intro S hS _; exact hS
  | cons e L ih =>
    intro S hS h
    exact ih _ (StackOK_cleanStep hS (h e (List.mem_cons_self _ _)))
      (fun x hx => h x (List.mem_cons_of_mem _ hx))

/-- On a well formed stack, a well formed element is pushed. -/
theorem cleanStep_push {r : Bool} {S : List (List Char)} {e : List Char}
    (h : StackOK r (e :: S)) : cleanStep r S e = e :: S := by
  unfold cleanStep
  have h1 : ¬ (e = [] ∨ e = ['.']) := by
    rw [not_or]; exact ⟨h.2.1, h.2.2.1⟩
  rw [if_neg h1]
  by_cases h2 : e = ['.', '.']
  · rw [if_pos h2]
    obtain ⟨hr, hall⟩ := h.2.2.2.1 h2
    cases S with
    | nil => simp [hr, h2]
    | cons top rest =>
      have : top = ['.', '.'] := hall top (List.mem_cons_self _ _)
      simp [this, h2]
  · rw [if_neg h2]

/-- Cleaning the elements of a cleaned path changes nothing. -/
theorem foldl_cleanStep_normal {r : Bool} (L : List (List Char)) :
    ∀ T, StackOK r (L.reverse ++ T) → L.foldl (cleanStep r) T = L.reverse ++ T := by
  induction L with
  | nil => intro T _; rfl
  | cons e L ih =>
    intro T h
    have h' : StackOK r (L.reverse ++ (e :: T)) := by
      simpa [List.reverse_cons, List.append_assoc] using h
    rw [List.foldl_cons, cleanStep_push (StackOK_suffix r _ _ h'), ih _ h']
    simp [List.reverse_cons, List.append_assoc]

theorem joinSep_ne_nil {L : List (List Char)} (hL : L ≠ []) (h : ∀ e ∈ L, e ≠ []) :
    joinSep L ≠ [] := by
  cases L with
  | nil => exact absurd rfl hL
  | cons e L =>
    have he := h e (List.mem_cons_self _ _)
    cases L with
    | nil => simpa [joinSep] using he
    | cons e' L' => simp [joinSep, he]

theorem joinSep_head {L : List (List Char)} (hL : L ≠ [])
    (h : ∀ e ∈ L, '/' ∉ e ∧ e ≠ []) : (joinSep L).head? ≠ some '/' := by
  cases L with
  | nil => exact absurd rfl hL
  | cons e L =>
    obtain ⟨hs, hne⟩ := h e (List.mem_cons_self _ _)
    cases e with
    | nil => exact absurd rfl hne
    | cons c cs =>
      have hc : c ≠ '/' := fun hc => hs (hc ▸ List.mem_cons_self _ _)
      cases L with
      | nil => simpa [joinSep] using hc
      | cons e' L' => simpa [joinSep] using hc

theorem reverse_ok {r : Bool} {T : List (List Char)} (h : StackOK r T) :
    ∀ e ∈ T.reverse, '/' ∉ e ∧ e ≠ [] :=
  fun e he => StackOK_no_sep h e (List.mem_reverse.mp he)

/-- Whether a rendered path is absolute. -/
theorem render_rooted {r : Bool} {T : List (List Char)} (h : StackOK r T) (hT : T ≠ []) :
    decide ((render r T.reverse).data.head? = some '/') = r := by
  cases r with
  | true => simp [render]
  | false =>
    have := joinSep_head (L := T.reverse) (by simpa using hT) (reverse_ok h)
    simp [render, this]

theorem render_data_ne_nil {r : Bool} {T : List (List Char)} (h : StackOK r T) (hT : T ≠ []) :
    (render r T.reverse).data ≠ [] := by
  cases r with
  | true => simp [render]
  | false =>
    have := joinSep_ne_nil (L := T.reverse) (by simpa using hT) (fun e he => (reverse_ok h e he).2)
    simpa [render] using this

/-- The stack that cleaning builds from a rendered path is the stack rendered. -/
theorem foldl_render {r : Bool} {T : List (List Char)} (h : StackOK r T) (hT : T ≠ []) :
    (splitSep (render r T.reverse).data).foldl (cleanStep r) [] = T := by
  have hfold : T.reverse.foldl (cleanStep r) [] = T := by
    have := foldl_cleanStep_normal (r := r) T.reverse [] (by simpa using h)
    simpa using this
  have hsplit : splitSep (joinSep T.reverse) = T.reverse :=
    splitSep_joinSep _ (by simpa using hT) (fun e he => (reverse_ok h e he).1)
  cases r with
  | true =>
    show (splitSep ('/' :: joinSep T.reverse)).foldl (cleanStep true) [] = T
    rw [splitSep_cons_sep, hsplit, List.foldl_cons]
    exact hfold
  | false =>
    show (splitSep (joinSep T.reverse)).foldl (cleanStep false) [] = T
    rw [hsplit]
    exact hfold

/-- Cleaning a rendered path followed by a separator and a separator-free
element `y` is one more step of the cleaning. -/
theorem cleanElems_render_append {r : Bool} {T : List (List Char)} (h : StackOK r T)
    (hT : T ≠ []) {y : List Char} (hy : '/' ∉ y) :
    cleanElems ((render r T.reverse).data ++ '/' :: y) = (cleanStep r T y).reverse ∧
    decide ((((render r T.reverse).data ++ '/' :: y).head?) = some '/') = r := by
  have hhead : ((render r T.reverse).data ++ '/' :: y).head?
      = (render r T.reverse).data.head? := by
    cases hd : (render r T.reverse).data with
    | nil => exact absurd hd (render_data_ne_nil h hT)
    | cons c cs => rfl
  have hr : decide ((((render r T.reverse).data ++ '/' :: y).head?) = some '/') = r := by
    rw [hhead]; exact render_rooted h hT
  refine ⟨?_, hr⟩
  unfold cleanElems
  rw [hr, splitSep_append, splitSep_noSep hy, List.foldl_append, foldl_render h hT]
  rfl

theorem cleanElems_render {r : Bool} {T : List (List Char)} (h : StackOK r T) (hT : T ≠ []) :
    cleanElems (render r T.reverse).data = T.reverse := by
  unfold cleanElems
  rw [render_rooted h hT, foldl_render h hT]

/-- A rendered path is clean: `filepath.Clean` returns it unchanged. -/
theorem Clean_render {r : Bool} {T : List (List Char)} (h : StackOK r T) (hT : T ≠ []) :
    Clean (render r T.reverse) = render r T.reverse := by
  have hne := joinSep_ne_nil (L := T.reverse) (by simpa using hT)
    (fun e he => (reverse_ok h e he).2)
  have hr := render_rooted h hT
  unfold Clean
  simp only [cleanElems_render h hT]
  cases r with
  | true =>
    have : (render true T.reverse).data.head? = some '/' := by simpa using hr
    rw [if_pos this]; rfl
  | false =>
    have : ¬ (render false T.reverse).data.head? = some '/' := by simpa using hr
    rw [if_neg this, if_neg hne]; rfl

/-- Cleaning a string whose characters are a rendered path, a separator and a
separator-free element. -/
theorem Clean_render_append {r : Bool} {T : List (List Char)} (h : StackOK r T)
    (hT : T ≠ []) {y : List Char} (hy : '/' ∉ y) (hpush : cleanStep r T y ≠ [])
    (s : String) (hs : s.data = (render r T.reverse).data ++ '/' :: y) :
    Clean s = render r (cleanStep r T y).reverse := by
  obtain ⟨he, hr⟩ := cleanElems_render_append h hT hy
  have hok : StackOK r (cleanStep r T y) := StackOK_cleanStep h hy
  have hne := joinSep_ne_nil (L := (cleanStep r T y).reverse) (by simpa using hpush)
    (fun e he => (reverse_ok hok e he).2)
  unfold Clean
  simp only [hs, he]
  cases r with
  | true =>
    have : ((render true T.reverse).data ++ '/' :: y).head? = some '/' := by simpa using hr
    rw [if_pos this]; rfl
  | false =>
    have : ¬ ((render false T.reverse).data ++ '/' :: y).head? = some '/' := by simpa using hr
    rw [if_neg this, if_neg hne]; rfl

theorem render_snoc_data (r : Bool) (T : List (List Char)) (hT : T ≠ []) (x : List Char) :
    (render r (x :: T).reverse).data = (render r T.reverse).data ++ '/' :: x := by
  have : joinSep (T.reverse ++ [x]) = joinSep T.reverse ++ '/' :: x :=
    joinSep_append_singleton _ _ (by simpa using hT)
  cases r with
  | true => simp [render, this]
  | false => simp [render, this]

/-- Go's `filepath.Join` of a clean path and a plain file name appends the name. -/
theorem Join_render {r : Bool} {T : List (List Char)} {x : List Char}
    (h : StackOK r (x :: T)) (hT : T ≠ []) :
    Join [render r T.reverse, String.mk x] = render r (x :: T).reverse := by
  have hT' : StackOK r T := h.2.2.2.2
  have hne : render r T.reverse ≠ "" := by
    intro he
    exact render_data_ne_nil hT' hT (by rw [he])
  have hpush := cleanStep_push h
  unfold Join
  rw [if_neg hne]
  rw [Clean_render_append hT' hT h.1 (by rw [hpush]; simp) _ (by simp [joinStrings]), hpush]

theorem dropLastElem_append (a x : List Char) (hx : '/' ∉ x) :
    dropLastElem (a ++ '/' :: x) = a ++ ['/'] := by
  unfold dropLastElem
  have hdrop : ∀ (x' rest : List Char), '/' ∉ x' →
      (x' ++ '/' :: rest).dropWhile (fun c => c != '/') = '/' :: rest := by
    intro x' rest hx'
    induction x' with
    | nil => simp [List.dropWhile]
    | cons c cs ih =>
      rw [List.mem_cons, not_or] at hx'
      have hc : (c != '/') = true := by
        simpa using fun hc : c = '/' => hx'.1 hc.symm
      rw [List.cons_append, List.dropWhile_cons]
      simp only [hc, if_true]
      exact ih hx'.2
  have hrev : (a ++ '/' :: x).reverse = x.reverse ++ '/' :: a.reverse := by simp
  rw [hrev, hdrop _ _ (by simpa using hx)]
  simp

/-- Go's `filepath.Dir` of a clean path with at least two elements drops the last. -/
theorem Dir_render {r : Bool} {T : List (List Char)} {x : List Char}
    (h : StackOK r (x :: T)) (hT : T ≠ []) :
    Dir (render r (x :: T).reverse) = render r T.reverse := by
  have hT' : StackOK r T := h.2.2.2.2
  unfold Dir
  rw [render_snoc_data r T hT x, dropLastElem_append _ _ h.1]
  have hstep : cleanStep r T [] = T := by simp [cleanStep]
  have := Clean_render_append hT' hT (y := []) (by simp) (by rw [hstep]; exact hT)
    (String.mk ((render r T.reverse).data ++ ['/'])) rfl
  rw [this, hstep]

/-- The shape of the database directory `filepath.Join(storagePath, "db")`: a
clean path whose last element is `db`. -/
theorem Join_db_form (root : String) :
    ∃ (r : Bool) (T : List (List Char)), StackOK r (['d', 'b'] :: T) ∧
      Join [root, "db"] = render r (['d', 'b'] :: T).reverse := by
  by_cases hroot : root = ""
  · subst hroot
    refine ⟨false, [], ?_, by decide⟩
    simp [StackOK]
  · have hdata : root.data ≠ [] := by
      intro h
      apply hroot
      cases root with
      | mk data => simp only at h; subst h; rfl
    let r : Bool := decide (root.data.head? = some '/')
    let T := (splitSep root.data).foldl (cleanStep r) []
    have hT : StackOK r T :=
      StackOK_foldl _ [] trivial (splitSep_no_sep_mem _)
    have hdb : '/' ∉ ['d', 'b'] := by decide
    have hpush : cleanStep r T ['d', 'b'] = ['d', 'b'] :: T := by
      simp [cleanStep]
    have hok : StackOK r (['d', 'b'] :: T) := by
      rw [← hpush]; exact StackOK_cleanStep hT hdb
    refine ⟨r, T, hok, ?_⟩
    have hhead : (root.data ++ '/' :: ['d', 'b']).head? = root.data.head? := by
      cases hd : root.data with
      | nil => exact absurd hd hdata
      | cons c cs => rfl
    have hs : (joinStrings [root, "db"]).data = root.data ++ '/' :: ['d', 'b'] := by
      simp [joinStrings]
    have helems : cleanElems (root.data ++ '/' :: ['d', 'b']) = (['d', 'b'] :: T).reverse := by
      unfold cleanElems
      rw [hhead, splitSep_append, splitSep_noSep hdb, List.foldl_append]
      show (cleanStep r T ['d', 'b']).reverse = _
      rw [hpush]
    have hne := joinSep_ne_nil (L := (['d', 'b'] :: T).reverse) (by simp)
      (fun e he => (reverse_ok hok e he).2)
    unfold Join
    rw [if_neg hroot]
    unfold Clean
    simp only [hs, helems, hhead]
    by_cases hr : root.data.head? = some '/'
    · have : r = true := by simp [r, hr]
      rw [if_pos hr, this]; rfl
    · have : r = false := by simp [r, hr]
      rw [if_neg hr, if_neg hne, this]; rfl

theorem inits_reverse_head (L : List (List Char)) :
    ∃ rest, L.inits.reverse = L :: rest := by
  induction L with
  | nil => exact ⟨[], rfl⟩
  | cons a L ih =>
    obtain ⟨rest, hrest⟩ := ih
    refine ⟨rest.map (fun l => a :: l) ++ [[]], ?_⟩
    rw [List.inits_cons, List.reverse_cons, ← List.map_reverse, hrest]
    rfl

theorem joinSep_length_prefix (L M : List (List Char)) :
    (joinSep L).length ≤ (joinSep (L ++ M)).length := by
  induction L with
  | nil => simp [joinSep]
  | cons e L ih =>
    cases L with
    | nil =>
      cases M with
      | nil => simp
      | cons m M' => simp [joinSep]
    | cons e' L' =>
      simp only [List.cons_append] at ih ⊢
      simp only [joinSep, List.length_append, List.length_cons]
      omega

theorem render_length_prefix (r : Bool) (L M : List (List Char)) :
    (render r L).data.length ≤ (render r (L ++ M)).data.length := by
  have := joinSep_length_prefix L M
  cases r with
  | true => simpa [render] using this
  | false => simpa [render] using this

/-- The chain of a clean path starts with the path itself, and no entry of it
is longer than the path. -/
theorem pathChain_render {r : Bool} {T : List (List Char)} (h : StackOK r T) (hT : T ≠ []) :
    (∃ rest, pathChain (render r T.reverse) = render r T.reverse :: rest) ∧
    ∀ x ∈ pathChain (render r T.reverse),
      x.data.length ≤ (render r T.reverse).data.length := by
  have hr := render_rooted h hT
  have hf : (fun es : List (List Char) =>
      if (render r T.reverse).data.head? = some '/' then String.mk ('/' :: joinSep es)
      else String.mk (joinSep es)) = render r := by
    funext es
    cases r with
    | true =>
      have : (render true T.reverse).data.head? = some '/' := by simpa using hr
      rw [if_pos this]; rfl
    | false =>
      have : ¬ (render false T.reverse).data.head? = some '/' := by simpa using hr
      rw [if_neg this]; rfl
  have hchain : pathChain (render r T.reverse)
      = (T.reverse.inits.reverse.filter (fun es => es ≠ [])).map (render r) := by
    unfold pathChain
    simp only [cleanElems_render h hT]
    rw [hf]
  rw [hchain]
  constructor
  · obtain ⟨rest, hrest⟩ := inits_reverse_head T.reverse
    rw [hrest]
    have hne : T.reverse ≠ [] := by simpa using hT
    rw [List.filter_cons_of_pos (by simpa using hne)]
    exact ⟨_, rfl⟩
  · intro x hx
    rw [List.mem_map] at hx
    obtain ⟨L', hL', rfl⟩ := hx
    have hpre : L' <+: T.reverse := by
      have := (List.mem_filter.mp hL').1
      exact (List.mem_inits _ _).mp (List.mem_reverse.mp this)
    obtain ⟨M, hM⟩ := hpre
    rw [← hM]
    exact render_length_prefix r L' M

/-! ### Making directories -/

theorem Mkdir_frame (fs : FS) (path : String) :
    (Mkdir fs path).1.files = fs.files ∧ (Mkdir fs path).1.denied = fs.denied ∧
    ∀ x ∈ (Mkdir fs path).1.dirs, x ∈ fs.dirs ∨ x = path := by
  unfold Mkdir
  split_ifs
  · exact ⟨rfl, rfl, fun x hx => Or.inl hx⟩
  · exact ⟨rfl, rfl, fun x hx => Or.inl hx⟩
  · refine ⟨rfl, rfl, fun x hx => ?_⟩
    rcases List.mem_cons.mp hx with h | h
    · exact Or.inr h
    · exact Or.inl h

/-- Go's `os.MkdirAll` touches no file, and every directory it makes is on the chain
of the path. -/
theorem mkdirChain_frame (chain : List String) (fs : FS) :
    (mkdirChain fs chain).1.files = fs.files ∧ (mkdirChain fs chain).1.denied = fs.denied ∧
    ∀ x ∈ (mkdirChain fs chain).1.dirs, x ∈ fs.dirs ∨ x ∈ chain := by
  induction chain with
  | nil => exact ⟨rfl, rfl, fun x hx => Or.inl hx⟩
  | cons p parents ih =>
    unfold mkdirChain
    by_cases h1 : fs.isDir p = true
    · rw [if_pos h1]; exact ⟨rfl, rfl, fun x hx => Or.inl hx⟩
    · rw [if_neg h1]
      by_cases h2 : (fs.files.lookup p).isSome = true
      · rw [if_pos h2]; exact ⟨rfl, rfl, fun x hx => Or.inl hx⟩
      · rw [if_neg h2]
        obtain ⟨i1, i2, i3⟩ := ih
        cases hm : mkdirChain fs parents with
        | mk fs1 e1 =>
          rw [hm] at i1 i2 i3
          cases e1 with
          | some e =>
            refine ⟨i1, i2, fun x hx => ?_⟩
            rcases i3 x hx with h | h
            · exact Or.inl h
            · exact Or.inr (List.mem_cons_of_mem _ h)
          | none =>
            obtain ⟨j1, j2, j3⟩ := Mkdir_frame fs1 p
            refine ⟨j1.trans i1, j2.trans i2, fun x hx => ?_⟩
            rcases j3 x hx with h | h
            · rcases i3 x h with h' | h'
              · exact Or.inl h'
              · exact Or.inr (List.mem_cons_of_mem _ h')
            · exact Or.inr (h ▸ List.mem_cons_self _ _)

theorem mkdirChain_of_isDir {fs : FS} {p : String} (rest : List String)
    (h : fs.isDir p = true) : mkdirChain fs (p :: rest) = (fs, none) := by
  unfold mkdirChain
  rw [if_pos h]


/-! ### The layout of the database directory -/

/-- The directory `<root>/db` and the document `<root>/db/images.json` are clean
paths, the directory is the parent of the document, it heads its own chain of
ancestors, and the document is not on that chain. -/
theorem db_layout (root : String) :
    Clean (Join [root, "db"]) = Join [root, "db"] ∧
    Clean (Join [Join [root, "db"], "images.json"]) = Join [Join [root, "db"], "images.json"] ∧
    Dir (Join [Join [root, "db"], "images.json"]) = Join [root, "db"] ∧
    (∃ rest, pathChain (Join [root, "db"]) = Join [root, "db"] :: rest) ∧
    Join [Join [root, "db"], "images.json"] ∉ pathChain (Join [root, "db"]) := by
  obtain ⟨r, T, hok, hc⟩ := Join_db_form root
  have hok2 : StackOK r ("images.json".data :: ['d', 'b'] :: T) :=
    ⟨by decide, by decide, by decide, fun h => absurd h (by decide), hok⟩
  have hp : Join [Join [root, "db"], "images.json"]
      = render r ("images.json".data :: ['d', 'b'] :: T).reverse := by
    rw [hc]
    exact Join_render hok2 (by simp)
  have hchain := pathChain_render hok (by simp)
  rw [hp, hc]
  refine ⟨Clean_render hok (by simp), Clean_render hok2 (by simp),
    Dir_render hok2 (by simp), hchain.1, ?_⟩
  intro hmem
  have hle := hchain.2 _ hmem
  rw [render_snoc_data r _ (by simp) _] at hle
  simp at hle

theorem MkdirAll_db_of_isDir {fs : FS} {root : String}
    (h : fs.isDir (Join [root, "db"]) = true) :
    MkdirAll fs (Join [root, "db"]) = (fs, none) := by
  obtain ⟨hclean, _, _, ⟨rest, hrest⟩, _⟩ := db_layout root
  unfold MkdirAll
  rw [hclean, hrest]
  exact mkdirChain_of_isDir rest h

theorem Mkdir_dirs_mono (fs : FS) (p x : String) (hx : x ∈ fs.dirs) :
    x ∈ (Mkdir fs p).1.dirs := by
  unfold Mkdir
  split_ifs
  · exact hx
  · exact hx
  · exact List.mem_cons_of_mem _ hx

theorem mkdirChain_dirs_mono (chain : List String) :
    ∀ (fs : FS) (x : String), x ∈ fs.dirs → x ∈ (mkdirChain fs chain).1.dirs := by
  induction chain with
  | nil => intro fs x hx; exact hx
  | cons p parents ih =>
    intro fs x hx
    unfold mkdirChain
    split_ifs
    · exact hx
    · exact hx
    · have := ih fs x hx
      cases hm : mkdirChain fs parents with
      | mk fs1 e1 =>
        rw [hm] at this
        cases e1 with
        | some e => exact this
        | none => exact Mkdir_dirs_mono fs1 p x this

/-- Go's `os.MkdirAll` does not change whether a path off its chain is a directory. -/
theorem mkdirChain_isDir_of_not_mem (chain : List String) (fs : FS) (p : String)
    (hp : p ∉ chain) : (mkdirChain fs chain).1.isDir p = fs.isDir p := by
  have hiff : p ∈ (mkdirChain fs chain).1.dirs ↔ p ∈ fs.dirs := by
    constructor
    · intro hx
      rcases (mkdirChain_frame chain fs).2.2 p hx with h | h
      · exact h
      · exact absurd h hp
    · exact mkdirChain_dirs_mono chain fs p
  simp only [FS.isDir, decide_eq_decide.mpr hiff]

/-- Go's `os.MkdirAll` of `<root>/db` neither makes nor removes the document. -/
theorem MkdirAll_db_doc (fs : FS) (root : String) :
    (MkdirAll fs (Join [root, "db"])).1.files = fs.files ∧
    (MkdirAll fs (Join [root, "db"])).1.isDir (Join [Join [root, "db"], "images.json"])
      = fs.isDir (Join [Join [root, "db"], "images.json"]) := by
  obtain ⟨hclean, _, _, _, hnot⟩ := db_layout root
  unfold MkdirAll
  rw [hclean]
  exact ⟨(mkdirChain_frame _ fs).1, mkdirChain_isDir_of_not_mem _ fs _ hnot⟩

/-! ### Loading the document -/

theorem lookup_addAll_of_not_mem (l : List Image) :
    ∀ (m : AList (fun _ : String => Image)) (id : String), id ∉ l.map (fun r => r.ID) →
      (addAll m l).lookup id = m.lookup id := by
  induction l with
  | nil => intro m id _; rfl
  | cons a l ih =>
    intro m id hid
    rw [List.map_cons, List.mem_cons, not_or] at hid
    show (addAll (m.insert a.ID a) l).lookup id = _
    rw [ih _ id hid.2, AList.lookup_insert_ne hid.1]

theorem lookup_addAll_of_mem (l : List Image) :
    ∀ (m : AList (fun _ : String => Image)), (l.map (fun r => r.ID)).Nodup →
      ∀ img ∈ l, (addAll m l).lookup img.ID = some img := by
  induction l with
  | nil => intro m _ img himg; simp at himg
  | cons a l ih =>
    intro m hnd img himg
    rw [List.map_cons, List.nodup_cons] at hnd
    show (addAll (m.insert a.ID a) l).lookup img.ID = some img
    rcases List.mem_cons.mp himg with rfl | himg
    · rw [lookup_addAll_of_not_mem l _ _ hnd.1, AList.lookup_insert]
    · exact ih _ hnd.2 img himg

theorem wellKeyed_addAll (path : String) (l : List Image) :
    ∀ (m : AList (fun _ : String => Image)),
      LocalDBService.WellKeyed { storagePath := path, images := m } →
      LocalDBService.WellKeyed { storagePath := path, images := addAll m l } := by
  induction l with
  | nil => intro m h; exact h
  | cons a l ih =>
    intro m h
    exact ih _ (wellKeyed_insert (d := { storagePath := path, images := m }) h a)

/-- The ids of the values of a well keyed map are its keys. -/
theorem wellKeyed_ids {d : LocalDBService} (h : d.WellKeyed) :
    (d.images.entries.map (fun e => e.2)).map (fun r => r.ID) = d.images.keys := by
  rw [List.map_map]
  unfold AList.keys List.keys
  apply List.map_congr_left
  intro e he
  exact h e he

/-- Loading any rearrangement of the values of a well keyed map into an empty
map gives a map with the same lookups. -/
theorem lookup_addAll_values {d : LocalDBService} (h : d.WellKeyed) {l : List Image}
    (hl : l.Perm (d.images.entries.map (fun e => e.2))) (id : String) :
    (addAll ∅ l).lookup id = d.images.lookup id := by
  have hids : (l.map (fun r => r.ID)).Perm d.images.keys := by
    rw [← wellKeyed_ids h]; exact hl.map _
  have hnd : (l.map (fun r => r.ID)).Nodup := hids.nodup_iff.mpr d.images.keys_nodup
  cases hlook : d.images.lookup id with
  | none =>
    have hnot : id ∉ l.map (fun r => r.ID) := by
      intro hmem
      have : id ∈ d.images := AList.mem_keys.mpr (hids.mem_iff.mp hmem)
      exact (AList.lookup_eq_none.mp hlook) this
    rw [lookup_addAll_of_not_mem l _ _ hnot]
    exact AList.lookup_empty _
  | some img =>
    have hmem : img ∈ l := by
      apply hl.mem_iff.mpr
      rw [List.mem_map]
      exact ⟨⟨id, img⟩, AList.mem_lookup_iff.mp (Option.mem_def.mpr hlook), rfl⟩
    have hid : img.ID = id := wellKeyed_lookup h hlook
    rw [← hid]
    exact lookup_addAll_of_mem l _ hnd img hmem

/-- Two maps with the same lookups hold the same entries. -/
theorem entries_perm_of_lookup {m1 m2 : AList (fun _ : String => Image)}
    (h : ∀ id, m1.lookup id = m2.lookup id) : m1.entries.Perm m2.entries := by
  apply List.lookup_ext m1.nodupKeys m2.nodupKeys
  intro x y
  have := h x
  unfold AList.lookup at this
  rw [this]

/-! ### The invariant of the map

Every store built by `NewLocalDBService` has the ids of its records as keys,
and `SaveImage` and `DeleteImage` keep it so. -/

theorem loadData_wellKeyed (json : JSONLib) (fs : FS) (d : LocalDBService) (h : d.WellKeyed) :
    (LocalDBService.loadData json fs d).1.WellKeyed := by
  unfold LocalDBService.loadData
  simp only
  cases ReadFile fs (Join [d.storagePath, "images.json"]) with
  | error e => exact h
  | ok data =>
    simp only
    cases json.unmarshal data with
    | error e => exact h
    | ok images => exact wellKeyed_addAll d.storagePath images d.images h

theorem NewLocalDBService_wellKeyed {json : JSONLib} {fs fs1 : FS} {root : String}
    {d : LocalDBService} (h : NewLocalDBService json fs root = (fs1, .ok d)) :
    d.WellKeyed := by
  unfold NewLocalDBService at h
  simp only at h
  cases hm : MkdirAll fs (Join [root, "db"]) with
  | mk fsa ea =>
    rw [hm] at h
    cases ea with
    | some e => simp at h
    | none =>
      simp only at h
      have hwk := loadData_wellKeyed json fsa
        { storagePath := Join [root, "db"], images := ∅ } (wellKeyed_empty _)
      cases hl : LocalDBService.loadData json fsa
          { storagePath := Join [root, "db"], images := ∅ } with
      | mk s1 e1 =>
        rw [hl] at h hwk
        cases e1 with
        | none =>
          simp only [Prod.mk.injEq, Except.ok.injEq] at h
          rw [← h.2]; exact hwk
        | some e =>
          simp only at h
          split_ifs at h
          · simp at h
          · simp only [Prod.mk.injEq, Except.ok.injEq] at h
            rw [← h.2]; exact hwk

theorem SaveImage_wellKeyed (json : JSONLib) (ord : MapOrder) (fs : FS) (d : LocalDBService)
    (r : Image) (h : d.WellKeyed) : (LocalDBService.SaveImage json ord fs d r).1.WellKeyed :=
  wellKeyed_insert h r

theorem DeleteImage_wellKeyed (json : JSONLib) (ord : MapOrder) (fs : FS) (d : LocalDBService)
    (id : String) (h : d.WellKeyed) :
    (LocalDBService.DeleteImage json ord fs d id).1.WellKeyed := by
  unfold LocalDBService.DeleteImage
  cases d.images.lookup id with
  | none => exact h
  | some img => exact wellKeyed_erase h id

theorem ReadFile_of_lookup {fs : FS} {p : String} {data : Bytes}
    (h : fs.files.lookup (Clean p) = some data) : ReadFile fs p = .ok data := by
  simp [ReadFile, h]

theorem ReadFile_of_dir {fs : FS} {p : String} (h : fs.files.lookup (Clean p) = none)
    (hd : fs.isDir (Clean p) = true) :
    ReadFile fs p = .error (.pathError "read" (Clean p) "is a directory") := by
  simp [ReadFile, h, hd]

theorem ReadFile_of_missing {fs : FS} {p : String} (h : fs.files.lookup (Clean p) = none)
    (hd : fs.isDir (Clean p) = false) :
    ReadFile fs p = .error (.notExist "open" (Clean p)) := by
  simp [ReadFile, h, hd]

/-- What `NewLocalDBService` returns once the database directory exists. -/
theorem NewLocalDBService_of_mkdir {json : JSONLib} {fs fs1 : FS} {root : String}
    (hm : MkdirAll fs (Join [root, "db"]) = (fs1, none)) :
    NewLocalDBService json fs root = (fs1,
      match fs1.files.lookup (Join [Join [root, "db"], "images.json"]) with
      | some data =>
        match json.unmarshal data with
        | .error err => .error (.wrapped "failed to load existing DB"
            (.wrapped "failed to parse images data" err))
        | .ok images => .ok { storagePath := Join [root, "db"], images := addAll ∅ images }
      | none =>
        if fs1.isDir (Join [Join [root, "db"], "images.json"]) then
          .error (.wrapped "failed to load existing DB"
            (.pathError "read" (Join [Join [root, "db"], "images.json"]) "is a directory"))
        else .ok { storagePath := Join [root, "db"], images := ∅ }) := by
  obtain ⟨_, hclean, _, _, _⟩ := db_layout root
  cases hl : fs1.files.lookup (Join [Join [root, "db"], "images.json"]) with
  | some data =>
    have hread : ReadFile fs1 (Join [Join [root, "db"], "images.json"]) = .ok data :=
      ReadFile_of_lookup (by rw [hclean]; exact hl)
    cases hu : json.unmarshal data with
    | error err => simp [NewLocalDBService, LocalDBService.loadData, hm, hread, hu, IsNotExist]
    | ok images => simp [NewLocalDBService, LocalDBService.loadData, hm, hread, hu]
  | none =>
    by_cases hd : fs1.isDir (Join [Join [root, "db"], "images.json"]) = true
    · have hread : ReadFile fs1 (Join [Join [root, "db"], "images.json"])
          = .error (.pathError "read" (Join [Join [root, "db"], "images.json"])
              "is a directory") := by
        have := @ReadFile_of_dir fs1 (Join [Join [root, "db"], "images.json"])
          (by rw [hclean]; exact hl) (by rw [hclean]; exact hd)
        rw [hclean] at this
        exact this
      simp [NewLocalDBService, LocalDBService.loadData, hm, hread, hd, IsNotExist]
    · have hread : ReadFile fs1 (Join [Join [root, "db"], "images.json"])
          = .error (.notExist "open" (Join [Join [root, "db"], "images.json"])) := by
        have := @ReadFile_of_missing fs1 (Join [Join [root, "db"], "images.json"])
          (by rw [hclean]; exact hl) (by rw [hclean]; simpa using hd)
        rw [hclean] at this
        exact this
      simp [NewLocalDBService, LocalDBService.loadData, hm, hread, hd, IsNotExist]

set_option maxRecDepth 100000 in
/-- C8, as stated, fails: on a disk where `<root>/db` is a regular file the
document `<root>/db/images.json` does not exist, and `NewLocalDBService`
returns an error and no store. -/
theorem C8_missing_document_can_fail :
    dbIsFileDisk.files.lookup (Join [Join ["/tmp/gallery", "db"], "images.json"]) = none ∧
    dbIsFileDisk.isDir (Join [Join ["/tmp/gallery", "db"], "images.json"]) = false ∧
    (NewLocalDBService plainCodec dbIsFileDisk "/tmp/gallery").2
      = .error (.wrapped "failed to create DB storage directory"
          (.pathError "mkdir" "/tmp/gallery/db" "not a directory")) :=
  ⟨by rfl, by decide, by rfl⟩

/-- C8, amended. When the directory `<root>/db` exists or can be made and the
document `<root>/db/images.json` does not exist, `NewLocalDBService` succeeds
with an empty store, of which `ListImages` returns the empty list. Whenever
the document exists and the decoder rejects its content, `NewLocalDBService`
returns an error and no store; when the directory could be made, the error is
the decoding error, wrapped. A content the decoder accepts gives, when the
directory could be made, the store of the decoded records. -/
theorem C8_construction (json : JSONLib) (fs : FS) (root : String) :
    ((MkdirAll fs (Join [root, "db"])).2 = none →
      fs.files.lookup (Join [Join [root, "db"], "images.json"]) = none →
      fs.isDir (Join [Join [root, "db"], "images.json"]) = false →
      NewLocalDBService json fs root
        = ((MkdirAll fs (Join [root, "db"])).1,
            .ok { storagePath := Join [root, "db"], images := ∅ }) ∧
      ∀ ord : MapOrder,
        LocalDBService.ListImages ord { storagePath := Join [root, "db"], images := ∅ }
          = ([], none)) ∧
    (∀ (data : Bytes) (err : GoError),
      fs.files.lookup (Join [Join [root, "db"], "images.json"]) = some data →
      json.unmarshal data = .error err →
      ∃ e, (NewLocalDBService json fs root).2 = .error e ∧
        ((MkdirAll fs (Join [root, "db"])).2 = none →
          e = .wrapped "failed to load existing DB"
            (.wrapped "failed to parse images data" err))) ∧
    (∀ (data : Bytes) (images : List Image),
      (MkdirAll fs (Join [root, "db"])).2 = none →
      fs.files.lookup (Join [Join [root, "db"], "images.json"]) = some data →
      json.unmarshal data = .ok images →
      (NewLocalDBService json fs root).2
        = .ok { storagePath := Join [root, "db"], images := addAll ∅ images }) := by
  obtain ⟨hfiles, hdir⟩ := MkdirAll_db_doc fs root
  refine ⟨?_, ?_, ?_⟩
  · intro hm hnone hnodir
    have hm' : MkdirAll fs (Join [root, "db"]) = ((MkdirAll fs (Join [root, "db"])).1, none) :=
      Prod.ext rfl hm
    refine ⟨?_, ?_⟩
    · rw [NewLocalDBService_of_mkdir hm', hfiles, hnone, hdir, hnodir]
      simp
    · intro ord
      have : ord.visit [] = [] := List.Perm.eq_nil (ord.isPerm [])
      simp [LocalDBService.ListImages, rangeImages, this]
  · intro data err hsome hbad
    cases hm : MkdirAll fs (Join [root, "db"]) with
    | mk fs1 e1 =>
      cases e1 with
      | some e =>
        refine ⟨.wrapped "failed to create DB storage directory" e, ?_, fun h => by simp at h⟩
        unfold NewLocalDBService
        simp [hm]
      | none =>
        rw [hm] at hfiles
        simp only at hfiles
        refine ⟨_, ?_, fun _ => rfl⟩
        rw [NewLocalDBService_of_mkdir hm, hfiles, hsome]
        simp [hbad]
  · intro data images hm hsome hgood
    have hm' : MkdirAll fs (Join [root, "db"]) = ((MkdirAll fs (Join [root, "db"])).1, none) :=
      Prod.ext rfl hm
    rw [NewLocalDBService_of_mkdir hm', hfiles, hsome]
    simp [hgood]

set_option maxRecDepth 100000 in
/-- The amended C8 on the temporary directory of the tests, where the directory
`db` can be made and there is no document, and on a disk whose document is the
single byte `{`, which the decoder rejects. -/
theorem C8_construction_witness :
    (MkdirAll tempDisk (Join ["/tmp/gallery", "db"])).2 = none ∧
    tempDisk.files.lookup (Join [Join ["/tmp/gallery", "db"], "images.json"]) = none ∧
    tempDisk.isDir (Join [Join ["/tmp/gallery", "db"], "images.json"]) = false ∧
    malformedDisk.files.lookup (Join [Join ["/tmp/gallery", "db"], "images.json"])
      = some [123] ∧
    plainCodec.unmarshal [123] = .error (.lib "invalid character in document") ∧
    (MkdirAll malformedDisk (Join ["/tmp/gallery", "db"])).2 = none ∧
    (NewLocalDBService plainCodec tempDisk "/tmp/gallery"
        = ((MkdirAll tempDisk (Join ["/tmp/gallery", "db"])).1,
            .ok { storagePath := Join ["/tmp/gallery", "db"], images := ∅ }) ∧
      ∀ ord : MapOrder,
        LocalDBService.ListImages ord
          { storagePath := Join ["/tmp/gallery", "db"], images := ∅ } = ([], none)) ∧
    NewLocalDBService plainCodec tempDisk "/tmp/gallery" = (dbDisk, .ok emptyStore) ∧
    (∃ e, (NewLocalDBService plainCodec malformedDisk "/tmp/gallery").2 = .error e ∧
      e = .wrapped "failed to load existing DB"
        (.wrapped "failed to parse images data" (.lib "invalid character in document"))) :=
  ⟨by decide, by rfl, by decide, by rfl, by decide, by decide,
    (C8_construction plainCodec tempDisk "/tmp/gallery").1 (by decide) (by rfl) (by decide),
    by rfl,
    ((C8_construction plainCodec malformedDisk "/tmp/gallery").2.1 [123]
      (.lib "invalid character in document") (by rfl) (by decide)).elim
        fun e he => ⟨e, he.1, he.2 (by decide)⟩⟩

/-- C2. Persistence across a restart: for every record `r`, once `SaveImage r`
has returned no error on a store rooted at `root` (its directory is
`<root>/db`, its keys are the ids of its records), `NewLocalDBService root` on
the disk it leaves succeeds, and the fresh store returns `r` from
`GetImage r.ID`; more generally it answers every `GetImage` as the first store
does and holds exactly the same entries. The decoder is taken to return the
list the encoder was given when it reads the document just written. -/
theorem C2_persistence (json : JSONLib) (ord : MapOrder) (fs : FS) (d : LocalDBService)
    (r : Image) (root : String) (hroot : d.storagePath = Join [root, "db"])
    (hwk : d.WellKeyed)
    (hsave : (LocalDBService.SaveImage json ord fs d r).2.2 = none)
    (hjson : ∀ data,
      json.marshalIndent (rangeImages ord (LocalDBService.SaveImage json ord fs d r).1.images)
        = .ok data →
      json.unmarshal data
        = .ok (rangeImages ord (LocalDBService.SaveImage json ord fs d r).1.images)) :
    ∃ d2 : LocalDBService,
      NewLocalDBService json (LocalDBService.SaveImage json ord fs d r).2.1 root
        = ((LocalDBService.SaveImage json ord fs d r).2.1, .ok d2) ∧
      LocalDBService.GetImage d2 r.ID = (r, none) ∧
      (∀ id, LocalDBService.GetImage d2 id
        = LocalDBService.GetImage (LocalDBService.SaveImage json ord fs d r).1 id) ∧
      d2.images.entries.Perm (LocalDBService.SaveImage json ord fs d r).1.images.entries := by
  obtain ⟨_, hclean, hdir, _, _⟩ := db_layout root
  have hwk1 : (LocalDBService.SaveImage json ord fs d r).1.WellKeyed := wellKeyed_insert hwk r
  have hpath : (LocalDBService.SaveImage json ord fs d r).1.storagePath = Join [root, "db"] :=
    hroot
  have hdoc : docPath (LocalDBService.SaveImage json ord fs d r).1
      = Join [Join [root, "db"], "images.json"] := by
    unfold docPath
    rw [hpath, hclean]
  generalize hd1 : (LocalDBService.SaveImage json ord fs d r).1 = d1 at *
  have hlook1 : d1.images.lookup r.ID = some r := by
    rw [← hd1, SaveImage_fst]
    exact AList.lookup_insert _
  have e1 : LocalDBService.saveData json ord fs d1
      = ((LocalDBService.SaveImage json ord fs d r).2.1, none) := by
    rw [← hd1]
    exact Prod.ext rfl hsave
  generalize (LocalDBService.SaveImage json ord fs d r).2.1 = fs1 at *
  obtain ⟨data, hm, hcan, hfs1⟩ := saveData_ok e1
  rw [hdoc] at hcan hfs1
  have hisdir : fs1.isDir (Join [root, "db"]) = true := by
    have h := hcan
    simp only [FS.canCreate, Bool.and_eq_true] at h
    rw [hfs1, ← hdir]
    exact (@isDir_congr fs _ rfl _).trans h.1.2
  have hlookup : fs1.files.lookup (Join [Join [root, "db"], "images.json"]) = some data := by
    rw [hfs1]
    exact AList.lookup_insert _
  have hnew := @NewLocalDBService_of_mkdir json _ _ _ (MkdirAll_db_of_isDir hisdir)
  rw [hlookup] at hnew
  simp only [hjson data hm] at hnew
  have hsame : ∀ id, (addAll ∅ (rangeImages ord d1.images)).lookup id = d1.images.lookup id :=
    fun id => lookup_addAll_values hwk1 (ord.isPerm _) id
  refine ⟨_, hnew, ?_, ?_, ?_⟩
  · simp [LocalDBService.GetImage, hsame, hlook1]
  · intro id
    simp [LocalDBService.GetImage, hsame]
  · exact entries_perm_of_lookup hsame

set_option maxRecDepth 100000 in
/-- The persistence of C2 on the record of the test `Persistence`
("test-id-persistence"), saved into the store built on the temporary
directory; the fresh store returns the record. -/
theorem C2_persistence_witness :
    emptyStore.storagePath = Join ["/tmp/gallery", "db"] ∧ emptyStore.WellKeyed ∧
    (LocalDBService.SaveImage plainCodec entryOrder dbDisk emptyStore
      testImagePersistence).2.2 = none ∧
    plainCodec.unmarshal (encodeImage testImagePersistence) = .ok [testImagePersistence] ∧
    ∃ d2 : LocalDBService,
      NewLocalDBService plainCodec
          (LocalDBService.SaveImage plainCodec entryOrder dbDisk emptyStore
            testImagePersistence).2.1 "/tmp/gallery"
        = ((LocalDBService.SaveImage plainCodec entryOrder dbDisk emptyStore
            testImagePersistence).2.1, .ok d2) ∧
      LocalDBService.GetImage d2 testImagePersistence.ID = (testImagePersistence, none) ∧
      (∀ id, LocalDBService.GetImage d2 id
        = LocalDBService.GetImage (LocalDBService.SaveImage plainCodec entryOrder dbDisk
            emptyStore testImagePersistence).1 id) ∧
      d2.images.entries.Perm (LocalDBService.SaveImage plainCodec entryOrder dbDisk emptyStore
        testImagePersistence).1.images.entries :=
  ⟨by decide, wellKeyed_empty _, by decide, by decide,
    C2_persistence plainCodec entryOrder dbDisk emptyStore testImagePersistence "/tmp/gallery"
      (by decide) (wellKeyed_empty _) (by decide)
      (by
        intro data hdata
        have h : plainCodec.marshalIndent (rangeImages entryOrder
            (LocalDBService.SaveImage plainCodec entryOrder dbDisk emptyStore
              testImagePersistence).1.images)
            = .ok (encodeImage testImagePersistence) := by decide
        rw [h] at hdata
        cases hdata
        decide)⟩

/-! ## Local object store: overwriting, missing payloads, deleting -/

/-- What a successful `UploadImage` did: the directory was made, the file could
be created on the disk that left, and the bytes of the stream were written. -/
theorem UploadImage_success {fs fs1 : FS} {s : LocalStorageService} {key : String} {f : File}
    {ct : String} (h : LocalStorageService.UploadImage fs s key f ct = (fs1, none)) :
    ∃ fsa, MkdirAll fs (Dir (Join [s.storagePath, key])) = (fsa, none) ∧
      fsa.canCreate (Clean (Join [s.storagePath, key])) = true ∧
      fs1 = { fsa with files := fsa.files.insert (Clean (Join [s.storagePath, key])) f.data } := by
  unfold LocalStorageService.UploadImage at h
  simp only at h
  cases hm : MkdirAll fs (Dir (Join [s.storagePath, key])) with
  | mk fsa ea =>
    rw [hm] at h
    cases ea with
    | some e => simp at h
    | none =>
      simp only at h
      refine ⟨fsa, rfl, ?_⟩
      cases hc : fsa.canCreate (Clean (Join [s.storagePath, key])) with
      | false =>
        obtain ⟨err, he⟩ := Create_of_cannot hc
        rw [he] at h
        simp at h
      | true =>
        rw [Create_of_can hc] at h
        simp only at h
        cases he : f.err with
        | some e => rw [he] at h; simp at h
        | none =>
          rw [he] at h
          simp only [Prod.mk.injEq, and_true] at h
          refine ⟨rfl, ?_⟩
          rw [← h]
          simp [AList.insert_insert]

/-- C11. Overwrite: for every key and streams `f1`, `f2` of any lengths, after
`UploadImage` of `f1` (whatever it returned) and an `UploadImage` of `f2` to
the same key that returned no error, `GetImage` returns exactly the bytes of
`f2`, none of `f1`. -/
theorem C11_upload_overwrites (fs : FS) (s : LocalStorageService) (key : String)
    (f1 f2 : File) (ct1 ct2 : String)
    (hsecond : (LocalStorageService.UploadImage
      (LocalStorageService.UploadImage fs s key f1 ct1).1 s key f2 ct2).2 = none) :
    LocalStorageService.GetImage
      (LocalStorageService.UploadImage
        (LocalStorageService.UploadImage fs s key f1 ct1).1 s key f2 ct2).1 s key
      = (some f2.data, extContentType key, none) :=
  GetImage_of_payload (UploadImage_ok (Prod.ext rfl hsecond :
    LocalStorageService.UploadImage (LocalStorageService.UploadImage fs s key f1 ct1).1 s key
        f2 ct2
      = ((LocalStorageService.UploadImage
          (LocalStorageService.UploadImage fs s key f1 ct1).1 s key f2 ct2).1, none)))

set_option maxRecDepth 100000 in
/-- The overwrite of C11 with "hello" replaced by the shorter "hi" at
"abc123.jpg": the fetch returns "hi". -/
theorem C11_upload_overwrites_witness :
    (LocalStorageService.UploadImage
      (LocalStorageService.UploadImage tempDisk testStorage "abc123.jpg" ⟨helloBytes, none⟩
        "image/jpeg").1 testStorage "abc123.jpg" ⟨hiBytes, none⟩ "image/jpeg").2 = none ∧
    LocalStorageService.GetImage
      (LocalStorageService.UploadImage
        (LocalStorageService.UploadImage tempDisk testStorage "abc123.jpg" ⟨helloBytes, none⟩
          "image/jpeg").1 testStorage "abc123.jpg" ⟨hiBytes, none⟩ "image/jpeg").1
        testStorage "abc123.jpg"
      = (some hiBytes, "image/jpeg", none) ∧
    LocalStorageService.GetImage
      (LocalStorageService.UploadImage
        (LocalStorageService.UploadImage tempDisk testStorage "abc123.jpg" ⟨helloBytes, none⟩
          "image/jpeg").1 testStorage "abc123.jpg" ⟨hiBytes, none⟩ "image/jpeg").1
        testStorage "abc123.jpg"
      = (some hiBytes, extContentType "abc123.jpg", none) :=
  ⟨by decide, by rfl,
    C11_upload_overwrites tempDisk testStorage "abc123.jpg" ⟨helloBytes, none⟩ ⟨hiBytes, none⟩
      "image/jpeg" "image/jpeg" (by decide)⟩

/-- C12. Missing payload: for every key at whose path no payload exists,
`GetImage` returns nil bytes, an empty content type and an error, the error of
the read wrapped by "failed to read file". -/
theorem C12_get_missing (fs : FS) (s : LocalStorageService) (key : String)
    (hmissing : fs.files.lookup (Clean (Join [s.storagePath, key])) = none) :
    ∃ err, LocalStorageService.GetImage fs s key
        = (none, "", some (.wrapped "failed to read file" err)) := by
  cases hd : fs.isDir (Clean (Join [s.storagePath, key])) with
  | true =>
    refine ⟨.pathError "read" (Clean (Join [s.storagePath, key])) "is a directory", ?_⟩
    simp only [LocalStorageService.GetImage, ReadFile_of_dir hmissing hd]
  | false =>
    refine ⟨.notExist "open" (Clean (Join [s.storagePath, key])), ?_⟩
    simp only [LocalStorageService.GetImage, ReadFile_of_missing hmissing hd]

set_option maxRecDepth 100000 in
/-- The missing payload of C12 on the empty temporary directory, where the read
fails with "no such file". -/
theorem C12_get_missing_witness :
    tempDisk.files.lookup (Clean (Join [testStorage.storagePath, "abc123.jpg"])) = none ∧
    LocalStorageService.GetImage tempDisk testStorage "abc123.jpg"
      = (none, "", some (.wrapped "failed to read file"
          (.notExist "open" "/tmp/gallery/abc123.jpg"))) ∧
    ∃ err, LocalStorageService.GetImage tempDisk testStorage "abc123.jpg"
        = (none, "", some (.wrapped "failed to read file" err)) :=
  ⟨by rfl, by rfl, C12_get_missing tempDisk testStorage "abc123.jpg" (by rfl)⟩

theorem Remove_of_file {fs : FS} {path : String} {data : Bytes}
    (h : fs.files.lookup (Clean path) = some data) (hd : Dir (Clean path) ∉ fs.denied) :
    Remove fs path = ({ fs with files := fs.files.erase (Clean path) }, none) := by
  simp [Remove, h, hd]

theorem Remove_of_missing {fs : FS} {path : String}
    (h : fs.files.lookup (Clean path) = none) (hd : fs.isDir (Clean path) = false) :
    Remove fs path = (fs, some (.notExist "remove" (Clean path))) := by
  have hnot : Clean path ∉ fs.dirs := by
    intro hmem
    simp [FS.isDir, hmem] at hd
  simp [Remove, h, hd, hnot]

/-- Removing at a path that holds no file touches no file, and succeeds only on
an empty directory. -/
theorem Remove_of_no_file {fs : FS} {path : String}
    (h : fs.files.lookup (Clean path) = none) :
    (Remove fs path).1.files = fs.files ∧
    ((Remove fs path).2 = none →
      Clean path ∈ fs.dirs ∧ fs.hasEntryBelow (Clean path) = false ∧
      (Remove fs path).1.dirs = fs.dirs.filter (fun q => q ≠ Clean path)) := by
  unfold Remove
  simp only [h]
  split_ifs with h1 h2 h3 h4
  · exact ⟨rfl, fun hn => by simp at hn⟩
  · exact ⟨rfl, fun hn => by simp at hn⟩
  · exact ⟨rfl, fun _ => ⟨h1, by simpa using h3, rfl⟩⟩
  · exact ⟨rfl, fun hn => by simp at hn⟩
  · exact ⟨rfl, fun hn => by simp at hn⟩

/-- A failed `os.Remove` leaves the disk as it was. -/
theorem Remove_error {fs : FS} {path : String} (h : (Remove fs path).2 ≠ none) :
    (Remove fs path).1 = fs := by
  unfold Remove at h ⊢
  cases hl : fs.files.lookup (Clean path) with
  | some content =>
    simp only [hl] at h ⊢
    by_cases hd : Dir (Clean path) ∈ fs.denied
    · simp [hd]
    · simp [hd] at h
  | none =>
    simp only [hl] at h ⊢
    by_cases h1 : Clean path ∈ fs.dirs
    · by_cases h2 : fs.hasEntryBelow (Clean path) = true
      · by_cases h3 : Dir (Clean path) ∈ fs.denied
        · simp [h1, h3]
        · simp [h1, h2, h3]
      · by_cases h3 : Dir (Clean path) ∈ fs.denied
        · simp [h1, h3]
        · simp [h1, h2, h3] at h
    · by_cases h4 : fs.isDir (Clean path) = true
      · simp [h1, h4]
      · simp [h1, h4]

/-- After a successful `os.Remove` no file is left at the path. -/
theorem Remove_ok_lookup {fs : FS} {path : String} (h : (Remove fs path).2 = none) :
    (Remove fs path).1.files.lookup (Clean path) = none := by
  cases hl : fs.files.lookup (Clean path) with
  | none =>
    rw [(Remove_of_no_file hl).1]
    exact hl
  | some content =>
    unfold Remove at h ⊢
    simp only [hl] at h ⊢
    by_cases hd : Dir (Clean path) ∈ fs.denied
    · simp [hd] at h
    · simp only [hd, if_false]
      exact AList.lookup_erase _ _

set_option maxRecDepth 100000 in
/-- C13, as stated, fails: the directory of the store is read-only and holds the
payload "old.jpg"; `UploadImage` of the key rewrites the payload and returns no
error, `DeleteImage` of the key is refused by the system, and `GetImage` still
returns the uploaded bytes. -/
theorem C13_uploaded_payload_can_stay :
    (LocalStorageService.UploadImage readOnlyRootDisk testStorage "old.jpg" ⟨hiBytes, none⟩
      "image/jpeg").2 = none ∧
    (LocalStorageService.DeleteImage
      (LocalStorageService.UploadImage readOnlyRootDisk testStorage "old.jpg" ⟨hiBytes, none⟩
        "image/jpeg").1 testStorage "old.jpg").2
      = some (.pathError "remove" "/tmp/gallery/old.jpg" "permission denied") ∧
    LocalStorageService.GetImage
      (LocalStorageService.DeleteImage
        (LocalStorageService.UploadImage readOnlyRootDisk testStorage "old.jpg"
          ⟨hiBytes, none⟩ "image/jpeg").1 testStorage "old.jpg").1 testStorage "old.jpg"
      = (some hiBytes, "image/jpeg", none) :=
  ⟨by decide, by decide, by decide⟩

theorem Remove_of_file_denied {fs : FS} {path : String} {data : Bytes}
    (h : fs.files.lookup (Clean path) = some data) (hd : Dir (Clean path) ∈ fs.denied) :
    Remove fs path = (fs, some (.pathError "remove" (Clean path) "permission denied")) := by
  simp [Remove, h, hd]

/-- C13, amended. Delete then fetch: for every key and stream, after
`UploadImage` has returned no error, `DeleteImage` of the key returns no error
exactly when the system lets an entry be removed from the directory of the
payload. When it returns no error, `GetImage` of the key fails with the wrapped
"no such file" error, nil bytes and an empty content type; when it returns an
error, the disk is unchanged and `GetImage` still returns the uploaded bytes. -/
theorem C13_delete_then_get (fs : FS) (s : LocalStorageService) (key : String) (f : File)
    (ct : String) (hupload : (LocalStorageService.UploadImage fs s key f ct).2 = none) :
    ((LocalStorageService.DeleteImage (LocalStorageService.UploadImage fs s key f ct).1 s
        key).2 = none
      ↔ Dir (Clean (Join [s.storagePath, key]))
          ∉ (LocalStorageService.UploadImage fs s key f ct).1.denied) ∧
    ((LocalStorageService.DeleteImage (LocalStorageService.UploadImage fs s key f ct).1 s
        key).2 = none →
      LocalStorageService.GetImage
          (LocalStorageService.DeleteImage (LocalStorageService.UploadImage fs s key f ct).1 s
            key).1 s key
        = (none, "", some (.wrapped "failed to read file"
            (.notExist "open" (Clean (Join [s.storagePath, key])))))) ∧
    ((LocalStorageService.DeleteImage (LocalStorageService.UploadImage fs s key f ct).1 s
        key).2 ≠ none →
      (LocalStorageService.DeleteImage (LocalStorageService.UploadImage fs s key f ct).1 s
        key).1 = (LocalStorageService.UploadImage fs s key f ct).1 ∧
      LocalStorageService.GetImage
          (LocalStorageService.DeleteImage (LocalStorageService.UploadImage fs s key f ct).1 s
            key).1 s key
        = (some f.data, extContentType key, none)) := by
  obtain ⟨fsa, _, hcan, hfs1⟩ := UploadImage_success (Prod.ext rfl hupload :
    LocalStorageService.UploadImage fs s key f ct
      = ((LocalStorageService.UploadImage fs s key f ct).1, none))
  simp only [FS.canCreate, Bool.and_eq_true, Bool.not_eq_true', decide_eq_false_iff_not]
    at hcan
  obtain ⟨⟨hnodir, _⟩, _⟩ := hcan
  have hlook : (LocalStorageService.UploadImage fs s key f ct).1.files.lookup
      (Clean (Join [s.storagePath, key])) = some f.data := by
    rw [hfs1]; exact AList.lookup_insert _
  have hisdir : (LocalStorageService.UploadImage fs s key f ct).1.isDir
      (Clean (Join [s.storagePath, key])) = false := by
    rw [hfs1]; exact (@isDir_congr fsa _ rfl _).trans hnodir
  generalize (LocalStorageService.UploadImage fs s key f ct).1 = uploaded at hlook hisdir ⊢
  have hdel : LocalStorageService.DeleteImage uploaded s key
      = Remove uploaded (Join [s.storagePath, key]) := rfl
  rw [hdel]
  by_cases hd : Dir (Clean (Join [s.storagePath, key])) ∈ uploaded.denied
  · rw [Remove_of_file_denied hlook hd]
    refine ⟨⟨fun h => by simp at h, fun h => absurd hd h⟩, fun h => by simp at h,
      fun _ => ⟨rfl, GetImage_of_payload hlook⟩⟩
  · rw [Remove_of_file hlook hd]
    refine ⟨⟨fun _ => hd, fun _ => rfl⟩, fun _ => ?_, fun h => by simp at h⟩
    have hlk : (FS.mk (uploaded.files.erase (Clean (Join [s.storagePath, key]))) uploaded.dirs
        uploaded.denied).files.lookup (Clean (Join [s.storagePath, key])) = none :=
      AList.lookup_erase _ _
    have hnd : (FS.mk (uploaded.files.erase (Clean (Join [s.storagePath, key]))) uploaded.dirs
        uploaded.denied).isDir (Clean (Join [s.storagePath, key])) = false :=
      (@isDir_congr uploaded _ rfl _).trans hisdir
    have hread := ReadFile_of_missing hlk hnd
    simp only [LocalStorageService.GetImage, hread]

set_option maxRecDepth 100000 in
/-- The scenario of the specification for C13: "hello" uploaded to "abc123.jpg"
on the temporary directory, which the system lets the store write, then
deleted; the fetch fails with "no such file". -/
theorem C13_delete_then_get_witness :
    (LocalStorageService.UploadImage tempDisk testStorage "abc123.jpg" ⟨helloBytes, none⟩
      "image/jpeg").2 = none ∧
    Dir (Clean (Join [testStorage.storagePath, "abc123.jpg"]))
      ∉ (LocalStorageService.UploadImage tempDisk testStorage "abc123.jpg"
          ⟨helloBytes, none⟩ "image/jpeg").1.denied ∧
    (LocalStorageService.DeleteImage
      (LocalStorageService.UploadImage tempDisk testStorage "abc123.jpg" ⟨helloBytes, none⟩
        "image/jpeg").1 testStorage "abc123.jpg").2 = none ∧
    LocalStorageService.GetImage
      (LocalStorageService.DeleteImage
        (LocalStorageService.UploadImage tempDisk testStorage "abc123.jpg"
          ⟨helloBytes, none⟩ "image/jpeg").1 testStorage "abc123.jpg").1
      testStorage "abc123.jpg"
      = (none, "", some (.wrapped "failed to read file"
          (.notExist "open" (Clean (Join [testStorage.storagePath, "abc123.jpg"]))))) :=
  have h := C13_delete_then_get tempDisk testStorage "abc123.jpg" ⟨helloBytes, none⟩
    "image/jpeg" (by decide)
  ⟨by decide, by decide, h.1.mpr (by decide), h.2.1 (h.1.mpr (by decide))⟩

set_option maxRecDepth 100000 in
/-- C14, as stated, fails: no payload exists at the key "" of the store on the
empty temporary directory (its path is the root directory itself), and
`DeleteImage` of that key returns no error: it removes the empty root
directory. -/
theorem C14_delete_missing_can_succeed :
    tempDisk.files.lookup (Clean (Join [testStorage.storagePath, ""])) = none ∧
    (LocalStorageService.DeleteImage tempDisk testStorage "").2 = none ∧
    (LocalStorageService.DeleteImage tempDisk testStorage "").1.dirs = ["/tmp"] :=
  ⟨by rfl, by decide, by decide⟩

/-- C14, amended. For every key at whose path no payload exists, `DeleteImage`
leaves every stored payload unchanged, and it returns an error unless the path
is an empty directory: it returns no error only when the path is an empty
directory, which it removes; when the path is not a directory it returns an
error, and whenever it returns an error the whole disk is unchanged. -/
theorem C14_delete_missing (fs : FS) (s : LocalStorageService) (key : String)
    (hmissing : fs.files.lookup (Clean (Join [s.storagePath, key])) = none) :
    (LocalStorageService.DeleteImage fs s key).1.files = fs.files ∧
    (∀ key', LocalStorageService.GetImage (LocalStorageService.DeleteImage fs s key).1 s key'
        = LocalStorageService.GetImage fs s key' ∨
      fs.files.lookup (Clean (Join [s.storagePath, key'])) = none) ∧
    (fs.isDir (Clean (Join [s.storagePath, key])) = false →
      (LocalStorageService.DeleteImage fs s key).2 ≠ none) ∧
    ((LocalStorageService.DeleteImage fs s key).2 ≠ none →
      (LocalStorageService.DeleteImage fs s key).1 = fs) ∧
    ((LocalStorageService.DeleteImage fs s key).2 = none →
      Clean (Join [s.storagePath, key]) ∈ fs.dirs ∧
      fs.hasEntryBelow (Clean (Join [s.storagePath, key])) = false ∧
      (LocalStorageService.DeleteImage fs s key).1.dirs
        = fs.dirs.filter (fun q => q ≠ Clean (Join [s.storagePath, key]))) := by
  obtain ⟨hfiles, hsucc⟩ := @Remove_of_no_file fs (Join [s.storagePath, key]) hmissing
  refine ⟨hfiles, ?_, ?_, fun herr => Remove_error herr, hsucc⟩
  · intro key'
    cases hl : fs.files.lookup (Clean (Join [s.storagePath, key'])) with
    | none => exact Or.inr rfl
    | some content =>
      left
      rw [GetImage_of_payload hl]
      exact GetImage_of_payload (by
        show (Remove fs (Join [s.storagePath, key])).1.files.lookup _ = _
        rw [hfiles]; exact hl)
  · intro hd hnone
    have hmem := (hsucc hnone).1
    simp [FS.isDir, hmem] at hd

set_option maxRecDepth 100000 in
/-- The amended C14 on the disk of the test `GetImage`: deleting the key
"missing.jpg", at which nothing exists, fails, the disk is unchanged and the
payload at "test2.jpg" is still fetched. -/
theorem C14_delete_missing_witness :
    payloadDisk.files.lookup (Clean (Join [testStorage.storagePath, "missing.jpg"])) = none ∧
    payloadDisk.isDir (Clean (Join [testStorage.storagePath, "missing.jpg"])) = false ∧
    (LocalStorageService.DeleteImage payloadDisk testStorage "missing.jpg").2
      = some (.notExist "remove" "/tmp/gallery/missing.jpg") ∧
    (LocalStorageService.DeleteImage payloadDisk testStorage "missing.jpg").2 ≠ none ∧
    (LocalStorageService.DeleteImage payloadDisk testStorage "missing.jpg").1 = payloadDisk ∧
    (LocalStorageService.GetImage
        (LocalStorageService.DeleteImage payloadDisk testStorage "missing.jpg").1 testStorage
        "test2.jpg"
      = LocalStorageService.GetImage payloadDisk testStorage "test2.jpg" ∨
     payloadDisk.files.lookup (Clean (Join [testStorage.storagePath, "test2.jpg"])) = none) ∧
    LocalStorageService.GetImage payloadDisk testStorage "test2.jpg"
      = (some anotherTestImage, "image/jpeg", none) :=
  have h := C14_delete_missing payloadDisk testStorage "missing.jpg" (by rfl)
  ⟨by rfl, by decide, by decide, h.2.2.1 (by decide),
    h.2.2.2.1 (h.2.2.1 (by decide)), h.2.1 "test2.jpg", by rfl⟩

/-! ## Resolving a key -/

/-- C15. Resolve: for every key, `GetImageURL` of the local and of the cloud
object store returns a nil error and "/images/" followed by the key unchanged;
the two variants return the same locator, and it depends on no state of the
store (any two stores of a variant return the same). -/
theorem C15_resolve (s s' : LocalStorageService) (c c' : S3Service) (key : String) :
    s.GetImageURL key = ("/images/" ++ key, none) ∧
    c.GetImageURL key = ("/images/" ++ key, none) ∧
    s.GetImageURL key = c.GetImageURL key ∧
    s.GetImageURL key = s'.GetImageURL key ∧
    c.GetImageURL key = c'.GetImageURL key :=
  ⟨rfl, rfl, rfl, rfl, rfl⟩

/-- The locator of C15 for the key of the test `GetImageURL`: "test.jpg" gives
"/images/test.jpg" in both variants. -/
theorem C15_resolve_witness :
    testStorage.GetImageURL "test.jpg" = ("/images/test.jpg", none) ∧
    S3Service.GetImageURL ⟨"image-gallery-bucket"⟩ "test.jpg" = ("/images/test.jpg", none) ∧
    (testStorage.GetImageURL "test.jpg" = ("/images/" ++ "test.jpg", none) ∧
     S3Service.GetImageURL ⟨"image-gallery-bucket"⟩ "test.jpg"
      = ("/images/" ++ "test.jpg", none) ∧
     testStorage.GetImageURL "test.jpg"
      = S3Service.GetImageURL ⟨"image-gallery-bucket"⟩ "test.jpg" ∧
     testStorage.GetImageURL "test.jpg"
      = LocalStorageService.GetImageURL ⟨"/srv/other"⟩ "test.jpg" ∧
     S3Service.GetImageURL ⟨"image-gallery-bucket"⟩ "test.jpg"
      = S3Service.GetImageURL ⟨"other-bucket"⟩ "test.jpg") :=
  ⟨by decide, by decide,
    C15_resolve testStorage ⟨"/srv/other"⟩ ⟨"image-gallery-bucket"⟩ ⟨"other-bucket"⟩ "test.jpg"⟩

/-! ## Paths: where a key lands -/

/-- The stack `filepath.Clean` builds from a path. -/
theorem cleanStack_ok (x : List Char) :
    StackOK (decide (x.head? = some '/'))
      ((splitSep x).foldl (cleanStep (decide (x.head? = some '/'))) []) :=
  StackOK_foldl _ [] trivial (splitSep_no_sep_mem _)

theorem cleanElems_eq (x : List Char) :
    cleanElems x
      = ((splitSep x).foldl (cleanStep (decide (x.head? = some '/'))) []).reverse := rfl

/-- The result of `filepath.Clean` when at least one element is left. -/
theorem Clean_eq_render (x : String) (h : cleanElems x.data ≠ []) :
    Clean x = render (decide (x.data.head? = some '/')) (cleanElems x.data) := by
  have hok := cleanStack_ok x.data
  have hne : joinSep (cleanElems x.data) ≠ [] := by
    rw [cleanElems_eq] at h ⊢
    exact joinSep_ne_nil h (fun e he => (reverse_ok hok e he).2)
  unfold Clean
  simp only
  by_cases hr : x.data.head? = some '/'
  · rw [if_pos hr]; simp [render, hr]
  · rw [if_neg hr, if_neg hne]; simp [render, hr]

/-- The result of `filepath.Clean` when no element is left. -/
theorem Clean_eq_root (x : String) (h : cleanElems x.data = []) :
    Clean x = if x.data.head? = some '/' then "/" else "." := by
  unfold Clean
  simp only [h, joinSep]
  by_cases hr : x.data.head? = some '/'
  · rw [if_pos hr, if_pos hr]
  · rw [if_neg hr, if_neg hr]
    simp

/-- Cleaning keeps the elements of a path and whether it is absolute. -/
theorem cleanElems_Clean (x : String) :
    cleanElems (Clean x).data = cleanElems x.data ∧
    decide ((Clean x).data.head? = some '/') = decide (x.data.head? = some '/') := by
  by_cases h : cleanElems x.data = []
  · rw [Clean_eq_root x h, h]
    by_cases hr : x.data.head? = some '/'
    · rw [if_pos hr]
      exact ⟨by decide, by simp [hr]⟩
    · rw [if_neg hr]
      exact ⟨by decide, by simp [hr]⟩
  · rw [Clean_eq_render x h]
    have hok := cleanStack_ok x.data
    have hT : (splitSep x.data).foldl (cleanStep (decide (x.data.head? = some '/'))) [] ≠ [] := by
      intro hnil
      apply h
      rw [cleanElems_eq, hnil]
      rfl
    rw [cleanElems_eq]
    exact ⟨cleanElems_render hok hT, render_rooted hok hT⟩

/-- Cleaning a clean path changes nothing. -/
theorem Clean_idem (x : String) : Clean (Clean x) = Clean x := by
  obtain ⟨he, hr⟩ := cleanElems_Clean x
  by_cases h : cleanElems x.data = []
  · by_cases hx : x.data.head? = some '/'
    · have e : Clean x = "/" := by rw [Clean_eq_root x h, if_pos hx]
      rw [e]; decide
    · have e : Clean x = "." := by rw [Clean_eq_root x h, if_neg hx]
      rw [e]; decide
  · have e1 := Clean_eq_render (Clean x) (by rw [he]; exact h)
    rw [he, hr] at e1
    rw [e1]
    exact (Clean_eq_render x h).symm

/-- Without a `..` element, cleaning pushes every element it keeps. -/
theorem foldl_cleanStep_no_dotdot (r : Bool) (parts : List (List Char)) :
    ∀ T : List (List Char), ['.', '.'] ∉ parts →
      parts.foldl (cleanStep r) T
        = (parts.filter (fun e => decide (e ≠ []) && decide (e ≠ ['.']))).reverse ++ T := by
  induction parts with
  | nil => intro T _; rfl
  | cons e parts ih =>
    intro T h
    rw [List.mem_cons, not_or] at h
    rw [List.foldl_cons, ih _ h.2]
    by_cases h1 : e = [] ∨ e = ['.']
    · have hstep : cleanStep r T e = T := by simp [cleanStep, h1]
      have hfilter : (decide (e ≠ []) && decide (e ≠ ['.'])) = false := by
        rcases h1 with h1 | h1 <;> simp [h1]
      rw [hstep]
      simp only [List.filter_cons, hfilter]
      rfl
    · have hne : e ≠ ['.', '.'] := fun he => h.1 he.symm
      have hstep : cleanStep r T e = e :: T := by simp [cleanStep, h1, hne]
      rw [not_or] at h1
      have hfilter : (decide (e ≠ []) && decide (e ≠ ['.'])) = true := by
        simp [h1.1, h1.2]
      rw [hstep]
      simp only [List.filter_cons, hfilter]
      simp

/-- Where a key lands: joined to a non-empty root, a key without a `..`
element gives the elements of the root followed by the elements of the key,
and a path that is absolute exactly when the root is. -/
theorem cleanElems_Join (root key : String) (hroot : root ≠ "")
    (hkey : ['.', '.'] ∉ splitSep key.data) :
    cleanElems (Join [root, key]).data = cleanElems root.data ++ keyElems key ∧
    decide ((Join [root, key]).data.head? = some '/')
      = decide (root.data.head? = some '/') := by
  have hdata : root.data ≠ [] := by
    intro h
    apply hroot
    cases root with
    | mk data => simp only at h; subst h; rfl
  have hs : (joinStrings [root, key]).data = root.data ++ '/' :: key.data := by
    simp [joinStrings]
  have hhead : (root.data ++ '/' :: key.data).head? = root.data.head? := by
    cases hd : root.data with
    | nil => exact absurd hd hdata
    | cons c cs => rfl
  have hjoin : Join [root, key] = Clean (joinStrings [root, key]) := by
    unfold Join
    rw [if_neg hroot]
  obtain ⟨he, hr⟩ := cleanElems_Clean (joinStrings [root, key])
  rw [hjoin, he, hr, hs, hhead]
  refine ⟨?_, rfl⟩
  rw [cleanElems_eq, hhead, splitSep_append, List.foldl_append,
    foldl_cleanStep_no_dotdot _ _ _ hkey, List.reverse_append, List.reverse_reverse,
    cleanElems_eq]
  rfl

theorem PlainName_split {key : String} (h : PlainName key) :
    splitSep key.data = [key.data] ∧ ['.', '.'] ∉ splitSep key.data ∧
    keyElems key = [key.data] := by
  have hsplit := splitSep_noSep h.2.1
  refine ⟨hsplit, ?_, ?_⟩
  · rw [hsplit]
    simp only [List.mem_singleton]
    exact fun he => h.2.2.2 he.symm
  · unfold keyElems
    rw [hsplit]
    simp [h.1, h.2.2.1]

/-- Where a plain file name lands: directly in the root directory, whatever
the root. -/
theorem cleanElems_Join_plain (root key : String) (hkey : PlainName key) :
    cleanElems (Join [root, key]).data = cleanElems root.data ++ [key.data] ∧
    decide ((Join [root, key]).data.head? = some '/')
      = decide (root.data.head? = some '/') := by
  obtain ⟨hsplit, hnodd, hkelems⟩ := PlainName_split hkey
  by_cases hroot : root = ""
  · subst hroot
    have hkne : key ≠ "" := by
      intro h
      exact hkey.1 (by rw [h])
    have hjoin : Join ["", key] = Clean key := by
      simp [Join, hkne, joinStrings]
    obtain ⟨he, hr⟩ := cleanElems_Clean key
    have hnot : ¬ key.data.head? = some '/' := by
      intro hh
      cases hd : key.data with
      | nil => rw [hd] at hh; simp at hh
      | cons c cs =>
        rw [hd] at hh
        simp only [List.head?_cons, Option.some.injEq] at hh
        exact hkey.2.1 (by rw [hd, hh]; exact List.mem_cons_self _ _)
    rw [hjoin, he, hr]
    refine ⟨?_, by simp [hnot]⟩
    rw [cleanElems_eq, hsplit]
    have := foldl_cleanStep_no_dotdot (decide (key.data.head? = some '/')) [key.data] []
      (by simpa [hsplit] using hnodd)
    rw [this]
    simp [hkey.1, hkey.2.2.1]
    rfl
  · have := cleanElems_Join root key hroot hnodd
    rw [hkelems] at this
    exact this

/-- The relative path of a path whose elements are those of the root followed
by `K`. -/
theorem relPath_of_elems {root path : String} {K : List (List Char)}
    (hr : decide (path.data.head? = some '/') = decide (root.data.head? = some '/'))
    (he : cleanElems path.data = cleanElems root.data ++ K) :
    relPath root path = some (String.mk (joinSep K)) := by
  unfold relPath
  rw [if_pos ⟨hr.symm, by rw [he]; simp⟩, he, List.drop_left]

/-- A path outside the root has no relative path. -/
theorem relPath_elems {root path rel : String} (h : relPath root path = some rel) :
    cleanElems root.data <+: cleanElems path.data := by
  unfold relPath at h
  split_ifs at h with hc
  exact List.isPrefixOf_iff_prefix.mp hc.2

/-! ## Local object store: which file a key names -/

theorem MkdirAll_files (fs : FS) (path : String) : (MkdirAll fs path).1.files = fs.files :=
  (mkdirChain_frame _ fs).1

/-- Go's `UploadImage` touches no file but the one at the path of its key. -/
theorem UploadImage_frame (fs : FS) (s : LocalStorageService) (key : String) (f : File)
    (ct : String) (q : String) (hq : q ≠ Clean (Join [s.storagePath, key])) :
    (LocalStorageService.UploadImage fs s key f ct).1.files.lookup q = fs.files.lookup q := by
  have hmk := MkdirAll_files fs (Dir (Join [s.storagePath, key]))
  unfold LocalStorageService.UploadImage
  simp only
  cases hm : MkdirAll fs (Dir (Join [s.storagePath, key])) with
  | mk fsa ea =>
    rw [hm] at hmk
    simp only at hmk
    cases ea with
    | some e => simp only; rw [hmk]
    | none =>
      simp only
      cases hc : fsa.canCreate (Clean (Join [s.storagePath, key])) with
      | false =>
        obtain ⟨err, he⟩ := Create_of_cannot hc
        rw [he]
        simp only
        rw [hmk]
      | true =>
        rw [Create_of_can hc]
        simp only
        cases f.err with
        | some e =>
          simp only
          rw [AList.lookup_insert_ne hq, AList.lookup_insert_ne hq, hmk]
        | none =>
          simp only
          rw [AList.lookup_insert_ne hq, AList.lookup_insert_ne hq, hmk]

/-- Go's `DeleteImage` of the local object store touches no file but the one at the
path of its key. -/
theorem DeleteImage_frame (fs : FS) (s : LocalStorageService) (key : String) (q : String)
    (hq : q ≠ Clean (Join [s.storagePath, key])) :
    (LocalStorageService.DeleteImage fs s key).1.files.lookup q = fs.files.lookup q := by
  show (Remove fs (Join [s.storagePath, key])).1.files.lookup q = _
  cases hl : fs.files.lookup (Clean (Join [s.storagePath, key])) with
  | none => rw [(Remove_of_no_file hl).1]
  | some data =>
    by_cases hd : Dir (Clean (Join [s.storagePath, key])) ∈ fs.denied
    · simp [Remove, hl, hd]
    · rw [Remove_of_file hl hd]
      exact AList.lookup_erase_ne hq

/-- Without a file at the path of the key, `GetImage` returns nil bytes, an
empty content type and the wrapped error of the read. -/
theorem GetImage_of_no_payload {fs : FS} {s : LocalStorageService} {key : String}
    (h : fs.files.lookup (Clean (Join [s.storagePath, key])) = none) :
    ∃ err, LocalStorageService.GetImage fs s key
        = (none, "", some (.wrapped "failed to read file" err)) ∧
      (fs.isDir (Clean (Join [s.storagePath, key])) = false →
        err = .notExist "open" (Clean (Join [s.storagePath, key]))) := by
  cases hd : fs.isDir (Clean (Join [s.storagePath, key])) with
  | true =>
    refine ⟨.pathError "read" (Clean (Join [s.storagePath, key])) "is a directory", ?_,
      fun h' => by simp at h'⟩
    simp only [LocalStorageService.GetImage, ReadFile_of_dir h hd]
  | false =>
    refine ⟨.notExist "open" (Clean (Join [s.storagePath, key])), ?_, fun _ => rfl⟩
    simp only [LocalStorageService.GetImage, ReadFile_of_missing h hd]

/-- The bytes `GetImage` returns are the file at the path of its key. -/
theorem GetImage_bytes (fs : FS) (s : LocalStorageService) (key : String) :
    (LocalStorageService.GetImage fs s key).1
      = fs.files.lookup (Clean (Join [s.storagePath, key])) := by
  cases hl : fs.files.lookup (Clean (Join [s.storagePath, key])) with
  | some content => rw [GetImage_of_payload hl]
  | none =>
    obtain ⟨err, he, _⟩ := GetImage_of_no_payload hl
    rw [he]

/-- Two disks with the same file at the path of a key give the same bytes and
content type from `GetImage`, and both or neither an error. -/
theorem GetImage_congr {fs fs' : FS} (s : LocalStorageService) (key : String)
    (h : fs'.files.lookup (Clean (Join [s.storagePath, key]))
      = fs.files.lookup (Clean (Join [s.storagePath, key]))) :
    (LocalStorageService.GetImage fs' s key).1 = (LocalStorageService.GetImage fs s key).1 ∧
    (LocalStorageService.GetImage fs' s key).2.1 = (LocalStorageService.GetImage fs s key).2.1 ∧
    ((LocalStorageService.GetImage fs' s key).2.2 = none ↔
      (LocalStorageService.GetImage fs s key).2.2 = none) := by
  cases hl : fs.files.lookup (Clean (Join [s.storagePath, key])) with
  | some content =>
    rw [GetImage_of_payload hl, GetImage_of_payload (h.trans hl)]
    exact ⟨rfl, rfl, Iff.rfl⟩
  | none =>
    obtain ⟨err, he, _⟩ := GetImage_of_no_payload hl
    obtain ⟨err', he', _⟩ := GetImage_of_no_payload (h.trans hl)
    rw [he, he']
    exact ⟨rfl, rfl, by simp⟩

/-- Distinct plain file names are distinct files, and no plain file name is the
metadata document. -/
theorem plain_key_paths (root : String) {k1 : String} (h1 : PlainName k1) :
    (∀ k2, PlainName k2 → k1 ≠ k2 →
      Clean (Join [root, k1]) ≠ Clean (Join [root, k2])) ∧
    Clean (Join [root, k1]) ≠ Join [Join [root, "db"], "images.json"] := by
  have e1 := (cleanElems_Clean (Join [root, k1])).1.trans (cleanElems_Join_plain root k1 h1).1
  constructor
  · intro k2 h2 hne heq
    have e2 := (cleanElems_Clean (Join [root, k2])).1.trans
      (cleanElems_Join_plain root k2 h2).1
    rw [heq, e2] at e1
    have hdata : k2.data = k1.data := by simpa using e1
    apply hne
    cases k1; cases k2
    simp only at hdata
    rw [hdata]
  · intro heq
    have hdb : PlainName "db" := by decide
    have hij : PlainName "images.json" := by decide
    have e3 := (cleanElems_Join_plain (Join [root, "db"]) "images.json" hij).1
    rw [(cleanElems_Join_plain root "db" hdb).1] at e3
    rw [heq, e3] at e1
    have := congrArg List.length e1
    simp at this

set_option maxRecDepth 100000 in
/-- C16, as stated, fails: the key "../x" of the store rooted at the temporary
directory names the file "/tmp/x", which has no path relative to the root, and
`UploadImage` of that key writes there, outside the root. -/
theorem C16_key_can_leave_root :
    Clean (Join [testStorage.storagePath, "../x"]) = "/tmp/x" ∧
    relPath testStorage.storagePath (Clean (Join [testStorage.storagePath, "../x"])) = none ∧
    (LocalStorageService.UploadImage tempDisk testStorage "../x" ⟨helloBytes, none⟩
      "image/jpeg").2 = none ∧
    (LocalStorageService.UploadImage tempDisk testStorage "../x" ⟨helloBytes, none⟩
      "image/jpeg").1.files.lookup "/tmp/x" = some helloBytes :=
  ⟨by decide, by decide, by decide, by rfl⟩

/-- C16, amended. `UploadImage` writes, `GetImage` reads and `DeleteImage`
removes the one file at the cleaned join of the root and the key. For every
key none of whose elements is `..` (the root not being the empty string) that
file lies inside the root directory, and its path relative to the root is the
key cleaned, that is, the key without its empty and `.` elements; for a plain
file name it is the key itself. -/
theorem C16_key_containment (s : LocalStorageService) (key : String)
    (hroot : s.storagePath ≠ "") (hkey : ['.', '.'] ∉ splitSep key.data) :
    relPath s.storagePath (Clean (Join [s.storagePath, key]))
      = some (String.mk (joinSep (keyElems key))) ∧
    (PlainName key →
      relPath s.storagePath (Clean (Join [s.storagePath, key])) = some key) ∧
    (∀ (fs : FS) (f : File) (ct q : String), q ≠ Clean (Join [s.storagePath, key]) →
      (LocalStorageService.UploadImage fs s key f ct).1.files.lookup q = fs.files.lookup q ∧
      (LocalStorageService.DeleteImage fs s key).1.files.lookup q = fs.files.lookup q) ∧
    (∀ fs : FS, (LocalStorageService.GetImage fs s key).1
      = fs.files.lookup (Clean (Join [s.storagePath, key]))) := by
  obtain ⟨hc1, hc2⟩ := cleanElems_Clean (Join [s.storagePath, key])
  obtain ⟨hj1, hj2⟩ := cleanElems_Join s.storagePath key hroot hkey
  have hrel := @relPath_of_elems s.storagePath (Clean (Join [s.storagePath, key])) _
    (hc2.trans hj2) (hc1.trans hj1)
  refine ⟨hrel, ?_, ?_, fun fs => GetImage_bytes fs s key⟩
  · intro hplain
    rw [hrel, (PlainName_split hplain).2.2]
    rfl
  · intro fs f ct q hq
    exact ⟨UploadImage_frame fs s key f ct q hq, DeleteImage_frame fs s key q hq⟩

set_option maxRecDepth 100000 in
/-- The amended C16 on the key of the specification, "abc123.jpg", a plain file
name: its file is "/tmp/gallery/abc123.jpg", at the relative path
"abc123.jpg". -/
theorem C16_key_containment_witness :
    testStorage.storagePath ≠ "" ∧ ['.', '.'] ∉ splitSep "abc123.jpg".data ∧
    PlainName "abc123.jpg" ∧
    Clean (Join [testStorage.storagePath, "abc123.jpg"]) = "/tmp/gallery/abc123.jpg" ∧
    (relPath testStorage.storagePath (Clean (Join [testStorage.storagePath, "abc123.jpg"]))
      = some (String.mk (joinSep (keyElems "abc123.jpg"))) ∧
    (PlainName "abc123.jpg" →
      relPath testStorage.storagePath (Clean (Join [testStorage.storagePath, "abc123.jpg"]))
        = some "abc123.jpg") ∧
    (∀ (fs : FS) (f : File) (ct q : String),
      q ≠ Clean (Join [testStorage.storagePath, "abc123.jpg"]) →
      (LocalStorageService.UploadImage fs testStorage "abc123.jpg" f ct).1.files.lookup q
        = fs.files.lookup q ∧
      (LocalStorageService.DeleteImage fs testStorage "abc123.jpg").1.files.lookup q
        = fs.files.lookup q) ∧
    (∀ fs : FS, (LocalStorageService.GetImage fs testStorage "abc123.jpg").1
      = fs.files.lookup (Clean (Join [testStorage.storagePath, "abc123.jpg"])))) :=
  ⟨by decide, by decide, by decide, by decide,
    C16_key_containment testStorage "abc123.jpg" (by decide) (by decide)⟩

set_option maxRecDepth 100000 in
/-- C17, as stated, fails: the keys "a.png" and "./a.png" are distinct and name
the same file, so `UploadImage` on the first changes what `GetImage` of the
second returns, from an error to the uploaded bytes. -/
theorem C17_distinct_keys_same_file :
    "a.png" ≠ "./a.png" ∧
    Clean (Join [testStorage.storagePath, "a.png"])
      = Clean (Join [testStorage.storagePath, "./a.png"]) ∧
    LocalStorageService.GetImage tempDisk testStorage "./a.png"
      = (none, "", some (.wrapped "failed to read file"
          (.notExist "open" "/tmp/gallery/a.png"))) ∧
    LocalStorageService.GetImage
        (LocalStorageService.UploadImage tempDisk testStorage "a.png" ⟨helloBytes, none⟩
          "image/png").1 testStorage "./a.png"
      = (some helloBytes, "image/png", none) :=
  ⟨by decide, by decide, by rfl, by rfl⟩

/-- C17, amended. For any two keys that name different files (their cleaned
joins with the root differ), as any two distinct plain file names do,
`UploadImage` and `DeleteImage` on the first leave the file of the second as
it is, so `GetImage` of the second returns the same bytes and content type as
before and fails exactly when it failed before. -/
theorem C17_keys_frame (fs : FS) (s : LocalStorageService) (k1 k2 : String) (f : File)
    (ct : String)
    (hdiff : Clean (Join [s.storagePath, k1]) ≠ Clean (Join [s.storagePath, k2]) ∨
      (PlainName k1 ∧ PlainName k2 ∧ k1 ≠ k2)) :
    Clean (Join [s.storagePath, k1]) ≠ Clean (Join [s.storagePath, k2]) ∧
    (∀ fs', fs' = (LocalStorageService.UploadImage fs s k1 f ct).1 ∨
        fs' = (LocalStorageService.DeleteImage fs s k1).1 →
      fs'.files.lookup (Clean (Join [s.storagePath, k2]))
        = fs.files.lookup (Clean (Join [s.storagePath, k2])) ∧
      (LocalStorageService.GetImage fs' s k2).1 = (LocalStorageService.GetImage fs s k2).1 ∧
      (LocalStorageService.GetImage fs' s k2).2.1
        = (LocalStorageService.GetImage fs s k2).2.1 ∧
      ((LocalStorageService.GetImage fs' s k2).2.2 = none ↔
        (LocalStorageService.GetImage fs s k2).2.2 = none)) := by
  have hne : Clean (Join [s.storagePath, k1]) ≠ Clean (Join [s.storagePath, k2]) := by
    rcases hdiff with h | ⟨h1, h2, h12⟩
    · exact h
    · exact (plain_key_paths s.storagePath h1).1 k2 h2 h12
  refine ⟨hne, ?_⟩
  intro fs' hfs'
  have hlook : fs'.files.lookup (Clean (Join [s.storagePath, k2]))
      = fs.files.lookup (Clean (Join [s.storagePath, k2])) := by
    rcases hfs' with h | h
    · rw [h]; exact UploadImage_frame fs s k1 f ct _ (Ne.symm hne)
    · rw [h]; exact DeleteImage_frame fs s k1 _ (Ne.symm hne)
  exact ⟨hlook, GetImage_congr s k2 hlook⟩

set_option maxRecDepth 100000 in
/-- The amended C17 on the disk of the test `GetImage`: uploading to "a.png"
leaves the payload of "test2.jpg" as it is. -/
theorem C17_keys_frame_witness :
    (PlainName "a.png" ∧ PlainName "test2.jpg" ∧ "a.png" ≠ "test2.jpg") ∧
    LocalStorageService.GetImage
        (LocalStorageService.UploadImage payloadDisk testStorage "a.png" ⟨helloBytes, none⟩
          "image/png").1 testStorage "test2.jpg"
      = (some anotherTestImage, "image/jpeg", none) ∧
    (Clean (Join [testStorage.storagePath, "a.png"])
      ≠ Clean (Join [testStorage.storagePath, "test2.jpg"]) ∧
    (∀ fs', fs' = (LocalStorageService.UploadImage payloadDisk testStorage "a.png"
          ⟨helloBytes, none⟩ "image/png").1 ∨
        fs' = (LocalStorageService.DeleteImage payloadDisk testStorage "a.png").1 →
      fs'.files.lookup (Clean (Join [testStorage.storagePath, "test2.jpg"]))
        = payloadDisk.files.lookup (Clean (Join [testStorage.storagePath, "test2.jpg"])) ∧
      (LocalStorageService.GetImage fs' testStorage "test2.jpg").1
        = (LocalStorageService.GetImage payloadDisk testStorage "test2.jpg").1 ∧
      (LocalStorageService.GetImage fs' testStorage "test2.jpg").2.1
        = (LocalStorageService.GetImage payloadDisk testStorage "test2.jpg").2.1 ∧
      ((LocalStorageService.GetImage fs' testStorage "test2.jpg").2.2 = none ↔
        (LocalStorageService.GetImage payloadDisk testStorage "test2.jpg").2.2 = none))) :=
  ⟨by decide, by rfl,
    C17_keys_frame payloadDisk testStorage "a.png" "test2.jpg" ⟨helloBytes, none⟩ "image/png"
      (Or.inr (by decide))⟩

set_option maxRecDepth 100000 in
/-- C18, as stated, fails: with both stores on the temporary directory and the
record of the test saved, the key "db/images.json" of the object store names
the metadata document: `GetImage` returns its content, `UploadImage`
overwrites it and `DeleteImage` removes it. -/
theorem C18_object_store_reaches_document :
    NewLocalStorageService tempDisk "/tmp/gallery" = (tempDisk, .ok testStorage) ∧
    NewLocalDBService plainCodec tempDisk "/tmp/gallery" = (dbDisk, .ok emptyStore) ∧
    savedDisk.files.lookup (docPath emptyStore) = some (encodeImage testImage1) ∧
    Clean (Join [testStorage.storagePath, "db/images.json"]) = docPath emptyStore ∧
    LocalStorageService.GetImage savedDisk testStorage "db/images.json"
      = (some (encodeImage testImage1), "image/jpeg", none) ∧
    (LocalStorageService.UploadImage savedDisk testStorage "db/images.json"
      ⟨helloBytes, none⟩ "image/png").1.files.lookup (docPath emptyStore) = some helloBytes ∧
    (LocalStorageService.DeleteImage savedDisk testStorage "db/images.json").2 = none ∧
    (LocalStorageService.DeleteImage savedDisk testStorage "db/images.json").1.files.lookup
      (docPath emptyStore) = none :=
  ⟨by rfl, by rfl, by decide, by decide, by rfl, by rfl, by decide, by rfl⟩

/-- C18, amended. With both stores on the same root, `UploadImage` and
`DeleteImage` of the object store leave the metadata document
`<root>/db/images.json` as it is, and `GetImage` reads another file, for every
key whose file is not the document, as is the case for every plain file name
(the keys the upload handler makes). A key whose cleaned join with the root is
the document reaches it. -/
theorem C18_document_frame (fs : FS) (s : LocalStorageService) (key : String) (f : File)
    (ct : String)
    (hother : Clean (Join [s.storagePath, key])
        ≠ Join [Join [s.storagePath, "db"], "images.json"] ∨ PlainName key) :
    Clean (Join [s.storagePath, key]) ≠ Join [Join [s.storagePath, "db"], "images.json"] ∧
    (LocalStorageService.UploadImage fs s key f ct).1.files.lookup
        (Join [Join [s.storagePath, "db"], "images.json"])
      = fs.files.lookup (Join [Join [s.storagePath, "db"], "images.json"]) ∧
    (LocalStorageService.DeleteImage fs s key).1.files.lookup
        (Join [Join [s.storagePath, "db"], "images.json"])
      = fs.files.lookup (Join [Join [s.storagePath, "db"], "images.json"]) ∧
    (LocalStorageService.GetImage fs s key).1
      = fs.files.lookup (Clean (Join [s.storagePath, key])) := by
  have hne : Clean (Join [s.storagePath, key])
      ≠ Join [Join [s.storagePath, "db"], "images.json"] := by
    rcases hother with h | h
    · exact h
    · exact (plain_key_paths s.storagePath h).2
  exact ⟨hne, UploadImage_frame fs s key f ct _ (Ne.symm hne),
    DeleteImage_frame fs s key _ (Ne.symm hne), GetImage_bytes fs s key⟩

set_option maxRecDepth 100000 in
/-- The amended C18 on the key of the specification: uploading "hello" to
"abc123.jpg" leaves the document with the saved record in it. -/
theorem C18_document_frame_witness :
    PlainName "abc123.jpg" ∧
    (LocalStorageService.UploadImage savedDisk testStorage "abc123.jpg" ⟨helloBytes, none⟩
      "image/jpeg").1.files.lookup (docPath emptyStore) = some (encodeImage testImage1) ∧
    (Clean (Join [testStorage.storagePath, "abc123.jpg"])
      ≠ Join [Join [testStorage.storagePath, "db"], "images.json"] ∧
    (LocalStorageService.UploadImage savedDisk testStorage "abc123.jpg" ⟨helloBytes, none⟩
        "image/jpeg").1.files.lookup (Join [Join [testStorage.storagePath, "db"], "images.json"])
      = savedDisk.files.lookup (Join [Join [testStorage.storagePath, "db"], "images.json"]) ∧
    (LocalStorageService.DeleteImage savedDisk testStorage "abc123.jpg").1.files.lookup
        (Join [Join [testStorage.storagePath, "db"], "images.json"])
      = savedDisk.files.lookup (Join [Join [testStorage.storagePath, "db"], "images.json"]) ∧
    (LocalStorageService.GetImage savedDisk testStorage "abc123.jpg").1
      = savedDisk.files.lookup (Clean (Join [testStorage.storagePath, "abc123.jpg"]))) :=
  ⟨by decide, by decide,
    C18_document_frame savedDisk testStorage "abc123.jpg" ⟨helloBytes, none⟩ "image/jpeg"
      (Or.inr (by decide))⟩

/-! ## Concurrent calls of the local metadata store -/

set_option maxRecDepth 100000 in
/-- C19, as stated, fails. Two threads save the records "test-id-2" and
"test-id-3". The first runs up to its rewrite, which it reaches with the mutex
free: the lock was released before `saveData`. The second then runs to its
end, and the first rewrites the document last, from its older copy of the map.
Both calls have returned no error, the map holds both records, and the
persisted document holds the first record only. -/
theorem C19_stale_rewrite :
    ((run plainCodec entryOrder twoSaves (staleWriteSchedule.take 13)).threads 0).pc = .atWrite ∧
    (run plainCodec entryOrder twoSaves (staleWriteSchedule.take 13)).mutex = ⟨false, 0⟩ ∧
    ((run plainCodec entryOrder twoSaves staleWriteSchedule).threads 0).pc = .returned ∧
    ((run plainCodec entryOrder twoSaves staleWriteSchedule).threads 0).result = none ∧
    ((run plainCodec entryOrder twoSaves staleWriteSchedule).threads 1).pc = .returned ∧
    ((run plainCodec entryOrder twoSaves staleWriteSchedule).threads 1).result = none ∧
    (run plainCodec entryOrder twoSaves staleWriteSchedule).store.images.lookup "test-id-2"
      = some testImage2 ∧
    (run plainCodec entryOrder twoSaves staleWriteSchedule).store.images.lookup "test-id-3"
      = some testImage3 ∧
    (run plainCodec entryOrder twoSaves staleWriteSchedule).fs.files.lookup
        (docPath (run plainCodec entryOrder twoSaves staleWriteSchedule).store)
      = some (encodeImage testImage2) ∧
    plainCodec.unmarshal (encodeImage testImage2) = .ok [testImage2] :=
  ⟨by decide, by decide, by decide, by decide, by decide, by decide, by decide, by decide,
    by decide, by decide⟩

theorem setThread_self (w : World) (tid : Nat) (t : Thread) :
    (w.setThread tid t).threads tid = t := by
  simp [World.setThread]

theorem setThread_other (w : World) (tid j : Nat) (t : Thread) (h : j ≠ tid) :
    (w.setThread tid t).threads j = w.threads j := by
  simp [World.setThread, h]

/-- The statements of `saveData` run by one thread without interruption, from
`RLock` on with the mutex free, do what `saveData` does. -/
theorem run_saveData (json : JSONLib) (ord : MapOrder) (w : World) (tid : Nat)
    (hpc : (w.threads tid).pc = .atRLock) (hfree : w.mutex = ⟨false, 0⟩) :
    (run json ord w [tid, tid, tid]).mutex = ⟨false, 0⟩ ∧
    ((run json ord w [tid, tid, tid]).threads tid).pc = .atWrite ∧
    (run json ord w [tid, tid, tid]).store = w.store ∧
    (run json ord w [tid, tid, tid]).fs = w.fs ∧
    ((run json ord w [tid, tid, tid, tid]).threads tid).pc = .returned ∧
    (run json ord w [tid, tid, tid, tid]).mutex = ⟨false, 0⟩ ∧
    (run json ord w [tid, tid, tid, tid]).store = w.store ∧
    ((run json ord w [tid, tid, tid, tid]).fs,
        ((run json ord w [tid, tid, tid, tid]).threads tid).result)
      = LocalDBService.saveData json ord w.fs w.store ∧
    (∀ j, j ≠ tid → (run json ord w [tid, tid, tid, tid]).threads j = w.threads j) := by
  have hpre : (run json ord w [tid, tid, tid]).mutex = ⟨false, 0⟩ ∧
      ((run json ord w [tid, tid, tid]).threads tid).pc = .atWrite ∧
      (run json ord w [tid, tid, tid]).store = w.store ∧
      (run json ord w [tid, tid, tid]).fs = w.fs := by
    simp [run, step, hpc, hfree, World.setThread]
  refine ⟨hpre.1, hpre.2.1, hpre.2.2.1, hpre.2.2.2, ?_⟩
  cases hm : json.marshalIndent (rangeImages ord w.store.images) with
  | error err =>
    simp [run, step, hpc, hfree, World.setThread, hm, LocalDBService.saveData]
    intro j hj
    simp [hj]
  | ok data =>
    cases hw : WriteFile w.fs (Join [w.store.storagePath, "images.json"]) data with
    | mk fs1 e1 =>
      cases e1 with
      | some err =>
        simp [run, step, hpc, hfree, World.setThread, hm, hw, LocalDBService.saveData]
        intro j hj
        simp [hj]
      | none =>
        simp [run, step, hpc, hfree, World.setThread, hm, hw, LocalDBService.saveData]
        intro j hj
        simp [hj]

theorem run_append (json : JSONLib) (ord : MapOrder) (w : World) (a b : List Nat) :
    run json ord w (a ++ b) = run json ord (run json ord w a) b := by
  simp [run, List.foldl_append]

/-- The first three statements of a call that reaches `saveData`, run by one
thread without interruption from a free mutex: the map is updated under the
lock and the lock is released. -/
theorem run_update (json : JSONLib) (ord : MapOrder) (w : World) (tid : Nat)
    (hpc : (w.threads tid).pc = .atLock) (hfree : w.mutex = ⟨false, 0⟩)
    (images : AList (fun _ : String => Image))
    (hcall : (∃ image, (w.threads tid).call = .save image ∧
        images = w.store.images.insert image.ID image) ∨
      (∃ id img, (w.threads tid).call = .delete id ∧ w.store.images.lookup id = some img ∧
        images = w.store.images.erase id)) :
    (run json ord w [tid, tid, tid]).mutex = ⟨false, 0⟩ ∧
    ((run json ord w [tid, tid, tid]).threads tid).pc = .atRLock ∧
    (run json ord w [tid, tid, tid]).store = { w.store with images := images } ∧
    (run json ord w [tid, tid, tid]).fs = w.fs ∧
    (∀ j, j ≠ tid → (run json ord w [tid, tid, tid]).threads j = w.threads j) := by
  rcases hcall with ⟨image, hc, rfl⟩ | ⟨id, img, hc, hl, rfl⟩
  · simp [run, step, hpc, hfree, World.setThread, hc]
    intro j hj
    simp [hj]
  · simp [run, step, hpc, hfree, World.setThread, hc, hl]
    intro j hj
    simp [hj]

/-- A whole call that reaches `saveData`, run by one thread without
interruption from a free mutex. -/
theorem run_call (json : JSONLib) (ord : MapOrder) (w : World) (tid : Nat)
    (hpc : (w.threads tid).pc = .atLock) (hfree : w.mutex = ⟨false, 0⟩)
    (images : AList (fun _ : String => Image))
    (hcall : (∃ image, (w.threads tid).call = .save image ∧
        images = w.store.images.insert image.ID image) ∨
      (∃ id img, (w.threads tid).call = .delete id ∧ w.store.images.lookup id = some img ∧
        images = w.store.images.erase id)) :
    ((run json ord w (List.replicate 6 tid)).threads tid).pc = .atWrite ∧
    (run json ord w (List.replicate 6 tid)).mutex = ⟨false, 0⟩ ∧
    ((run json ord w (List.replicate 7 tid)).threads tid).pc = .returned ∧
    (run json ord w (List.replicate 7 tid)).mutex = ⟨false, 0⟩ ∧
    (∀ j, j ≠ tid → (run json ord w (List.replicate 7 tid)).threads j = w.threads j) ∧
    (run json ord w (List.replicate 7 tid)).store = { w.store with images := images } ∧
    ((run json ord w (List.replicate 7 tid)).fs,
        ((run json ord w (List.replicate 7 tid)).threads tid).result)
      = LocalDBService.saveData json ord w.fs { w.store with images := images } := by
  obtain ⟨u1, u2, u3, u4, u5⟩ := run_update json ord w tid hpc hfree images hcall
  obtain ⟨s1, s2, _, _, s5, s6, s7, s8, s9⟩ :=
    run_saveData json ord (run json ord w [tid, tid, tid]) tid u2 u1
  have e6 : List.replicate 6 tid = [tid, tid, tid] ++ [tid, tid, tid] := rfl
  have e7 : List.replicate 7 tid = [tid, tid, tid] ++ [tid, tid, tid, tid] := rfl
  rw [e6, e7, run_append, run_append]
  refine ⟨s2, s1, s5, s6, fun j hj => (s9 j hj).trans (u5 j hj), s7.trans u3, ?_⟩
  rw [s8, u3, u4]

/-- A call whose statements run without another thread in between, from a free
mutex, ends with the mutex free, leaves the other threads as they are, and
does to the store and the disk, and returns, what the sequential `SaveImage` or
`DeleteImage` does; it reaches its rewrite with the mutex free; when it returns
no error, the persisted document holds the encoding of exactly the records of
the map. -/
theorem run_call_alone (json : JSONLib) (ord : MapOrder) (w : World) (tid : Nat)
    (hpc : (w.threads tid).pc = .atLock) (hfree : w.mutex = ⟨false, 0⟩) :
    ((run json ord w (List.replicate 7 tid)).threads tid).pc = .returned ∧
    (run json ord w (List.replicate 7 tid)).mutex = ⟨false, 0⟩ ∧
    (∀ j, j ≠ tid → (run json ord w (List.replicate 7 tid)).threads j = w.threads j) ∧
    ((run json ord w (List.replicate 7 tid)).store,
        (run json ord w (List.replicate 7 tid)).fs,
        ((run json ord w (List.replicate 7 tid)).threads tid).result)
      = (match (w.threads tid).call with
          | .save image => LocalDBService.SaveImage json ord w.fs w.store image
          | .delete id => LocalDBService.DeleteImage json ord w.fs w.store id) ∧
    (((run json ord w (List.replicate 6 tid)).threads tid).pc = .atWrite →
      (run json ord w (List.replicate 6 tid)).mutex = ⟨false, 0⟩) ∧
    (((run json ord w (List.replicate 7 tid)).threads tid).result = none →
      ∃ data,
        json.marshalIndent
            (rangeImages ord (run json ord w (List.replicate 7 tid)).store.images) = .ok data ∧
        (run json ord w (List.replicate 7 tid)).fs.files.lookup
            (docPath (run json ord w (List.replicate 7 tid)).store) = some data) := by
  have hsaved : ∀ images : AList (fun _ : String => Image),
      (run json ord w (List.replicate 7 tid)).store = { w.store with images := images } →
      ((run json ord w (List.replicate 7 tid)).fs,
          ((run json ord w (List.replicate 7 tid)).threads tid).result)
        = LocalDBService.saveData json ord w.fs { w.store with images := images } →
      ((run json ord w (List.replicate 7 tid)).threads tid).result = none →
      ∃ data,
        json.marshalIndent
            (rangeImages ord (run json ord w (List.replicate 7 tid)).store.images) = .ok data ∧
        (run json ord w (List.replicate 7 tid)).fs.files.lookup
            (docPath (run json ord w (List.replicate 7 tid)).store) = some data := by
    intro images hstore hsave hres
    rw [hres] at hsave
    obtain ⟨data, hm, _, hfs⟩ := saveData_ok hsave.symm
    refine ⟨data, by rw [hstore]; exact hm, ?_⟩
    rw [hfs, hstore]
    exact AList.lookup_insert _
  cases hcall : (w.threads tid).call with
  | save image =>
    obtain ⟨c1, c2, c3, c4, c5, c6, c7⟩ := run_call json ord w tid hpc hfree
      (w.store.images.insert image.ID image) (Or.inl ⟨image, hcall, rfl⟩)
    refine ⟨c3, c4, c5, ?_, fun _ => c2, hsaved _ c6 c7⟩
    simp only [LocalDBService.SaveImage]
    rw [c6, ← c7]
  | delete id =>
    cases hl : w.store.images.lookup id with
    | some img =>
      obtain ⟨c1, c2, c3, c4, c5, c6, c7⟩ := run_call json ord w tid hpc hfree
        (w.store.images.erase id) (Or.inr ⟨id, img, hcall, hl, rfl⟩)
      refine ⟨c3, c4, c5, ?_, fun _ => c2, hsaved _ c6 c7⟩
      simp only [LocalDBService.DeleteImage, hl]
      rw [c6, ← c7]
    | none =>
      have e6 : List.replicate 6 tid = [tid, tid, tid, tid, tid, tid] := rfl
      have e7 : List.replicate 7 tid = [tid, tid, tid, tid, tid, tid, tid] := rfl
      rw [e6, e7]
      simp [run, step, hpc, hfree, World.setThread, hcall, hl, LocalDBService.DeleteImage]
      intro j hj
      simp [hj]

/-! ## Concurrent calls: what the mutex guarantees -/

/-- Changing the statement of one thread below `n` changes the count of the
read locks by what that thread gives up and takes. -/
theorem readCount_update (pcs : Nat → PC) (tid : Nat) (q : PC) :
    ∀ n, readCount (fun j => if j = tid then q else pcs j) n
        + (if tid < n ∧ (pcs tid).holdsRead = true then 1 else 0)
      = readCount pcs n + (if tid < n ∧ q.holdsRead = true then 1 else 0) := by
  intro n
  induction n with
  | zero => simp [readCount]
  | succ n ih =>
    simp only [readCount]
    by_cases hn : n = tid
    · subst hn
      have hlt : ¬ n < n := Nat.lt_irrefl n
      simp only [hlt, false_and, if_false, Nat.add_zero] at ih
      simp only [if_true, Nat.lt_succ_self, true_and]
      rw [ih]
      by_cases h1 : (pcs n).holdsRead = true <;> by_cases h2 : q.holdsRead = true <;>
        simp [h1, h2]
    · have hiff : (tid < n + 1) ↔ (tid < n) := by
        constructor
        · intro h
          have : tid ≤ n := Nat.lt_succ_iff.mp h
          exact Nat.lt_of_le_of_ne this (fun e => hn e.symm)
        · intro h; exact Nat.lt_succ_of_lt h
      simp only [hn, if_false, hiff]
      omega

/-- No thread below `n` holds a read lock when the count is zero. -/
theorem readCount_eq_zero (pcs : Nat → PC) :
    ∀ n, readCount pcs n = 0 → ∀ j, j < n → (pcs j).holdsRead = false := by
  intro n
  induction n with
  | zero => intro _ j hj; exact absurd hj (Nat.not_lt_zero j)
  | succ n ih =>
    intro h j hj
    simp only [readCount] at h
    have h1 : readCount pcs n = 0 := by omega
    have h2 : (if (pcs n).holdsRead = true then 1 else 0) = 0 := by omega
    rcases Nat.lt_succ_iff_lt_or_eq.mp hj with hlt | heq
    · exact ih h1 j hlt
    · subst heq
      by_cases hr : (pcs j).holdsRead = true
      · simp [hr] at h2
      · simpa using hr

/-- A thread below `n` that holds a read lock is counted. -/
theorem readCount_pos (pcs : Nat → PC) (n j : Nat) (hj : j < n)
    (hr : (pcs j).holdsRead = true) : 0 < readCount pcs n := by
  by_contra hzero
  have h0 : readCount pcs n = 0 := by omega
  have := readCount_eq_zero pcs n h0 j hj
  rw [hr] at this
  exact absurd this (by simp)

/-- One step of a thread either leaves the world as it is (the thread waits or
has returned) or is one of the moves of `lockStep`; the other threads are not
touched. -/
theorem step_lockStep (json : JSONLib) (ord : MapOrder) (w : World) (tid : Nat) :
    step json ord w tid = w ∨
    (lockStep (w.threads tid).pc w.mutex ((step json ord w tid).threads tid).pc
        (step json ord w tid).mutex ∧
      ∀ j, j ≠ tid → (step json ord w tid).threads j = w.threads j) := by
  unfold step
  simp only
  cases hpc : (w.threads tid).pc with
  | atLock =>
    by_cases hc : w.mutex.writer = false ∧ w.mutex.readers = 0
    · right
      simp only [if_pos hc]
      refine ⟨Or.inl ⟨rfl, hc.1, hc.2, ?_, ?_⟩, fun j hj => ?_⟩
      · simp [World.setThread]
      · simp [World.setThread]
      · simp [World.setThread, hj]
    · left
      simp only [if_neg hc]
  | atUpdate =>
    right
    cases hcall : (w.threads tid).call with
    | save image =>
      refine ⟨Or.inr (Or.inl ⟨rfl, Or.inl ?_, ?_⟩), fun j hj => ?_⟩
      · simp [World.setThread]
      · simp [World.setThread]
      · simp [World.setThread, hj]
    | delete id =>
      cases hl : w.store.images.lookup id with
      | none =>
        refine ⟨Or.inr (Or.inl ⟨rfl, Or.inr ?_, ?_⟩), fun j hj => ?_⟩
        · simp [World.setThread, hl]
        · simp [World.setThread, hl]
        · simp [World.setThread, hj, hl]
      | some img =>
        refine ⟨Or.inr (Or.inl ⟨rfl, Or.inl ?_, ?_⟩), fun j hj => ?_⟩
        · simp [World.setThread, hl]
        · simp [World.setThread, hl]
        · simp [World.setThread, hj, hl]
  | atUnlock =>
    right
    refine ⟨Or.inr (Or.inr (Or.inl ⟨rfl, ?_, ?_⟩)), fun j hj => ?_⟩
    · simp [World.setThread]
    · simp [World.setThread]
    · simp [World.setThread, hj]
  | atUnlockNotFound =>
    right
    refine ⟨Or.inr (Or.inr (Or.inr (Or.inl ⟨rfl, ?_, ?_⟩))), fun j hj => ?_⟩
    · simp [World.setThread]
    · simp [World.setThread]
    · simp [World.setThread, hj]
  | atRLock =>
    by_cases hc : w.mutex.writer = false
    · right
      simp only [if_pos hc]
      refine ⟨Or.inr (Or.inr (Or.inr (Or.inr (Or.inl ⟨rfl, hc, ?_, ?_⟩)))), fun j hj => ?_⟩
      · simp [World.setThread]
      · simp [World.setThread]
      · simp [World.setThread, hj]
    · left
      simp only [if_neg hc]
  | atCopy =>
    right
    refine ⟨Or.inr (Or.inr (Or.inr (Or.inr (Or.inr (Or.inl ⟨rfl, ?_, ?_⟩))))),
      fun j hj => ?_⟩
    · simp [World.setThread]
    · simp [World.setThread]
    · simp [World.setThread, hj]
  | atRUnlock =>
    right
    refine ⟨Or.inr (Or.inr (Or.inr (Or.inr (Or.inr (Or.inr (Or.inl ⟨rfl, ?_, ?_⟩)))))),
      fun j hj => ?_⟩
    · simp [World.setThread]
    · simp [World.setThread]
    · simp [World.setThread, hj]
  | atWrite =>
    right
    cases hm : json.marshalIndent (w.threads tid).images with
    | error err =>
      refine ⟨Or.inr (Or.inr (Or.inr (Or.inr (Or.inr (Or.inr (Or.inr ⟨rfl, ?_, ?_⟩)))))),
        fun j hj => ?_⟩
      · simp [World.setThread]
      · simp [World.setThread]
      · simp [World.setThread, hj]
    | ok data =>
      simp only
      cases hw : WriteFile w.fs (Join [w.store.storagePath, "images.json"]) data with
      | mk fs1 e1 =>
        cases e1 with
        | some err =>
          refine ⟨Or.inr (Or.inr (Or.inr (Or.inr (Or.inr (Or.inr (Or.inr ⟨rfl, ?_, ?_⟩)))))),
            fun j hj => ?_⟩
          · simp [World.setThread]
          · simp [World.setThread]
          · simp [World.setThread, hj]
        | none =>
          refine ⟨Or.inr (Or.inr (Or.inr (Or.inr (Or.inr (Or.inr (Or.inr ⟨rfl, ?_, ?_⟩)))))),
            fun j hj => ?_⟩
          · simp [World.setThread]
          · simp [World.setThread]
          · simp [World.setThread, hj]
  | returned => left; rfl

/-- A move of a thread below `n` keeps the mutex and the statements of the
threads in agreement. -/
theorem lockInv_move {n : Nat} {pcs : Nat → PC} {m m' : RWMutex} {tid : Nat} {p' : PC}
    (h : lockInv n pcs m) (htid : tid < n) (hmove : lockStep (pcs tid) m p' m') :
    lockInv n (fun j => if j = tid then p' else pcs j) m' := by
  obtain ⟨ha, hb, hc, hd, he, hf⟩ := h
  have hcount := readCount_update pcs tid p' n
  simp only [htid, true_and] at hcount
  have hfar : ∀ j, n ≤ j → j ≠ tid := fun j hj e => by omega
  have ha' : ∀ j, n ≤ j →
      (if j = tid then p' else pcs j).holdsWrite = false ∧
      (if j = tid then p' else pcs j).holdsRead = false := by
    intro j hj
    simp only [if_neg (hfar j hj)]
    exact ha j hj
  rcases hmove with ⟨hp, hw, hr, hp', hm'⟩ | ⟨hp, hp', hm'⟩ | ⟨hp, hp', hm'⟩ |
    ⟨hp, hp', hm'⟩ | ⟨hp, hw, hp', hm'⟩ | ⟨hp, hp', hm'⟩ | ⟨hp, hp', hm'⟩ | ⟨hp, hp', hm'⟩
  · -- Lock
    subst hp' hm'
    have hnone : ∀ i, (pcs i).holdsWrite = true → False := fun i hi => by
      have := hd i hi; rw [hw] at this; exact absurd this (by simp)
    refine ⟨ha', ?_, ?_, ?_, ?_, ?_⟩
    · simp only [hp, PC.holdsRead] at hcount
      simp at hcount
      simp only [hb]; omega
    · intro _; exact hr
    · intro i _; rfl
    · intro i j hi hj
      by_cases h1 : i = tid
      · by_cases h2 : j = tid
        · rw [h1, h2]
        · simp only [if_neg h2] at hj; exact absurd hj (fun h => hnone j h)
      · simp only [if_neg h1] at hi; exact absurd hi (fun h => hnone i h)
    · intro _; exact ⟨tid, by simp [PC.holdsWrite]⟩
  · -- Update
    subst hm'
    have hpw : (pcs tid).holdsWrite = true := by rw [hp]; rfl
    have hp'w : p'.holdsWrite = true := by rcases hp' with e | e <;> rw [e] <;> rfl
    have hp'r : p'.holdsRead = false := by rcases hp' with e | e <;> rw [e] <;> rfl
    refine ⟨ha', ?_, hc, ?_, ?_, ?_⟩
    · rw [hp'r] at hcount
      simp [hp, PC.holdsRead] at hcount
      simp only [hb]; omega
    · intro i hi
      by_cases h1 : i = tid
      · exact hd tid hpw
      · simp only [if_neg h1] at hi; exact hd i hi
    · intro i j hi hj
      have hi' : (pcs i).holdsWrite = true := by
        by_cases h1 : i = tid
        · rw [h1]; exact hpw
        · simp only [if_neg h1] at hi; exact hi
      have hj' : (pcs j).holdsWrite = true := by
        by_cases h1 : j = tid
        · rw [h1]; exact hpw
        · simp only [if_neg h1] at hj; exact hj
      exact he i j hi' hj'
    · intro _; exact ⟨tid, by simp [hp'w]⟩
  · -- Unlock
    subst hp' hm'
    have hpw : (pcs tid).holdsWrite = true := by rw [hp]; rfl
    have hnone : ∀ i, (if i = tid then PC.atRLock else pcs i).holdsWrite = true → False := by
      intro i hi
      by_cases h1 : i = tid
      · simp [h1, PC.holdsWrite] at hi
      · simp only [if_neg h1] at hi; exact h1 (he i tid hi hpw)
    refine ⟨ha', ?_, ?_, ?_, ?_, ?_⟩
    · simp only [hp, PC.holdsRead] at hcount
      simp at hcount
      simp only [hb]; omega
    · intro hx; simp at hx
    · intro i hi; exact absurd hi (fun h => hnone i h)
    · intro i j hi _; exact absurd hi (fun h => hnone i h)
    · intro hx; simp at hx
  · -- Unlock before the not-found return
    subst hp' hm'
    have hpw : (pcs tid).holdsWrite = true := by rw [hp]; rfl
    have hnone : ∀ i, (if i = tid then PC.returned else pcs i).holdsWrite = true → False := by
      intro i hi
      by_cases h1 : i = tid
      · simp [h1, PC.holdsWrite] at hi
      · simp only [if_neg h1] at hi; exact h1 (he i tid hi hpw)
    refine ⟨ha', ?_, ?_, ?_, ?_, ?_⟩
    · simp only [hp, PC.holdsRead] at hcount
      simp at hcount
      simp only [hb]; omega
    · intro hx; simp at hx
    · intro i hi; exact absurd hi (fun h => hnone i h)
    · intro i j hi _; exact absurd hi (fun h => hnone i h)
    · intro hx; simp at hx
  · -- RLock
    subst hp' hm'
    have hnone : ∀ i, (pcs i).holdsWrite = true → False := fun i hi => by
      have := hd i hi; rw [hw] at this; exact absurd this (by simp)
    have hnone' : ∀ i, (if i = tid then PC.atCopy else pcs i).holdsWrite = true → False := by
      intro i hi
      by_cases h1 : i = tid
      · simp [h1, PC.holdsWrite] at hi
      · simp only [if_neg h1] at hi; exact hnone i hi
    refine ⟨ha', ?_, ?_, ?_, ?_, ?_⟩
    · simp only [hp, PC.holdsRead] at hcount
      simp at hcount
      simp only [hb]; omega
    · intro hx; simp only at hx; rw [hw] at hx; exact absurd hx (by simp)
    · intro i hi; exact absurd hi (fun h => hnone' i h)
    · intro i j hi _; exact absurd hi (fun h => hnone' i h)
    · intro hx; simp only at hx; rw [hw] at hx; exact absurd hx (by simp)
  · -- Copy
    subst hp' hm'
    have hsame : ∀ i, (if i = tid then PC.atRUnlock else pcs i).holdsWrite
        = (pcs i).holdsWrite := by
      intro i
      by_cases h1 : i = tid
      · simp [h1, hp, PC.holdsWrite]
      · simp only [if_neg h1]
    refine ⟨ha', ?_, hc, ?_, ?_, ?_⟩
    · simp only [hp, PC.holdsRead] at hcount
      simp at hcount
      simp only [hb]; omega
    · intro i hi; rw [hsame] at hi; exact hd i hi
    · intro i j hi hj; rw [hsame] at hi hj; exact he i j hi hj
    · intro hx
      obtain ⟨i, hi⟩ := hf hx
      exact ⟨i, by rw [hsame]; exact hi⟩
  · -- RUnlock
    subst hp' hm'
    have hsame : ∀ i, (if i = tid then PC.atWrite else pcs i).holdsWrite
        = (pcs i).holdsWrite := by
      intro i
      by_cases h1 : i = tid
      · simp [h1, hp, PC.holdsWrite]
      · simp only [if_neg h1]
    have hpos : 0 < readCount pcs n := readCount_pos pcs n tid htid (by rw [hp]; rfl)
    refine ⟨ha', ?_, ?_, ?_, ?_, ?_⟩
    · simp only [hp, PC.holdsRead] at hcount
      simp at hcount
      simp only [hb]; omega
    · intro hx
      have := hc hx
      omega
    · intro i hi; rw [hsame] at hi; exact hd i hi
    · intro i j hi hj; rw [hsame] at hi hj; exact he i j hi hj
    · intro hx
      obtain ⟨i, hi⟩ := hf hx
      exact ⟨i, by rw [hsame]; exact hi⟩
  · -- Write
    subst hp' hm'
    have hsame : ∀ i, (if i = tid then PC.returned else pcs i).holdsWrite
        = (pcs i).holdsWrite := by
      intro i
      by_cases h1 : i = tid
      · simp [h1, hp, PC.holdsWrite]
      · simp only [if_neg h1]
    refine ⟨ha', ?_, hc, ?_, ?_, ?_⟩
    · simp only [hp, PC.holdsRead] at hcount
      simp at hcount
      simp only [hb]; omega
    · intro i hi; rw [hsame] at hi; exact hd i hi
    · intro i j hi hj; rw [hsame] at hi hj; exact he i j hi hj
    · intro hx
      obtain ⟨i, hi⟩ := hf hx
      exact ⟨i, by rw [hsame]; exact hi⟩

theorem readCount_of_none (pcs : Nat → PC) (h : ∀ j, (pcs j).holdsRead = false) :
    ∀ n, readCount pcs n = 0 := by
  intro n
  induction n with
  | zero => rfl
  | succ n ih => simp [readCount, ih, h n]

/-- One step of a thread below `n` keeps the invariant. -/
theorem LocksOK_step (json : JSONLib) (ord : MapOrder) {n : Nat} {w : World} {tid : Nat}
    (h : LocksOK n w) (htid : tid < n) : LocksOK n (step json ord w tid) := by
  rcases step_lockStep json ord w tid with e | ⟨hmove, hothers⟩
  · rw [e]; exact h
  · have hinv := lockInv_move h htid hmove
    have hpcs : (fun j => ((step json ord w tid).threads j).pc)
        = fun j => if j = tid then ((step json ord w tid).threads tid).pc
            else (w.threads j).pc := by
      funext j
      by_cases hj : j = tid
      · simp [hj]
      · simp only [if_neg hj]
        rw [hothers j hj]
    unfold LocksOK
    rw [hpcs]
    exact hinv

/-- The steps of a schedule of threads below `n` keep the invariant. -/
theorem LocksOK_run (json : JSONLib) (ord : MapOrder) {n : Nat} (schedule : List Nat) :
    ∀ w : World, LocksOK n w → (∀ t ∈ schedule, t < n) →
      LocksOK n (run json ord w schedule) := by
  induction schedule with
  | nil => intro w h _; exact h
  | cons t rest ih =>
    intro w h hlt
    show LocksOK n (run json ord (step json ord w t) rest)
    exact ih _ (LocksOK_step json ord h (hlt t (List.mem_cons_self _ _)))
      (fun u hu => hlt u (List.mem_cons_of_mem _ hu))

/-- The invariant holds, for every `n`, when the mutex is free and every thread
is about to start its call or has returned. -/
theorem LocksOK_start (w : World) (n : Nat) (hfree : w.mutex = ⟨false, 0⟩)
    (hstart : ∀ j, (w.threads j).pc = .atLock ∨ (w.threads j).pc = .returned) :
    LocksOK n w := by
  have hw : ∀ j, (w.threads j).pc.holdsWrite = false := by
    intro j; rcases hstart j with e | e <;> rw [e] <;> rfl
  have hr : ∀ j, (w.threads j).pc.holdsRead = false := by
    intro j; rcases hstart j with e | e <;> rw [e] <;> rfl
  refine ⟨fun j _ => ⟨hw j, hr j⟩, ?_, ?_, ?_, ?_, ?_⟩
  · rw [readCount_of_none _ hr, hfree]
  · intro hx; rw [hfree] at hx; simp at hx
  · intro i hi; rw [hw i] at hi; simp at hi
  · intro i j hi; rw [hw i] at hi; simp at hi
  · intro hx; rw [hfree] at hx; simp at hx

/-- Every schedule has a bound above its threads. -/
theorem schedule_bound (schedule : List Nat) : ∃ n, ∀ t ∈ schedule, t < n := by
  induction schedule with
  | nil => exact ⟨0, fun t ht => by simp at ht⟩
  | cons a rest ih =>
    obtain ⟨n, hn⟩ := ih
    refine ⟨max (a + 1) n, fun t ht => ?_⟩
    rcases List.mem_cons.mp ht with e | hmem
    · rw [e]; exact lt_of_lt_of_le (Nat.lt_succ_self a) (le_max_left _ _)
    · exact lt_of_lt_of_le (hn t hmem) (le_max_right _ _)

/-- What the invariant says of the locks: the exclusive lock is held by one
thread at a time and by no thread while a read lock is held, and the mutex is
free when no thread holds a lock. -/
theorem LocksOK_facts {n : Nat} {w : World} (h : LocksOK n w) :
    (∀ i j, (w.threads i).pc.holdsWrite = true → (w.threads j).pc.holdsWrite = true → i = j) ∧
    (∀ i, (w.threads i).pc.holdsWrite = true →
      w.mutex.writer = true ∧ w.mutex.readers = 0 ∧ ∀ j, (w.threads j).pc.holdsRead = false) ∧
    (∀ i, (w.threads i).pc.holdsRead = true →
      w.mutex.writer = false ∧ 0 < w.mutex.readers ∧
      ∀ j, (w.threads j).pc.holdsWrite = false) ∧
    ((∀ j, (w.threads j).pc.holdsWrite = false ∧ (w.threads j).pc.holdsRead = false) →
      w.mutex = ⟨false, 0⟩) := by
  obtain ⟨ha, hb, hc, hd, he, hf⟩ := h
  have hnoread : w.mutex.readers = 0 → ∀ j, (w.threads j).pc.holdsRead = false := by
    intro hz j
    by_cases hj : j < n
    · exact readCount_eq_zero _ n (hb.symm.trans hz) j hj
    · exact (ha j (Nat.le_of_not_lt hj)).2
  refine ⟨he, fun i hi => ⟨hd i hi, hc (hd i hi), hnoread (hc (hd i hi))⟩, ?_, ?_⟩
  · intro i hi
    have hpos : 0 < w.mutex.readers := by
      by_contra hz
      have := hnoread (by omega) i
      rw [hi] at this
      exact absurd this (by simp)
    have hwf : w.mutex.writer = false := by
      cases hwr : w.mutex.writer with
      | false => rfl
      | true => have := hc hwr; omega
    refine ⟨hwf, hpos, fun j => ?_⟩
    cases hj : (w.threads j).pc.holdsWrite with
    | false => rfl
    | true => have := hd j hj; rw [hwf] at this; exact absurd this (by simp)
  · intro hnone
    have hr0 : w.mutex.readers = 0 := by
      rw [hb]; exact readCount_of_none _ (fun j => (hnone j).2) n
    have hwf : w.mutex.writer = false := by
      cases hwr : w.mutex.writer with
      | false => rfl
      | true =>
        obtain ⟨i, hi⟩ := hf hwr
        rw [(hnone i).1] at hi
        exact absurd hi (by simp)
    cases hm : w.mutex with
    | mk wr rd =>
      rw [hm] at hr0 hwf
      simp only at hr0 hwf
      rw [hr0, hwf]

/-- C19, amended. In `SaveImage` and `DeleteImage` the exclusive lock covers the
update of the map only. From a free mutex and threads about to start their
calls, over every schedule: at most one thread is between `Lock` and `Unlock`
(so the updates of the map exclude one another), the mutex is then locked for
writing and no thread holds a read lock; a thread that copies the map in
`saveData` does so under the read lock, with the mutex not locked for writing
and no thread between `Lock` and `Unlock`; and when no thread is in either
section, a thread at its rewrite included, the mutex is free: the rewrite runs
with no lock held. A call whose statements run without another thread in
between ends with the mutex free, leaves the other threads as they are, and
does to the store and the disk, and returns, what the sequential `SaveImage`
or `DeleteImage` does; when it returns no error, the persisted document holds
the encoding of exactly the records of the map. -/
theorem C19_critical_section (json : JSONLib) (ord : MapOrder) (w : World) (tid : Nat)
    (hpc : (w.threads tid).pc = .atLock) (hfree : w.mutex = ⟨false, 0⟩)
    (hstart : ∀ j, (w.threads j).pc = .atLock ∨ (w.threads j).pc = .returned) :
    (∀ schedule : List Nat,
      (∀ i j, ((run json ord w schedule).threads i).pc.holdsWrite = true →
        ((run json ord w schedule).threads j).pc.holdsWrite = true → i = j) ∧
      (∀ i, ((run json ord w schedule).threads i).pc.holdsWrite = true →
        (run json ord w schedule).mutex.writer = true ∧
        (run json ord w schedule).mutex.readers = 0 ∧
        ∀ j, ((run json ord w schedule).threads j).pc.holdsRead = false) ∧
      (∀ i, ((run json ord w schedule).threads i).pc.holdsRead = true →
        (run json ord w schedule).mutex.writer = false ∧
        0 < (run json ord w schedule).mutex.readers ∧
        ∀ j, ((run json ord w schedule).threads j).pc.holdsWrite = false) ∧
      ((∀ j, ((run json ord w schedule).threads j).pc.holdsWrite = false ∧
          ((run json ord w schedule).threads j).pc.holdsRead = false) →
        (run json ord w schedule).mutex = ⟨false, 0⟩)) ∧
    ((run json ord w (List.replicate 7 tid)).threads tid).pc = .returned ∧
    (run json ord w (List.replicate 7 tid)).mutex = ⟨false, 0⟩ ∧
    (∀ j, j ≠ tid → (run json ord w (List.replicate 7 tid)).threads j = w.threads j) ∧
    ((run json ord w (List.replicate 7 tid)).store,
        (run json ord w (List.replicate 7 tid)).fs,
        ((run json ord w (List.replicate 7 tid)).threads tid).result)
      = (match (w.threads tid).call with
          | .save image => LocalDBService.SaveImage json ord w.fs w.store image
          | .delete id => LocalDBService.DeleteImage json ord w.fs w.store id) ∧
    (((run json ord w (List.replicate 6 tid)).threads tid).pc = .atWrite →
      (run json ord w (List.replicate 6 tid)).mutex = ⟨false, 0⟩) ∧
    (((run json ord w (List.replicate 7 tid)).threads tid).result = none →
      ∃ data,
        json.marshalIndent
            (rangeImages ord (run json ord w (List.replicate 7 tid)).store.images) = .ok data ∧
        (run json ord w (List.replicate 7 tid)).fs.files.lookup
            (docPath (run json ord w (List.replicate 7 tid)).store) = some data) := by
  refine ⟨fun schedule => ?_, run_call_alone json ord w tid hpc hfree⟩
  obtain ⟨n, hn⟩ := schedule_bound schedule
  exact LocksOK_facts (LocksOK_run json ord schedule w (LocksOK_start w n hfree hstart) hn)

set_option maxRecDepth 100000 in
/-- The amended C19 on the two saves: over every schedule the updates of the
two threads exclude one another; on the interleaving of the stale rewrite the
first thread reaches its rewrite while the second holds the exclusive lock for
its update; and the first thread run alone saves "test-id-2" as the sequential
`SaveImage` does and returns no error. -/
theorem C19_critical_section_witness :
    (twoSaves.threads 0).pc = .atLock ∧ twoSaves.mutex = ⟨false, 0⟩ ∧
    (∀ j, (twoSaves.threads j).pc = .atLock ∨ (twoSaves.threads j).pc = .returned) ∧
    (∀ schedule : List Nat, ∀ i j,
      ((run plainCodec entryOrder twoSaves schedule).threads i).pc.holdsWrite = true →
      ((run plainCodec entryOrder twoSaves schedule).threads j).pc.holdsWrite = true →
      i = j) ∧
    ((run plainCodec entryOrder twoSaves (staleWriteSchedule.take 8)).threads 0).pc = .atWrite ∧
    ((run plainCodec entryOrder twoSaves (staleWriteSchedule.take 8)).threads 1).pc
      = .atUnlock ∧
    ((run plainCodec entryOrder twoSaves (staleWriteSchedule.take 8)).mutex.writer = true ∧
      (run plainCodec entryOrder twoSaves (staleWriteSchedule.take 8)).mutex.readers = 0 ∧
      ∀ j, ((run plainCodec entryOrder twoSaves (staleWriteSchedule.take 8)).threads j).pc.holdsRead
        = false) ∧
    ((run plainCodec entryOrder twoSaves (List.replicate 7 0)).threads 0).pc = .returned ∧
    ((run plainCodec entryOrder twoSaves (List.replicate 7 0)).threads 0).result = none ∧
    (run plainCodec entryOrder twoSaves (List.replicate 7 0)).mutex = ⟨false, 0⟩ ∧
    (run plainCodec entryOrder twoSaves (List.replicate 7 0)).fs.files.lookup
      (docPath emptyStore) = some (encodeImage testImage2) :=
  have hstart : ∀ j, (twoSaves.threads j).pc = .atLock ∨ (twoSaves.threads j).pc = .returned :=
    fun j => Or.inl (by
      by_cases hj : j = 0
      · simp [twoSaves, hj]
      · simp [twoSaves, hj])
  have h := C19_critical_section plainCodec entryOrder twoSaves 0 (by decide) (by decide) hstart
  ⟨by decide, by decide, hstart, fun schedule => (h.1 schedule).1, by decide, by decide,
    (h.1 (staleWriteSchedule.take 8)).2.1 1 (by decide), h.2.1, by decide, h.2.2.1, by decide⟩

/-! ## Cloud-table-backed metadata store -/

/-- Over the mock client, `DeleteImage` of `DynamoDBService` returns no error
for every id, stored or not. -/
theorem DynamoDB_DeleteImage_mock (m : mockDynamoDBClient) (d : DynamoDBService)
    (id : String) :
    DynamoDBService.DeleteImage mockAPI m d id
      = ({ items := m.items.erase (d.tableName ++ "/" ++ id) }, none) := by
  simp [DynamoDBService.DeleteImage, mockAPI, mockDynamoDBClient.DeleteItem, idKey,
    AList.lookup, AList.singleton]

set_option maxRecDepth 100000 in
/-- C20 on the code: over the mock client with no record stored, `GetImage` of
the id "never-saved" fails with "image not found" (no record has that id),
while `DeleteImage` of the same id returns no error, where `DeleteImage` of
the local metadata store returns "image not found". -/
theorem C20_dynamodb_delete_absent_returns_nil :
    emptyMock.items.lookup (testTable.tableName ++ "/" ++ "never-saved") = none ∧
    DynamoDBService.GetImage mockAPI (fun _ => .ok Image.zero) emptyMock testTable
        "never-saved"
      = (Image.zero, some (.errorf "image not found")) ∧
    (DynamoDBService.DeleteImage mockAPI emptyMock testTable "never-saved").2 = none ∧
    (LocalDBService.DeleteImage plainCodec entryOrder dbDisk emptyStore "never-saved").2.2
      = some (.errorf "image not found") :=
  ⟨by rfl, by rfl, by rfl, by rfl⟩

/-! ## Local metadata store: frame, failure, invariant -/

/-- C25. Frame of the mutations: for every store, record `r` and id `id'` other
than `r.ID`, `GetImage id'` returns the same before and after `SaveImage r`;
and for every id `id` other than `id'`, `GetImage id'` returns the same before
and after `DeleteImage id`. A mutation changes the mapping of its own id only. -/
theorem C25_mutation_frame (json : JSONLib) (ord : MapOrder) (fs : FS) (d : LocalDBService)
    (r : Image) (id id' : String) (hsave : id' ≠ r.ID) (hdelete : id' ≠ id) :
    LocalDBService.GetImage (LocalDBService.SaveImage json ord fs d r).1 id'
      = LocalDBService.GetImage d id' ∧
    LocalDBService.GetImage (LocalDBService.DeleteImage json ord fs d id).1 id'
      = LocalDBService.GetImage d id' := by
  constructor
  · simp only [LocalDBService.GetImage, LocalDBService.SaveImage,
      AList.lookup_insert_ne hsave]
  · cases hl : d.images.lookup id with
    | none => simp only [LocalDBService.DeleteImage, hl]
    | some img =>
      simp only [LocalDBService.GetImage, LocalDBService.DeleteImage, hl,
        AList.lookup_erase_ne hdelete]

set_option maxRecDepth 100000 in
/-- The frame of C25 on the store holding the record of the test `DeleteImage`:
saving "test-id-1" or deleting "test-id-2" leaves `GetImage "test-id-delete"`
as it is. -/
theorem C25_mutation_frame_witness :
    "test-id-delete" ≠ testImage1.ID ∧ "test-id-delete" ≠ "test-id-2" ∧
    LocalDBService.GetImage storeWithDelete "test-id-delete" = (testImageDelete, none) ∧
    (LocalDBService.GetImage
        (LocalDBService.SaveImage plainCodec entryOrder dbDisk storeWithDelete testImage1).1
        "test-id-delete"
      = LocalDBService.GetImage storeWithDelete "test-id-delete" ∧
    LocalDBService.GetImage
        (LocalDBService.DeleteImage plainCodec entryOrder dbDisk storeWithDelete "test-id-2").1
        "test-id-delete"
      = LocalDBService.GetImage storeWithDelete "test-id-delete") :=
  ⟨by decide, by decide, by rfl,
    C25_mutation_frame plainCodec entryOrder dbDisk storeWithDelete testImage1 "test-id-2"
      "test-id-delete" (by decide) (by decide)⟩

/-- Go's `saveData` touches no file but the document of the store, whether it
succeeds or fails. -/
theorem saveData_frame (json : JSONLib) (ord : MapOrder) (fs : FS) (d : LocalDBService)
    (q : String) (hq : q ≠ docPath d) :
    (LocalDBService.saveData json ord fs d).1.files.lookup q = fs.files.lookup q := by
  unfold LocalDBService.saveData
  simp only
  cases hm : json.marshalIndent (rangeImages ord d.images) with
  | error e => rfl
  | ok data =>
    simp only
    cases hc : fs.canCreate (Clean (Join [d.storagePath, "images.json"])) with
    | true =>
      rw [WriteFile_of_can data hc]
      exact AList.lookup_insert_ne hq
    | false =>
      obtain ⟨err, he⟩ := WriteFile_of_cannot data hc
      rw [he]

/-- C27. No roll back: when the rewrite of the document fails, `SaveImage r`
returns its error, yet `GetImage r.ID` on the same store returns `r`; and when
the rewrite fails, `DeleteImage id` of a stored id returns its error, yet
`GetImage id` fails with "image not found". The change of the map is not
undone: when the document agreed with the map before the call and the failed
rewrite has left the document as it was, the document no longer agrees with
the map (for `SaveImage`, when `r` was not already the record stored under its
id). -/
theorem C27_not_rolled_back (json : JSONLib) (ord : MapOrder) (fs : FS) (d : LocalDBService)
    (r : Image) (id : String) (img : Image) (err err' : GoError) :
    ((LocalDBService.saveData json ord fs
        { d with images := d.images.insert r.ID r }).2 = some err →
      (LocalDBService.SaveImage json ord fs d r).2.2 = some err ∧
      LocalDBService.GetImage (LocalDBService.SaveImage json ord fs d r).1 r.ID = (r, none) ∧
      (DocAgrees json fs d → d.images.lookup r.ID ≠ some r →
        (LocalDBService.SaveImage json ord fs d r).2.1.files.lookup (docPath d)
          = fs.files.lookup (docPath d) →
        ¬ DocAgrees json (LocalDBService.SaveImage json ord fs d r).2.1
          (LocalDBService.SaveImage json ord fs d r).1)) ∧
    (d.images.lookup id = some img →
      (LocalDBService.saveData json ord fs
        { d with images := d.images.erase id }).2 = some err' →
      (LocalDBService.DeleteImage json ord fs d id).2.2 = some err' ∧
      LocalDBService.GetImage (LocalDBService.DeleteImage json ord fs d id).1 id
        = (Image.zero, some (.errorf "image not found")) ∧
      (DocAgrees json fs d →
        (LocalDBService.DeleteImage json ord fs d id).2.1.files.lookup (docPath d)
          = fs.files.lookup (docPath d) →
        ¬ DocAgrees json (LocalDBService.DeleteImage json ord fs d id).2.1
          (LocalDBService.DeleteImage json ord fs d id).1)) := by
  constructor
  · intro hsavefails
    have hs : LocalDBService.SaveImage json ord fs d r
        = ({ d with images := d.images.insert r.ID r },
            LocalDBService.saveData json ord fs { d with images := d.images.insert r.ID r }) :=
      rfl
    rw [hs]
    refine ⟨hsavefails, ?_, ?_⟩
    · simp [LocalDBService.GetImage, AList.lookup_insert]
    · rintro ⟨data, l, h1, h2, h3⟩ hne hdoc ⟨data', l', h1', h2', h3'⟩
      have hpath : docPath (LocalDBService.mk d.storagePath (d.images.insert r.ID r))
          = docPath d := rfl
      have hdata : data' = data := by
        have : some data' = some data := by
          rw [← h1', hpath]
          exact hdoc.trans h1
        exact Option.some.inj this
      subst hdata
      have hl : l' = l := by
        have : Except.ok l' = (Except.ok l : Except GoError (List Image)) := h2'.symm.trans h2
        exact Except.ok.inj this
      subst hl
      apply hne
      rw [← h3 r.ID, h3' r.ID]
      exact AList.lookup_insert _
  · intro hstored hdeletefails
    have hd : LocalDBService.DeleteImage json ord fs d id
        = ({ d with images := d.images.erase id },
            LocalDBService.saveData json ord fs { d with images := d.images.erase id }) := by
      simp only [LocalDBService.DeleteImage, hstored]
    rw [hd]
    refine ⟨hdeletefails, ?_, ?_⟩
    · simp [LocalDBService.GetImage, AList.lookup_erase]
    · rintro ⟨data, l, h1, h2, h3⟩ hdoc ⟨data', l', h1', h2', h3'⟩
      have hpath : docPath (LocalDBService.mk d.storagePath (d.images.erase id))
          = docPath d := rfl
      have hdata : data' = data := by
        have : some data' = some data := by
          rw [← h1', hpath]
          exact hdoc.trans h1
        exact Option.some.inj this
      subst hdata
      have hl : l' = l := by
        have : Except.ok l' = (Except.ok l : Except GoError (List Image)) := h2'.symm.trans h2
        exact Except.ok.inj this
      subst hl
      have hnone : (addAll ∅ l').lookup id = none := by
        rw [h3' id]
        exact AList.lookup_erase _ _
      rw [h3 id, hstored] at hnone
      simp at hnone

/-- C28. A failed delete changes nothing: for every store and every id that is
not a key of its map, `DeleteImage` returns "image not found" and leaves the
store and the whole disk, the persisted document included, exactly as they
were. -/
theorem C28_absent_delete_changes_nothing (json : JSONLib) (ord : MapOrder) (fs : FS)
    (d : LocalDBService) (id : String) (habsent : id ∉ d.images) :
    (LocalDBService.DeleteImage json ord fs d id).2.2 = some (.errorf "image not found") ∧
    (LocalDBService.DeleteImage json ord fs d id).1 = d ∧
    (LocalDBService.DeleteImage json ord fs d id).2.1 = fs ∧
    (LocalDBService.DeleteImage json ord fs d id).2.1.files.lookup (docPath d)
      = fs.files.lookup (docPath d) := by
  have hnone : d.images.lookup id = none := AList.lookup_eq_none.mpr habsent
  simp [LocalDBService.DeleteImage, hnone]

/-- C29. Case-sensitive extensions: for every key whose payload exists and
whose extension is none of the exact strings `.jpg`, `.jpeg`, `.png`, `.gif`,
`.webp`, `GetImage` returns the payload with the default content type
`image/jpeg`. -/
theorem C29_extension_case_sensitive (fs : FS) (s : LocalStorageService) (key : String)
    (content : Bytes)
    (hpayload : fs.files.lookup (Clean (Join [s.storagePath, key])) = some content)
    (hext : Ext key ∉ [".jpg", ".jpeg", ".png", ".gif", ".webp"]) :
    LocalStorageService.GetImage fs s key = (some content, "image/jpeg", none) := by
  rw [GetImage_of_payload hpayload]
  simp only [List.mem_cons, List.mem_singleton, List.not_mem_nil, or_false, not_or] at hext
  simp [extContentType, hext.1, hext.2.1, hext.2.2.1, hext.2.2.2.1, hext.2.2.2.2]

set_option maxRecDepth 100000 in
/-- The failure of C27 on a first save into the empty store while the document
cannot be made, and on the read-only document of the test `DeleteImage`, which
agrees with the map before the calls: `SaveImage` and `DeleteImage` return the
error of the rewrite, the first leaves the record readable, the second leaves
the id unreadable, and the document no longer agrees with either map. -/
theorem C27_not_rolled_back_witness :
    (LocalDBService.SaveImage plainCodec entryOrder deniedDocDisk emptyStore testImage1).2.2
      = some (.wrapped "failed to write images data"
          (.pathError "open" "/tmp/gallery/db/images.json" "permission denied")) ∧
    LocalDBService.GetImage
      (LocalDBService.SaveImage plainCodec entryOrder deniedDocDisk emptyStore testImage1).1
      testImage1.ID = (testImage1, none) ∧
    storeWithDelete.images.lookup "test-id-delete" = some testImageDelete ∧
    DocAgrees plainCodec readOnlyDisk storeWithDelete ∧
    storeWithDelete.images.lookup testImage1.ID ≠ some testImage1 ∧
    (LocalDBService.SaveImage plainCodec entryOrder readOnlyDisk storeWithDelete testImage1).2.2
      = some (.wrapped "failed to write images data"
          (.pathError "open" "/tmp/gallery/db/images.json" "permission denied")) ∧
    ¬ DocAgrees plainCodec
      (LocalDBService.SaveImage plainCodec entryOrder readOnlyDisk storeWithDelete testImage1).2.1
      (LocalDBService.SaveImage plainCodec entryOrder readOnlyDisk storeWithDelete testImage1).1 ∧
    (LocalDBService.DeleteImage plainCodec entryOrder readOnlyDisk storeWithDelete
        "test-id-delete").2.2
      = some (.wrapped "failed to write images data"
          (.pathError "open" "/tmp/gallery/db/images.json" "permission denied")) ∧
    LocalDBService.GetImage
      (LocalDBService.DeleteImage plainCodec entryOrder readOnlyDisk storeWithDelete
        "test-id-delete").1 "test-id-delete"
      = (Image.zero, some (.errorf "image not found")) ∧
    ¬ DocAgrees plainCodec
      (LocalDBService.DeleteImage plainCodec entryOrder readOnlyDisk storeWithDelete
        "test-id-delete").2.1
      (LocalDBService.DeleteImage plainCodec entryOrder readOnlyDisk storeWithDelete
        "test-id-delete").1 :=
  have hagree : DocAgrees plainCodec readOnlyDisk storeWithDelete :=
    ⟨encodeImage testImageDelete ++ [], [testImageDelete], by rfl, by decide, fun _ => rfl⟩
  have hnew : storeWithDelete.images.lookup testImage1.ID ≠ some testImage1 := by decide
  have h0 := (C27_not_rolled_back plainCodec entryOrder deniedDocDisk emptyStore testImage1
    "test-id-delete" testImageDelete
    (.wrapped "failed to write images data"
      (.pathError "open" "/tmp/gallery/db/images.json" "permission denied"))
    (.wrapped "failed to write images data"
      (.pathError "open" "/tmp/gallery/db/images.json" "permission denied"))).1 (by decide)
  have h := C27_not_rolled_back plainCodec entryOrder readOnlyDisk storeWithDelete testImage1
    "test-id-delete" testImageDelete
    (.wrapped "failed to write images data"
      (.pathError "open" "/tmp/gallery/db/images.json" "permission denied"))
    (.wrapped "failed to write images data"
      (.pathError "open" "/tmp/gallery/db/images.json" "permission denied"))
  have hs := h.1 (by decide)
  have hd := h.2 (by rfl) (by decide)
  ⟨h0.1, h0.2.1, by rfl, hagree, hnew, hs.1, hs.2.2 hagree hnew (by rfl),
    hd.1, hd.2.1, hd.2.2 hagree (by rfl)⟩

set_option maxRecDepth 100000 in
/-- The failed delete of the test `DeleteImage non-existent image`: on the empty
store nothing changes. -/
theorem C28_absent_delete_changes_nothing_witness :
    "non-existent-id" ∉ emptyStore.images ∧
    (LocalDBService.DeleteImage plainCodec entryOrder dbDisk emptyStore "non-existent-id").2.2
      = some (.errorf "image not found") ∧
    (LocalDBService.DeleteImage plainCodec entryOrder dbDisk emptyStore "non-existent-id").1
      = emptyStore ∧
    (LocalDBService.DeleteImage plainCodec entryOrder dbDisk emptyStore "non-existent-id").2.1
      = dbDisk ∧
    (LocalDBService.DeleteImage plainCodec entryOrder dbDisk emptyStore
        "non-existent-id").2.1.files.lookup (docPath emptyStore)
      = dbDisk.files.lookup (docPath emptyStore) :=
  ⟨by simp [emptyStore],
    C28_absent_delete_changes_nothing plainCodec entryOrder dbDisk emptyStore "non-existent-id"
      (by simp [emptyStore])⟩

set_option maxRecDepth 100000 in
/-- The payload stored under "a.PNG" is served as `image/jpeg`, while the
extension of "a.png" is mapped to `image/png`. -/
theorem C29_extension_case_sensitive_witness :
    upperCaseDisk.files.lookup (Clean (Join [testStorage.storagePath, "a.PNG"]))
      = some helloBytes ∧
    Ext "a.PNG" ∉ [".jpg", ".jpeg", ".png", ".gif", ".webp"] ∧
    extContentType "a.png" = "image/png" ∧
    LocalStorageService.GetImage upperCaseDisk testStorage "a.PNG"
      = (some helloBytes, "image/jpeg", none) :=
  ⟨by rfl, by decide, by decide,
    C29_extension_case_sensitive upperCaseDisk testStorage "a.PNG" helloBytes (by rfl)
      (by decide)⟩

/-! ## Local metadata store: the document after a run of mutations -/

theorem loadData_storagePath (json : JSONLib) (fs : FS) (d : LocalDBService) :
    (LocalDBService.loadData json fs d).1.storagePath = d.storagePath := by
  unfold LocalDBService.loadData
  simp only
  cases ReadFile fs (Join [d.storagePath, "images.json"]) with
  | error e => rfl
  | ok data =>
    simp only
    cases json.unmarshal data with
    | error e => rfl
    | ok images => rfl

theorem NewLocalDBService_storagePath {json : JSONLib} {fs fs1 : FS} {root : String}
    {d : LocalDBService} (h : NewLocalDBService json fs root = (fs1, .ok d)) :
    d.storagePath = Join [root, "db"] := by
  unfold NewLocalDBService at h
  simp only at h
  cases hm : MkdirAll fs (Join [root, "db"]) with
  | mk fsa ea =>
    rw [hm] at h
    cases ea with
    | some e => simp at h
    | none =>
      simp only at h
      have hsp := loadData_storagePath json fsa
        { storagePath := Join [root, "db"], images := ∅ }
      cases hl : LocalDBService.loadData json fsa
          { storagePath := Join [root, "db"], images := ∅ } with
      | mk s1 e1 =>
        rw [hl] at h hsp
        cases e1 with
        | none =>
          simp only [Prod.mk.injEq, Except.ok.injEq] at h
          rw [← h.2]; exact hsp
        | some e =>
          simp only at h
          split_ifs at h
          · simp at h
          · simp only [Prod.mk.injEq, Except.ok.injEq] at h
            rw [← h.2]; exact hsp

theorem applyMutation_storagePath (json : JSONLib) (ord : MapOrder) (fs : FS)
    (d : LocalDBService) (m : Mutation) :
    (applyMutation json ord fs d m).1.storagePath = d.storagePath := by
  cases m with
  | save image => rfl
  | delete id =>
    simp only [applyMutation, LocalDBService.DeleteImage]
    cases d.images.lookup id with
    | none => rfl
    | some img => rfl

theorem applyMutation_wellKeyed (json : JSONLib) (ord : MapOrder) (fs : FS)
    (d : LocalDBService) (m : Mutation) (h : d.WellKeyed) :
    (applyMutation json ord fs d m).1.WellKeyed := by
  cases m with
  | save image => exact SaveImage_wellKeyed json ord fs d image h
  | delete id => exact DeleteImage_wellKeyed json ord fs d id h

theorem runMutations_invariant (json : JSONLib) (ord : MapOrder) (ms : List Mutation) :
    ∀ (fs : FS) (d : LocalDBService), d.WellKeyed →
      (runMutations json ord fs d ms).1.WellKeyed ∧
      (runMutations json ord fs d ms).1.storagePath = d.storagePath := by
  induction ms with
  | nil => intro fs d h; exact ⟨h, rfl⟩
  | cons m ms ih =>
    intro fs d h
    have h1 := applyMutation_wellKeyed json ord fs d m h
    have h2 := applyMutation_storagePath json ord fs d m
    have hstep : runMutations json ord fs d (m :: ms)
        = runMutations json ord (applyMutation json ord fs d m).2.1
            (applyMutation json ord fs d m).1 ms := rfl
    rw [hstep]
    exact ⟨(ih _ _ h1).1, (ih _ _ h1).2.trans h2⟩

/-- A mutation that returns no error has rewritten the document from the map
it leaves. -/
theorem applyMutation_ok {json : JSONLib} {ord : MapOrder} {fs : FS} {d : LocalDBService}
    {m : Mutation} (h : (applyMutation json ord fs d m).2.2 = none) :
    LocalDBService.saveData json ord fs (applyMutation json ord fs d m).1
      = ((applyMutation json ord fs d m).2.1, none) := by
  cases m with
  | save image => exact Prod.ext rfl h
  | delete id =>
    simp only [applyMutation] at h ⊢
    cases hl : d.images.lookup id with
    | none => simp [LocalDBService.DeleteImage, hl] at h
    | some img =>
      simp only [LocalDBService.DeleteImage, hl] at h ⊢
      exact Prod.ext rfl h

/-- C26. Sequential persistence invariant: take a store built by
`NewLocalDBService root`, any run of `SaveImage` and `DeleteImage` calls on it,
and one more such call that returns no error. Then the document
`<root>/db/images.json` exists and decodes to a list with exactly one record
per id of the map, each equal to the record the map holds for its id; loaded
into an empty map it gives the map again. The decoder is taken to return the
list the encoder was given when it reads the document just written. -/
theorem C26_document_matches_map (json : JSONLib) (ord : MapOrder) (fs0 fs1 : FS)
    (root : String) (d0 : LocalDBService) (ms : List Mutation) (m : Mutation)
    (hnew : NewLocalDBService json fs0 root = (fs1, .ok d0))
    (hok : (applyMutation json ord (runMutations json ord fs1 d0 ms).2
      (runMutations json ord fs1 d0 ms).1 m).2.2 = none)
    (hjson : ∀ data,
      json.marshalIndent (rangeImages ord (applyMutation json ord
          (runMutations json ord fs1 d0 ms).2 (runMutations json ord fs1 d0 ms).1 m).1.images)
        = .ok data →
      json.unmarshal data
        = .ok (rangeImages ord (applyMutation json ord
          (runMutations json ord fs1 d0 ms).2 (runMutations json ord fs1 d0 ms).1 m).1.images)) :
    ∃ data l,
      (applyMutation json ord (runMutations json ord fs1 d0 ms).2
        (runMutations json ord fs1 d0 ms).1 m).2.1.files.lookup
          (Join [Join [root, "db"], "images.json"]) = some data ∧
      json.unmarshal data = .ok l ∧
      (l.map (fun r => r.ID)).Nodup ∧
      (∀ id img, (applyMutation json ord (runMutations json ord fs1 d0 ms).2
          (runMutations json ord fs1 d0 ms).1 m).1.images.lookup id = some img
        ↔ img ∈ l ∧ img.ID = id) ∧
      DocAgrees json
        (applyMutation json ord (runMutations json ord fs1 d0 ms).2
          (runMutations json ord fs1 d0 ms).1 m).2.1
        (applyMutation json ord (runMutations json ord fs1 d0 ms).2
          (runMutations json ord fs1 d0 ms).1 m).1 := by
  obtain ⟨_, hclean, _, _, _⟩ := db_layout root
  have hinv := runMutations_invariant json ord ms fs1 d0 (NewLocalDBService_wellKeyed hnew)
  have hwk := applyMutation_wellKeyed json ord (runMutations json ord fs1 d0 ms).2
    (runMutations json ord fs1 d0 ms).1 m hinv.1
  have hsp := (applyMutation_storagePath json ord (runMutations json ord fs1 d0 ms).2
    (runMutations json ord fs1 d0 ms).1 m).trans
      (hinv.2.trans (NewLocalDBService_storagePath hnew))
  have hsave := applyMutation_ok hok
  generalize (applyMutation json ord (runMutations json ord fs1 d0 ms).2
    (runMutations json ord fs1 d0 ms).1 m).1 = d at *
  generalize (applyMutation json ord (runMutations json ord fs1 d0 ms).2
    (runMutations json ord fs1 d0 ms).1 m).2.1 = fs2 at *
  have hdoc : docPath d = Join [Join [root, "db"], "images.json"] := by
    unfold docPath
    rw [hsp, hclean]
  obtain ⟨data, hm, _, hfs2⟩ := saveData_ok hsave
  have hlookup : fs2.files.lookup (Join [Join [root, "db"], "images.json"]) = some data := by
    rw [hfs2, hdoc]
    exact AList.lookup_insert _
  have hperm : (rangeImages ord d.images).Perm (d.images.entries.map (fun e => e.2)) :=
    ord.isPerm _
  refine ⟨data, rangeImages ord d.images, hlookup, hjson data hm, ?_, ?_, ?_⟩
  · have hp := hperm.map (fun r => r.ID)
    rw [wellKeyed_ids hwk] at hp
    exact hp.nodup_iff.mpr d.images.keys_nodup
  · intro id img
    constructor
    · intro h
      exact ⟨(mem_rangeImages ord d.images img).mpr ⟨id, h⟩, wellKeyed_lookup hwk h⟩
    · rintro ⟨hmem, hid⟩
      obtain ⟨k, hk⟩ := (mem_rangeImages ord d.images img).mp hmem
      have := wellKeyed_lookup hwk hk
      rw [← hid, this]
      exact hk
  · exact ⟨data, rangeImages ord d.images, by rw [hdoc]; exact hlookup, hjson data hm,
      fun id => lookup_addAll_values hwk hperm id⟩

set_option maxRecDepth 100000 in
/-- The invariant of C26 on the store of the tests: built on the temporary
directory, after `SaveImage` of "test-id-2", a `DeleteImage` of it, a failed
`DeleteImage` of an absent id and a `SaveImage` of "test-id-3", the call
`SaveImage` of "test-id-1" returns no error and the document decodes to the
records of the map. -/
theorem C26_document_matches_map_witness :
    NewLocalDBService plainCodec tempDisk "/tmp/gallery" = (dbDisk, .ok emptyStore) ∧
    (applyMutation plainCodec entryOrder
      (runMutations plainCodec entryOrder dbDisk emptyStore
        [.save testImage2, .delete "test-id-2", .delete "non-existent-id", .save testImage3]).2
      (runMutations plainCodec entryOrder dbDisk emptyStore
        [.save testImage2, .delete "test-id-2", .delete "non-existent-id", .save testImage3]).1
      (.save testImage1)).2.2 = none ∧
    ∃ data l,
      (applyMutation plainCodec entryOrder
        (runMutations plainCodec entryOrder dbDisk emptyStore
          [.save testImage2, .delete "test-id-2", .delete "non-existent-id",
            .save testImage3]).2
        (runMutations plainCodec entryOrder dbDisk emptyStore
          [.save testImage2, .delete "test-id-2", .delete "non-existent-id",
            .save testImage3]).1
        (.save testImage1)).2.1.files.lookup
          (Join [Join ["/tmp/gallery", "db"], "images.json"]) = some data ∧
      plainCodec.unmarshal data = .ok l ∧
      (l.map (fun r => r.ID)).Nodup ∧
      (∀ id img, (applyMutation plainCodec entryOrder
          (runMutations plainCodec entryOrder dbDisk emptyStore
            [.save testImage2, .delete "test-id-2", .delete "non-existent-id",
              .save testImage3]).2
          (runMutations plainCodec entryOrder dbDisk emptyStore
            [.save testImage2, .delete "test-id-2", .delete "non-existent-id",
              .save testImage3]).1
          (.save testImage1)).1.images.lookup id = some img
        ↔ img ∈ l ∧ img.ID = id) ∧
      DocAgrees plainCodec
        (applyMutation plainCodec entryOrder
          (runMutations plainCodec entryOrder dbDisk emptyStore
            [.save testImage2, .delete "test-id-2", .delete "non-existent-id",
              .save testImage3]).2
          (runMutations plainCodec entryOrder dbDisk emptyStore
            [.save testImage2, .delete "test-id-2", .delete "non-existent-id",
              .save testImage3]).1
          (.save testImage1)).2.1
        (applyMutation plainCodec entryOrder
          (runMutations plainCodec entryOrder dbDisk emptyStore
            [.save testImage2, .delete "test-id-2", .delete "non-existent-id",
              .save testImage3]).2
          (runMutations plainCodec entryOrder dbDisk emptyStore
            [.save testImage2, .delete "test-id-2", .delete "non-existent-id",
              .save testImage3]).1
          (.save testImage1)).1 :=
  ⟨by rfl, by decide,
    C26_document_matches_map plainCodec entryOrder tempDisk dbDisk "/tmp/gallery" emptyStore
      [.save testImage2, .delete "test-id-2", .delete "non-existent-id", .save testImage3]
      (.save testImage1) (by rfl) (by decide)
      (fun data hm => by
        have hd : data = ([testImage1, testImage3].map encodeImage).flatten :=
          (Except.ok.inj hm).symm
        rw [hd]
        decide)⟩

/-! ## Loading a document with repeated ids -/

theorem addAll_append (m : AList (fun _ : String => Image)) (l1 l2 : List Image) :
    addAll m (l1 ++ l2) = addAll (addAll m l1) l2 := by
  simp only [addAll, List.foldl_append]

/-- The keys of the map after the loop of `loadData`. -/
theorem mem_addAll (l : List Image) :
    ∀ (m : AList (fun _ : String => Image)) (id : String),
      id ∈ addAll m l ↔ id ∈ m ∨ id ∈ l.map (fun r => r.ID) := by
  induction l with
  | nil => intro m id; simp [addAll]
  | cons a l ih =>
    intro m id
    show id ∈ addAll (m.insert a.ID a) l ↔ _
    rw [ih, AList.mem_insert, List.map_cons, List.mem_cons]
    tauto

/-- The number of keys of the map loaded from a list of records is the number
of distinct ids of the list. -/
theorem addAll_keys_length (l : List Image) :
    (addAll ∅ l).keys.length = (l.map (fun r => r.ID)).dedup.length := by
  apply List.Perm.length_eq
  rw [List.perm_ext_iff_of_nodup (addAll ∅ l).keys_nodup (List.nodup_dedup _)]
  intro id
  rw [List.mem_dedup, ← AList.mem_keys, mem_addAll]
  simp

/-- C30. Repeated ids in the document: when the document under `<root>/db`
decodes to a list of records, `NewLocalDBService root` succeeds whatever ids
repeat in the list; for every record of the list that no later record shares
its id with, `GetImage` on its id returns that record (of several records under
one id the last one of the array is kept); an id of no record of the list is
not found; and `ListImages` returns as many records as the list has distinct
ids. -/
theorem C30_repeated_ids (json : JSONLib) (ord : MapOrder) (fs : FS) (root : String)
    (data : Bytes) (l : List Image)
    (hdir : fs.isDir (Join [root, "db"]) = true)
    (hdoc : fs.files.lookup (Join [Join [root, "db"], "images.json"]) = some data)
    (hdecode : json.unmarshal data = .ok l) :
    ∃ d : LocalDBService,
      NewLocalDBService json fs root = (fs, .ok d) ∧
      (∀ before r after, l = before ++ r :: after → (∀ x ∈ after, x.ID ≠ r.ID) →
        LocalDBService.GetImage d r.ID = (r, none)) ∧
      (∀ id, id ∉ l.map (fun r => r.ID) →
        LocalDBService.GetImage d id = (Image.zero, some (.errorf "image not found"))) ∧
      (LocalDBService.ListImages ord d).2 = none ∧
      (LocalDBService.ListImages ord d).1.length = (l.map (fun r => r.ID)).dedup.length := by
  have hnew := @NewLocalDBService_of_mkdir json _ _ _ (MkdirAll_db_of_isDir hdir)
  rw [hdoc] at hnew
  simp only [hdecode] at hnew
  refine ⟨_, hnew, ?_, ?_, rfl, ?_⟩
  · intro before r after hl hlast
    have hnot : r.ID ∉ after.map (fun x => x.ID) := by
      intro hmem
      obtain ⟨x, hx, hxid⟩ := List.mem_map.mp hmem
      exact hlast x hx hxid
    have hlook : (addAll ∅ l).lookup r.ID = some r := by
      rw [hl, addAll_append]
      show (addAll ((addAll ∅ before).insert r.ID r) after).lookup r.ID = some r
      rw [lookup_addAll_of_not_mem after _ _ hnot]
      exact AList.lookup_insert _
    simp [LocalDBService.GetImage, hlook]
  · intro id hid
    have hlook : (addAll ∅ l).lookup id = none := by
      rw [lookup_addAll_of_not_mem l _ _ hid]
      rfl
    simp [LocalDBService.GetImage, hlook]
  · show (rangeImages ord (addAll ∅ l)).length = _
    rw [← addAll_keys_length l]
    unfold rangeImages
    rw [(ord.isPerm _).length_eq, List.length_map]
    simp [AList.keys, List.keys]

set_option maxRecDepth 100000 in
/-- The load of C30 on a document holding "test-id-1", "test-id-2" and again
"test-id-1" under another title: the store is built, `GetImage "test-id-1"`
returns the record of the second title, and `ListImages` returns two records. -/
theorem C30_repeated_ids_witness :
    repeatedDisk.isDir (Join ["/tmp/gallery", "db"]) = true ∧
    repeatedDisk.files.lookup (Join [Join ["/tmp/gallery", "db"], "images.json"])
      = some (([testImage1, testImage2, retitledImage1].map encodeImage).flatten) ∧
    plainCodec.unmarshal (([testImage1, testImage2, retitledImage1].map encodeImage).flatten)
      = .ok [testImage1, testImage2, retitledImage1] ∧
    retitledImage1.ID = testImage1.ID ∧ retitledImage1 ≠ testImage1 ∧
    ∃ d : LocalDBService,
      NewLocalDBService plainCodec repeatedDisk "/tmp/gallery" = (repeatedDisk, .ok d) ∧
      LocalDBService.GetImage d "test-id-1" = (retitledImage1, none) ∧
      (LocalDBService.ListImages entryOrder d).1.length = 2 :=
  have h := C30_repeated_ids plainCodec entryOrder repeatedDisk "/tmp/gallery"
    (([testImage1, testImage2, retitledImage1].map encodeImage).flatten)
    [testImage1, testImage2, retitledImage1] (by decide) (by rfl) (by decide)
  ⟨by decide, by rfl, by decide, by decide, by decide,
    h.elim fun d hd =>
      ⟨d, hd.1, hd.2.1 [testImage1, testImage2] retitledImage1 [] rfl (by simp),
        hd.2.2.2.2.trans (by decide)⟩⟩

/-! ## Handlers: the calls they make -/

/-- Recording the calls changes neither the world nor the response of
`UploadImage`, and the record grows by the calls of the handler: none when the
request cannot be read, the upload alone when it returns an error, the upload
and then the save of the new record otherwise. -/
theorem traced_UploadImage {σ : Type} (h : ImageHandler σ) (st : σ) (t : List ServiceCall)
    (req : UploadRequest) (id : String) (now1 now2 : Time) :
    (h.traced.UploadImage (st, t) req id now1 now2).1.1
      = (h.UploadImage st req id now1 now2).1 ∧
    (h.traced.UploadImage (st, t) req id now1 now2).2
      = (h.UploadImage st req id now1 now2).2 ∧
    (h.traced.UploadImage (st, t) req id now1 now2).1.2
      = t ++
        match req.parseErr, req.formFile with
        | none, .ok (file, handler) =>
          if (h.storageService.UploadImage st (id ++ Ext handler.Filename) file
              handler.ContentType).2 = none then
            [.storageUploadImage (id ++ Ext handler.Filename) handler.ContentType,
              .databaseSaveImage
                { ID := id, Title := req.title, Description := req.description,
                  S3Key := id ++ Ext handler.Filename, ContentType := handler.ContentType,
                  Size := handler.Size, CreatedAt := now1, UpdatedAt := now2 }]
          else [.storageUploadImage (id ++ Ext handler.Filename) handler.ContentType]
        | _, _ => [] := by
  unfold ImageHandler.UploadImage
  cases hp : req.parseErr with
  | some e => simp
  | none =>
    cases hf : req.formFile with
    | error e => simp
    | ok fh =>
      obtain ⟨file, handler⟩ := fh
      simp only [ImageHandler.traced, StorageService.traced, DatabaseService.traced]
      cases hu : h.storageService.UploadImage st (id ++ Ext handler.Filename) file
          handler.ContentType with
      | mk st1 e1 =>
        cases e1 with
        | some e => simp
        | none =>
          simp only
          cases hs : h.databaseService.SaveImage st1
              { ID := id, Title := req.title, Description := req.description,
                S3Key := id ++ Ext handler.Filename, ContentType := handler.ContentType,
                Size := handler.Size, CreatedAt := now1, UpdatedAt := now2 } with
          | mk st2 e2 =>
            cases e2 with
            | some e => simp
            | none => simp

/-- Recording the calls changes neither the world nor the response of
`DeleteImage`, and the record grows by the calls of the handler: none when the
record is not found, the payload delete alone when it returns an error, the
payload delete and then the metadata delete otherwise. -/
theorem traced_DeleteImage {σ : Type} (h : ImageHandler σ) (st : σ) (t : List ServiceCall)
    (id : String) :
    (h.traced.DeleteImage (st, t) id).1.1 = (h.DeleteImage st id).1 ∧
    (h.traced.DeleteImage (st, t) id).2 = (h.DeleteImage st id).2 ∧
    (h.traced.DeleteImage (st, t) id).1.2
      = t ++
        if (h.databaseService.GetImage st id).2 = none then
          if (h.storageService.DeleteImage st (h.databaseService.GetImage st id).1.S3Key).2
              = none then
            [.storageDeleteImage (h.databaseService.GetImage st id).1.S3Key,
              .databaseDeleteImage id]
          else [.storageDeleteImage (h.databaseService.GetImage st id).1.S3Key]
        else [] := by
  unfold ImageHandler.DeleteImage
  simp only [ImageHandler.traced, StorageService.traced, DatabaseService.traced]
  cases hg : h.databaseService.GetImage st id with
  | mk existingImage e0 =>
    cases e0 with
    | some e => simp
    | none =>
      simp only
      cases hd : h.storageService.DeleteImage st existingImage.S3Key with
      | mk st1 e1 =>
        cases e1 with
        | some e => simp
        | none =>
          simp only
          cases hs : h.databaseService.DeleteImage st1 id with
          | mk st2 e2 =>
            cases e2 with
            | some e => simp
            | none => simp

/-- Recording the calls changes neither the world nor the response of
`UpdateImage`, and the record grows by the one save of the handler, of the
stored record with the new title, description and update time, when the record
is found. -/
theorem traced_UpdateImage {σ : Type} (h : ImageHandler σ) (st : σ) (t : List ServiceCall)
    (id title description : String) (now : Time) :
    (h.traced.UpdateImage (st, t) id title description now).1.1
      = (h.UpdateImage st id title description now).1 ∧
    (h.traced.UpdateImage (st, t) id title description now).2
      = (h.UpdateImage st id title description now).2 ∧
    (h.traced.UpdateImage (st, t) id title description now).1.2
      = t ++
        if (h.databaseService.GetImage st id).2 = none then
          [.databaseSaveImage
            { (h.databaseService.GetImage st id).1 with
              Title := title, Description := description, UpdatedAt := now }]
        else [] := by
  unfold ImageHandler.UpdateImage
  simp only [ImageHandler.traced, StorageService.traced, DatabaseService.traced]
  cases hg : h.databaseService.GetImage st id with
  | mk existingImage e0 =>
    cases e0 with
    | some e => simp
    | none =>
      simp only
      cases hs : h.databaseService.SaveImage st
          (Image.mk existingImage.ID title description existingImage.S3Key
            existingImage.ContentType existingImage.Size existingImage.CreatedAt now) with
      | mk st1 e1 =>
        cases e1 with
        | some e => simp
        | none => simp

/-! ## Handlers over the local services -/

/-- C21, as stated, fails with the local metadata store: the handler uploads the
payload of the test request under "abc123.jpg", the save of its record fails
because the document cannot be rewritten, the handler answers 500, and yet the
record is in the store: `GetImage "abc123"` returns it, next to the stored
payload. -/
theorem C21_record_kept_after_failed_save :
    ((localHandler plainCodec entryOrder testStorage).UploadImage
        { fs := deniedDocDisk, db := emptyStore } testUpload "abc123" testNow testNow).2
      = .error "Failed to save image metadata" 500 ∧
    LocalStorageService.GetImage
        ((localHandler plainCodec entryOrder testStorage).UploadImage
          { fs := deniedDocDisk, db := emptyStore } testUpload "abc123" testNow testNow).1.fs
        testStorage "abc123.jpg"
      = (some fakeImageContent, "image/jpeg", none) ∧
    LocalDBService.GetImage
        ((localHandler plainCodec entryOrder testStorage).UploadImage
          { fs := deniedDocDisk, db := emptyStore } testUpload "abc123" testNow testNow).1.db
        "abc123"
      = (uploadedImage, none) ∧
    (LocalDBService.ListImages entryOrder
        ((localHandler plainCodec entryOrder testStorage).UploadImage
          { fs := deniedDocDisk, db := emptyStore } testUpload "abc123" testNow testNow).1.db).1
      = [uploadedImage] := by
  refine ⟨?_, ?_, ?_, ?_⟩
  · decide
  · decide
  · rfl
  · rfl

/-- C21, amended. In the `UploadImage` handler, over any two services, a save
is called only as the second call, right after the upload of the payload under
the storage key of the same record, and only when that upload returned no
error. With the local services, when the handler answers that the save failed,
the upload had returned no error and the payload is still fetched under its
key (the document of the metadata store being another file); and the record is
in the map of the metadata store, where `GetImage` returns it. -/
theorem C21_upload_order {σ : Type} (h : ImageHandler σ) (st : σ) (req : UploadRequest)
    (id : String) (now1 now2 : Time) (json : JSONLib) (ord : MapOrder)
    (s : LocalStorageService) (w : LocalWorld) :
    (∀ image, ServiceCall.databaseSaveImage image
        ∈ (h.traced.UploadImage (st, []) req id now1 now2).1.2 →
      ∃ file handler, req.formFile = .ok (file, handler) ∧
        (h.traced.UploadImage (st, []) req id now1 now2).1.2
          = [.storageUploadImage image.S3Key image.ContentType, .databaseSaveImage image] ∧
        (h.storageService.UploadImage st image.S3Key file image.ContentType).2 = none ∧
        image.ID = id ∧ image.S3Key = id ++ Ext handler.Filename) ∧
    (((localHandler json ord s).UploadImage w req id now1 now2).2
        = .error "Failed to save image metadata" 500 →
      ∃ file handler, req.formFile = .ok (file, handler) ∧
        (LocalStorageService.UploadImage w.fs s (id ++ Ext handler.Filename) file
          handler.ContentType).2 = none ∧
        (docPath w.db ≠ Clean (Join [s.storagePath, id ++ Ext handler.Filename]) →
          LocalStorageService.GetImage
              ((localHandler json ord s).UploadImage w req id now1 now2).1.fs s
              (id ++ Ext handler.Filename)
            = (some file.data, extContentType (id ++ Ext handler.Filename), none)) ∧
        LocalDBService.GetImage
            ((localHandler json ord s).UploadImage w req id now1 now2).1.db id
          = ({ ID := id, Title := req.title, Description := req.description,
               S3Key := id ++ Ext handler.Filename, ContentType := handler.ContentType,
               Size := handler.Size, CreatedAt := now1, UpdatedAt := now2 }, none)) := by
  constructor
  · intro image hmem
    rw [(traced_UploadImage h st [] req id now1 now2).2.2] at hmem ⊢
    cases hp : req.parseErr with
    | some e => simp [hp] at hmem
    | none =>
      cases hf : req.formFile with
      | error e => simp [hp, hf] at hmem
      | ok fh =>
        obtain ⟨file, handler⟩ := fh
        simp only [hp, hf, List.nil_append] at hmem ⊢
        by_cases hu : (h.storageService.UploadImage st (id ++ Ext handler.Filename) file
            handler.ContentType).2 = none
        · rw [if_pos hu] at hmem ⊢
          simp only [List.mem_cons, List.mem_singleton, List.not_mem_nil, or_false,
            false_or, reduceCtorEq, ServiceCall.databaseSaveImage.injEq] at hmem
          subst hmem
          exact ⟨file, handler, rfl, rfl, hu, rfl, rfl⟩
        · rw [if_neg hu] at hmem
          simp at hmem
  · intro hresp
    unfold ImageHandler.UploadImage at hresp ⊢
    cases hp : req.parseErr with
    | some e => simp [hp] at hresp
    | none =>
      cases hf : req.formFile with
      | error e => simp [hp, hf] at hresp
      | ok fh =>
        obtain ⟨file, handler⟩ := fh
        simp only [hp, hf, localHandler, localStorageService, localDatabaseService]
          at hresp ⊢
        cases hu : LocalStorageService.UploadImage w.fs s (id ++ Ext handler.Filename) file
            handler.ContentType with
        | mk fs1 e1 =>
          cases e1 with
          | some e => simp [hu] at hresp
          | none =>
            simp only [hu] at hresp ⊢
            cases hs : LocalDBService.saveData json ord fs1
                (LocalDBService.mk w.db.storagePath
                  (w.db.images.insert id
                    (Image.mk id req.title req.description (id ++ Ext handler.Filename)
                      handler.ContentType handler.Size now1 now2))) with
            | mk fs2 e2 =>
              cases e2 with
              | none => simp [LocalDBService.SaveImage, hs] at hresp
              | some e =>
                have hpay := UploadImage_ok hu
                have hframe : ∀ q, q ≠ docPath w.db →
                    fs2.files.lookup q = fs1.files.lookup q := by
                  intro q hq
                  have := saveData_frame json ord fs1
                    (LocalDBService.mk w.db.storagePath
                      (w.db.images.insert id
                        (Image.mk id req.title req.description (id ++ Ext handler.Filename)
                          handler.ContentType handler.Size now1 now2))) q hq
                  rw [hs] at this
                  exact this
                simp only [LocalDBService.SaveImage, hs]
                refine ⟨file, handler, rfl, ?_, ?_, ?_⟩
                · rw [hu]
                · intro hq
                  exact GetImage_of_payload ((hframe _ (Ne.symm hq)).trans hpay)
                · simp [LocalDBService.GetImage, AList.lookup_insert]

set_option maxRecDepth 100000 in
/-- The amended C21 on the upload of the test request while the document cannot
be rewritten: the handler answers that the save failed, its calls were the
upload and then the save, the payload is fetched from the disk and the record
from the map. -/
theorem C21_upload_order_witness :
    ((localHandler plainCodec entryOrder testStorage).UploadImage
        { fs := deniedDocDisk, db := emptyStore } testUpload "abc123" testNow testNow).2
      = .error "Failed to save image metadata" 500 ∧
    (∀ image, ServiceCall.databaseSaveImage image
        ∈ ((localHandler plainCodec entryOrder testStorage).traced.UploadImage
            ({ fs := deniedDocDisk, db := emptyStore }, []) testUpload "abc123" testNow
            testNow).1.2 →
      ((localHandler plainCodec entryOrder testStorage).traced.UploadImage
          ({ fs := deniedDocDisk, db := emptyStore }, []) testUpload "abc123" testNow
          testNow).1.2
        = [.storageUploadImage image.S3Key image.ContentType, .databaseSaveImage image]) ∧
    ∃ file handler, testUpload.formFile = .ok (file, handler) ∧
      (docPath emptyStore ≠ Clean (Join [testStorage.storagePath,
          "abc123" ++ Ext handler.Filename]) →
        LocalStorageService.GetImage
            ((localHandler plainCodec entryOrder testStorage).UploadImage
              { fs := deniedDocDisk, db := emptyStore } testUpload "abc123" testNow
              testNow).1.fs
            testStorage ("abc123" ++ Ext handler.Filename)
          = (some file.data, extContentType ("abc123" ++ Ext handler.Filename), none)) ∧
      LocalDBService.GetImage
          ((localHandler plainCodec entryOrder testStorage).UploadImage
            { fs := deniedDocDisk, db := emptyStore } testUpload "abc123" testNow testNow).1.db
          "abc123"
        = ({ ID := "abc123", Title := testUpload.title, Description := testUpload.description,
             S3Key := "abc123" ++ Ext handler.Filename, ContentType := handler.ContentType,
             Size := handler.Size, CreatedAt := testNow, UpdatedAt := testNow }, none) :=
  have h := C21_upload_order (localHandler plainCodec entryOrder testStorage)
    { fs := deniedDocDisk, db := emptyStore } testUpload "abc123" testNow testNow
    plainCodec entryOrder testStorage { fs := deniedDocDisk, db := emptyStore }
  ⟨by decide,
    fun image hmem => (h.1 image hmem).elim fun _ hx => hx.elim fun _ hy => hy.2.1,
    (h.2 (by decide)).elim fun file hx => hx.elim fun handler hy =>
      ⟨file, handler, hy.1, hy.2.2.1, hy.2.2.2⟩⟩

set_option maxRecDepth 100000 in
/-- C22, as stated, fails with the local metadata store: the record of the test
`DeleteImage` and its payload are stored, the document cannot be rewritten, the
handler deletes the payload and answers that the metadata delete failed, and
`GetImage` on the id no longer returns the record: it fails with "image not
found". -/
theorem C22_record_gone_after_failed_delete :
    LocalDBService.GetImage readOnlyWorld.db "test-id-delete" = (testImageDelete, none) ∧
    LocalStorageService.GetImage readOnlyWorld.fs testStorage "delete-test.jpg"
      = (some fakeImageContent, "image/jpeg", none) ∧
    ((localHandler plainCodec entryOrder testStorage).DeleteImage readOnlyWorld
        "test-id-delete").2
      = .error "Failed to delete image metadata" 500 ∧
    (LocalStorageService.GetImage
        ((localHandler plainCodec entryOrder testStorage).DeleteImage readOnlyWorld
          "test-id-delete").1.fs testStorage "delete-test.jpg").1 = none ∧
    LocalDBService.GetImage
        ((localHandler plainCodec entryOrder testStorage).DeleteImage readOnlyWorld
          "test-id-delete").1.db "test-id-delete"
      = (Image.zero, some (.errorf "image not found")) := by
  refine ⟨?_, ?_, ?_, ?_, ?_⟩
  · rfl
  · decide
  · decide
  · decide
  · rfl

/-- C22, amended. In the `DeleteImage` handler, over any two services, the
metadata delete is called only as the second call, right after the delete of
the payload of the record found under the id, and only when that delete
returned no error. With the local services: when the handler answers that the
payload delete failed, it has made that call alone and the world, the record
included, is unchanged; when it answers that the metadata delete failed, the
payload delete had returned no error, no payload is fetched under the storage
key (the document of the metadata store being another file), and the record is
gone from the map: `GetImage` on the id fails with "image not found". -/
theorem C22_delete_order {σ : Type} (h : ImageHandler σ) (st : σ) (id : String)
    (json : JSONLib) (ord : MapOrder) (s : LocalStorageService) (w : LocalWorld) :
    (∀ id', ServiceCall.databaseDeleteImage id' ∈ (h.traced.DeleteImage (st, []) id).1.2 →
      (h.traced.DeleteImage (st, []) id).1.2
        = [.storageDeleteImage (h.databaseService.GetImage st id).1.S3Key,
            .databaseDeleteImage id'] ∧
      id' = id ∧ (h.databaseService.GetImage st id).2 = none ∧
      (h.storageService.DeleteImage st (h.databaseService.GetImage st id).1.S3Key).2 = none) ∧
    (((localHandler json ord s).DeleteImage w id).2
        = .error "Failed to delete image from S3" 500 →
      ((localHandler json ord s).DeleteImage w id).1 = w ∧
      ((localHandler json ord s).traced.DeleteImage (w, []) id).1.2
        = [.storageDeleteImage (LocalDBService.GetImage w.db id).1.S3Key]) ∧
    (((localHandler json ord s).DeleteImage w id).2
        = .error "Failed to delete image metadata" 500 →
      ∃ r, w.db.images.lookup id = some r ∧
        (LocalStorageService.DeleteImage w.fs s r.S3Key).2 = none ∧
        (docPath w.db ≠ Clean (Join [s.storagePath, r.S3Key]) →
          (LocalStorageService.GetImage ((localHandler json ord s).DeleteImage w id).1.fs s
            r.S3Key).1 = none ∧
          (LocalStorageService.GetImage ((localHandler json ord s).DeleteImage w id).1.fs s
            r.S3Key).2.2 ≠ none) ∧
        LocalDBService.GetImage ((localHandler json ord s).DeleteImage w id).1.db id
          = (Image.zero, some (.errorf "image not found"))) := by
  refine ⟨?_, ?_, ?_⟩
  · intro id' hmem
    rw [(traced_DeleteImage h st [] id).2.2] at hmem ⊢
    by_cases hg : (h.databaseService.GetImage st id).2 = none
    · by_cases hd : (h.storageService.DeleteImage st
          (h.databaseService.GetImage st id).1.S3Key).2 = none
      · simp only [if_pos hg, if_pos hd, List.nil_append] at hmem ⊢
        simp only [List.mem_cons, List.mem_singleton, List.not_mem_nil, or_false,
          false_or, reduceCtorEq, ServiceCall.databaseDeleteImage.injEq] at hmem
        subst hmem
        exact ⟨rfl, rfl, hg, hd⟩
      · simp [if_pos hg, if_neg hd] at hmem
    · simp [if_neg hg] at hmem
  · intro hresp
    have htrace := (traced_DeleteImage (localHandler json ord s) w [] id).2.2
    rw [htrace]
    unfold ImageHandler.DeleteImage at hresp ⊢
    simp only [localHandler, localStorageService, localDatabaseService,
      LocalDBService.GetImage] at hresp ⊢
    cases hl : w.db.images.lookup id with
    | none => simp [hl] at hresp
    | some r =>
      simp only [hl] at hresp ⊢
      cases hd : LocalStorageService.DeleteImage w.fs s r.S3Key with
      | mk fs1 e1 =>
        cases e1 with
        | some e =>
          simp only [hd]
          have hfs : (Remove w.fs (Join [s.storagePath, r.S3Key])).1 = w.fs :=
            Remove_error (by
              show (LocalStorageService.DeleteImage w.fs s r.S3Key).2 ≠ none
              rw [hd]; simp)
          have hfs1 : fs1 = w.fs := by
            have : (LocalStorageService.DeleteImage w.fs s r.S3Key).1 = w.fs := hfs
            rw [hd] at this
            exact this
          subst hfs1
          exact ⟨rfl, by simp⟩
        | none =>
          simp only [hd] at hresp
          cases hm : LocalDBService.DeleteImage json ord fs1 w.db id with
          | mk d2 rest =>
            obtain ⟨fs2, e2⟩ := rest
            cases e2 with
            | some e => simp [hm] at hresp
            | none => simp [hm] at hresp
  · intro hresp
    unfold ImageHandler.DeleteImage at hresp ⊢
    simp only [localHandler, localStorageService, localDatabaseService,
      LocalDBService.GetImage] at hresp ⊢
    cases hl : w.db.images.lookup id with
    | none => simp [hl] at hresp
    | some r =>
      simp only [hl] at hresp ⊢
      cases hd : LocalStorageService.DeleteImage w.fs s r.S3Key with
      | mk fs1 e1 =>
        cases e1 with
        | some e => simp [hd] at hresp
        | none =>
          simp only [hd] at hresp ⊢
          have hgone : fs1.files.lookup (Clean (Join [s.storagePath, r.S3Key])) = none := by
            have := @Remove_ok_lookup w.fs (Join [s.storagePath, r.S3Key]) (by
              show (LocalStorageService.DeleteImage w.fs s r.S3Key).2 = none
              rw [hd])
            have hfst : (Remove w.fs (Join [s.storagePath, r.S3Key])).1 = fs1 := by
              show (LocalStorageService.DeleteImage w.fs s r.S3Key).1 = fs1
              rw [hd]
            rw [hfst] at this
            exact this
          cases hs : LocalDBService.saveData json ord fs1
              (LocalDBService.mk w.db.storagePath (w.db.images.erase id)) with
          | mk fs2 e2 =>
            cases e2 with
            | none => simp [LocalDBService.DeleteImage, hl, hs] at hresp
            | some e =>
              have hframe : ∀ q, q ≠ docPath w.db →
                  fs2.files.lookup q = fs1.files.lookup q := by
                intro q hq
                have := saveData_frame json ord fs1
                  (LocalDBService.mk w.db.storagePath (w.db.images.erase id)) q hq
                rw [hs] at this
                exact this
              simp only [LocalDBService.DeleteImage, hl, hs]
              refine ⟨r, rfl, ?_, ?_, ?_⟩
              · rw [hd]
              · intro hq
                obtain ⟨err, hget, _⟩ := @GetImage_of_no_payload fs2 s r.S3Key
                  ((hframe _ (Ne.symm hq)).trans hgone)
                rw [hget]
                exact ⟨rfl, by simp⟩
              · simp [AList.lookup_erase]

set_option maxRecDepth 100000 in
/-- The amended C22 on the record of the test `DeleteImage`: with its payload
never written, the payload delete fails and the world is unchanged; with its
payload stored and the document read-only, the metadata delete fails, after the
payload delete, and neither the payload nor the record is found afterwards. -/
theorem C22_delete_order_witness :
    ((localHandler plainCodec entryOrder testStorage).DeleteImage danglingWorld
        "test-id-delete").2 = .error "Failed to delete image from S3" 500 ∧
    (((localHandler plainCodec entryOrder testStorage).DeleteImage danglingWorld
        "test-id-delete").1 = danglingWorld ∧
      ((localHandler plainCodec entryOrder testStorage).traced.DeleteImage
          (danglingWorld, []) "test-id-delete").1.2
        = [.storageDeleteImage
            (LocalDBService.GetImage danglingWorld.db "test-id-delete").1.S3Key]) ∧
    ((localHandler plainCodec entryOrder testStorage).DeleteImage readOnlyWorld
        "test-id-delete").2 = .error "Failed to delete image metadata" 500 ∧
    (∀ id', ServiceCall.databaseDeleteImage id'
        ∈ ((localHandler plainCodec entryOrder testStorage).traced.DeleteImage
            (readOnlyWorld, []) "test-id-delete").1.2 →
      ((localHandler plainCodec entryOrder testStorage).traced.DeleteImage
          (readOnlyWorld, []) "test-id-delete").1.2
        = [.storageDeleteImage "delete-test.jpg", .databaseDeleteImage id']) ∧
    ∃ r, readOnlyWorld.db.images.lookup "test-id-delete" = some r ∧
      (docPath readOnlyWorld.db ≠ Clean (Join [testStorage.storagePath, r.S3Key]) →
        (LocalStorageService.GetImage
          ((localHandler plainCodec entryOrder testStorage).DeleteImage readOnlyWorld
            "test-id-delete").1.fs testStorage r.S3Key).1 = none ∧
        (LocalStorageService.GetImage
          ((localHandler plainCodec entryOrder testStorage).DeleteImage readOnlyWorld
            "test-id-delete").1.fs testStorage r.S3Key).2.2 ≠ none) ∧
      LocalDBService.GetImage
          ((localHandler plainCodec entryOrder testStorage).DeleteImage readOnlyWorld
            "test-id-delete").1.db "test-id-delete"
        = (Image.zero, some (.errorf "image not found")) :=
  have h1 := C22_delete_order (localHandler plainCodec entryOrder testStorage) danglingWorld
    "test-id-delete" plainCodec entryOrder testStorage danglingWorld
  have h2 := C22_delete_order (localHandler plainCodec entryOrder testStorage) readOnlyWorld
    "test-id-delete" plainCodec entryOrder testStorage readOnlyWorld
  ⟨by decide, h1.2.1 (by decide), by decide,
    fun id' hmem => (h2.1 id' hmem).1,
    (h2.2.2 (by decide)).elim fun r hr => ⟨r, hr.1, hr.2.2.1, hr.2.2.2⟩⟩

set_option maxRecDepth 100000 in
/-- C23, as stated, fails: the record of the test `DeleteImage` is stored and
its payload is absent from the local object store; the handler answers 500
"Failed to delete image from S3" and the record is still in the metadata
store. -/
theorem C23_missing_payload_keeps_record :
    LocalDBService.GetImage danglingWorld.db "test-id-delete" = (testImageDelete, none) ∧
    (LocalStorageService.GetImage danglingWorld.fs testStorage testImageDelete.S3Key).1
      = none ∧
    (LocalStorageService.DeleteImage danglingWorld.fs testStorage testImageDelete.S3Key).2
      = some (.notExist "remove" "/tmp/gallery/delete-test.jpg") ∧
    ((localHandler plainCodec entryOrder testStorage).DeleteImage danglingWorld
        "test-id-delete").2 = .error "Failed to delete image from S3" 500 ∧
    LocalDBService.GetImage
        ((localHandler plainCodec entryOrder testStorage).DeleteImage danglingWorld
          "test-id-delete").1.db "test-id-delete"
      = (testImageDelete, none) := by
  refine ⟨?_, ?_, ?_, ?_, ?_⟩
  · rfl
  · decide
  · decide
  · decide
  · rfl

/-- C23, amended. For every record stored in the local metadata store whose
payload path holds nothing in the local object store, neither a file nor a
directory, the `DeleteImage` handler does not remove the record: the payload
delete returns an error, the handler answers 500 "Failed to delete image from
S3" after that call alone, and the world is unchanged, so `GetImage` still
returns the record. -/
theorem C23_missing_payload_blocks_delete (json : JSONLib) (ord : MapOrder)
    (s : LocalStorageService) (w : LocalWorld) (id : String) (r : Image)
    (hstored : w.db.images.lookup id = some r)
    (hmissing : w.fs.files.lookup (Clean (Join [s.storagePath, r.S3Key])) = none)
    (hnodir : w.fs.isDir (Clean (Join [s.storagePath, r.S3Key])) = false) :
    (LocalStorageService.DeleteImage w.fs s r.S3Key).2 ≠ none ∧
    (localHandler json ord s).DeleteImage w id
      = (w, .error "Failed to delete image from S3" 500) ∧
    ((localHandler json ord s).traced.DeleteImage (w, []) id).1.2
      = [.storageDeleteImage r.S3Key] ∧
    LocalDBService.GetImage ((localHandler json ord s).DeleteImage w id).1.db id
      = (r, none) := by
  have hrem : LocalStorageService.DeleteImage w.fs s r.S3Key
      = (w.fs, some (.notExist "remove" (Clean (Join [s.storagePath, r.S3Key])))) :=
    Remove_of_missing hmissing hnodir
  have hres : (localHandler json ord s).DeleteImage w id
      = (w, .error "Failed to delete image from S3" 500) := by
    unfold ImageHandler.DeleteImage
    simp only [localHandler, localStorageService, localDatabaseService,
      LocalDBService.GetImage, hstored, hrem]
  refine ⟨by rw [hrem]; simp, hres, ?_, ?_⟩
  · rw [(traced_DeleteImage (localHandler json ord s) w [] id).2.2]
    simp [localHandler, localStorageService, localDatabaseService,
      LocalDBService.GetImage, hstored, hrem]
  · rw [hres]
    simp [LocalDBService.GetImage, hstored]

set_option maxRecDepth 100000 in
/-- The amended C23 on the record of the test `DeleteImage`, whose payload was
never written. -/
theorem C23_missing_payload_blocks_delete_witness :
    danglingWorld.db.images.lookup "test-id-delete" = some testImageDelete ∧
    danglingWorld.fs.files.lookup (Clean (Join [testStorage.storagePath,
      testImageDelete.S3Key])) = none ∧
    danglingWorld.fs.isDir (Clean (Join [testStorage.storagePath,
      testImageDelete.S3Key])) = false ∧
    ((LocalStorageService.DeleteImage danglingWorld.fs testStorage testImageDelete.S3Key).2
      ≠ none ∧
    (localHandler plainCodec entryOrder testStorage).DeleteImage danglingWorld
        "test-id-delete"
      = (danglingWorld, .error "Failed to delete image from S3" 500) ∧
    ((localHandler plainCodec entryOrder testStorage).traced.DeleteImage
        (danglingWorld, []) "test-id-delete").1.2
      = [.storageDeleteImage testImageDelete.S3Key] ∧
    LocalDBService.GetImage
        ((localHandler plainCodec entryOrder testStorage).DeleteImage danglingWorld
          "test-id-delete").1.db "test-id-delete"
      = (testImageDelete, none)) :=
  ⟨by rfl, by rfl, by decide,
    C23_missing_payload_blocks_delete plainCodec entryOrder testStorage danglingWorld
      "test-id-delete" testImageDelete (by rfl) (by rfl) (by decide)⟩

/-- Replacing the record of a key of the map keeps the number of records. -/
theorem length_insert_of_mem {m : AList (fun _ : String => Image)} {id : String}
    (hmem : id ∈ m) (r : Image) : (m.insert id r).keys.length = m.keys.length := by
  apply List.Perm.length_eq
  rw [List.perm_ext_iff_of_nodup (m.insert id r).keys_nodup m.keys_nodup]
  intro k
  rw [← AList.mem_keys, ← AList.mem_keys, AList.mem_insert]
  constructor
  · rintro (rfl | hk)
    · exact hmem
    · exact hk
  · exact Or.inr

/-- C24. Field immutability on update: for every record `r` stored under an id
of the local metadata store (whose keys are the ids of its records) and every
submitted title and description, the `UpdateImage` handler makes one call, the
save of a record with the id, storage key, content type, size and creation time
of `r`, the submitted title and description and the new update time. It is
saved under the same id: `GetImage` on the id returns it when the save succeeds
or fails, every other id is answered as before, the ids of the store are the
same and `ListImages` returns as many records as before. -/
theorem C24_update_keeps_fields (json : JSONLib) (ord ord' : MapOrder)
    (s : LocalStorageService) (w : LocalWorld) (id : String) (r : Image)
    (title description : String) (now : Time)
    (hwk : w.db.WellKeyed) (hstored : w.db.images.lookup id = some r) :
    ∃ r' : Image,
      ((localHandler json ord s).traced.UpdateImage (w, []) id title description now).1.2
        = [.databaseSaveImage r'] ∧
      r'.ID = r.ID ∧ r'.S3Key = r.S3Key ∧ r'.ContentType = r.ContentType ∧
      r'.Size = r.Size ∧ r'.CreatedAt = r.CreatedAt ∧
      r'.Title = title ∧ r'.Description = description ∧ r'.UpdatedAt = now ∧
      r'.ID = id ∧
      LocalDBService.GetImage
          ((localHandler json ord s).UpdateImage w id title description now).1.db id
        = (r', none) ∧
      (∀ id', id' ≠ id →
        LocalDBService.GetImage
            ((localHandler json ord s).UpdateImage w id title description now).1.db id'
          = LocalDBService.GetImage w.db id') ∧
      (∀ id', id' ∈ ((localHandler json ord s).UpdateImage w id title description now).1.db.images
        ↔ id' ∈ w.db.images) ∧
      (LocalDBService.ListImages ord'
          ((localHandler json ord s).UpdateImage w id title description now).1.db).1.length
        = (LocalDBService.ListImages ord' w.db).1.length := by
  have hid : r.ID = id := wellKeyed_lookup hwk hstored
  have hmem : id ∈ w.db.images := by
    rw [← AList.lookup_isSome, hstored]; rfl
  have hdb : ((localHandler json ord s).UpdateImage w id title description now).1.db
      = LocalDBService.mk w.db.storagePath (w.db.images.insert id
          (Image.mk r.ID title description r.S3Key r.ContentType r.Size r.CreatedAt now)) := by
    unfold ImageHandler.UpdateImage
    simp only [localHandler, localDatabaseService, LocalDBService.GetImage, hstored,
      LocalDBService.SaveImage, hid]
    cases hs : LocalDBService.saveData json ord w.fs
        (LocalDBService.mk w.db.storagePath (w.db.images.insert id
          (Image.mk id title description r.S3Key r.ContentType r.Size r.CreatedAt now))) with
    | mk fs1 e1 =>
      cases e1 with
      | some e => rfl
      | none => rfl
  refine ⟨Image.mk r.ID title description r.S3Key r.ContentType r.Size r.CreatedAt now,
    ?_, rfl, rfl, rfl, rfl, rfl, rfl, rfl, rfl, hid, ?_, ?_, ?_, ?_⟩
  · rw [(traced_UpdateImage (localHandler json ord s) w [] id title description now).2.2]
    simp [localHandler, localDatabaseService, LocalDBService.GetImage, hstored]
  · rw [hdb]
    simp [LocalDBService.GetImage, AList.lookup_insert]
  · intro id' hne
    rw [hdb]
    simp only [LocalDBService.GetImage, AList.lookup_insert_ne hne]
  · intro id'
    rw [hdb]
    simp only [AList.mem_insert]
    constructor
    · rintro (rfl | hk)
      · exact hmem
      · exact hk
    · exact Or.inr
  · rw [hdb]
    simp only [LocalDBService.ListImages, rangeImages]
    rw [(ord'.isPerm _).length_eq, (ord'.isPerm _).length_eq, List.length_map, List.length_map]
    have := length_insert_of_mem hmem
      (Image.mk r.ID title description r.S3Key r.ContentType r.Size r.CreatedAt now)
    simpa [AList.keys, List.keys] using this

set_option maxRecDepth 100000 in
/-- The update of C24 on the record of the test `DeleteImage`: the handler saves
it with the new title and description, and the store still lists one record. -/
theorem C24_update_keeps_fields_witness :
    danglingWorld.db.WellKeyed ∧
    danglingWorld.db.images.lookup "test-id-delete" = some testImageDelete ∧
    ((localHandler plainCodec entryOrder testStorage).UpdateImage danglingWorld
        "test-id-delete" "New Title" "New description" ⟨1700000100, 0⟩).2
      = .redirect "/" 303 ∧
    ∃ r' : Image,
      ((localHandler plainCodec entryOrder testStorage).traced.UpdateImage
          (danglingWorld, []) "test-id-delete" "New Title" "New description"
          ⟨1700000100, 0⟩).1.2 = [.databaseSaveImage r'] ∧
      r'.ID = testImageDelete.ID ∧ r'.S3Key = testImageDelete.S3Key ∧
      r'.ContentType = testImageDelete.ContentType ∧ r'.Size = testImageDelete.Size ∧
      r'.CreatedAt = testImageDelete.CreatedAt ∧
      r'.Title = "New Title" ∧ r'.Description = "New description" ∧
      r'.UpdatedAt = ⟨1700000100, 0⟩ ∧
      (LocalDBService.ListImages reverseOrder
          ((localHandler plainCodec entryOrder testStorage).UpdateImage danglingWorld
            "test-id-delete" "New Title" "New description" ⟨1700000100, 0⟩).1.db).1.length
        = (LocalDBService.ListImages reverseOrder danglingWorld.db).1.length :=
  have hwk : danglingWorld.db.WellKeyed := by
    intro e he
    simp only [danglingWorld, storeWithDelete, AList.singleton, List.mem_singleton] at he
    subst he
    rfl
  ⟨hwk, by rfl, by decide,
    (C24_update_keeps_fields plainCodec entryOrder reverseOrder testStorage danglingWorld
      "test-id-delete" testImageDelete "New Title" "New description" ⟨1700000100, 0⟩
      hwk (by rfl)).elim fun r' hr =>
        ⟨r', hr.1, hr.2.1, hr.2.2.1, hr.2.2.2.1, hr.2.2.2.2.1, hr.2.2.2.2.2.1,
          hr.2.2.2.2.2.2.1, hr.2.2.2.2.2.2.2.1, hr.2.2.2.2.2.2.2.2.1,
          hr.2.2.2.2.2.2.2.2.2.2.2.2.2⟩⟩

end ImageGallery
